import Mathlib

/-!
Verification of sdfdiff: block selection, numeric diff and index bookkeeping.

A shallow embedding of the parts of `sdfdiff.c` that decide which blocks are
compared (`parse_args`, `parse_format`, `main`), how two element buffers are
compared (`diff_block`), how a linear element index is split into
per-dimension indices and how elements are laid out on lines (`pretty_print`,
`pretty_print_mesh`), and how a value is scaled for printing (`print_value`).

Conventions of the embedding:

* C `int` values are mathematical integers; the sums, differences and products
  of `parse_args` and `pretty_print` are reduced with `wrap32` (two's
  complement), every comparison is the comparison of integers.  Counters that
  are only incremented and compared (the block counter `idx` of `main`, the
  element counters of `pretty_print` and `pretty_print_mesh`) are not reduced:
  they count far fewer than `INT_MAX` steps.
* C `double` values are the type `Dbl`: finite values (as rationals), the
  negative zero, the two infinities and NaN, with the IEEE-754 rules for the
  special values.  The rounding of an inexact finite result is a parameter
  `rnd : ℚ → Dbl` of every operation that rounds, so the theorems hold for
  every rounding function; `Dbl.fin` (no rounding) is used where a concrete
  run is evaluated.
* Output is a list of `Event`s in program order; a read outside a buffer, an
  `int` division by zero and a type-punned read are `none`.  A `double`
  division by zero gives an infinity or NaN; `rel_test_guarded` is the reading
  of the division of `diff_block` as a partial operation.  What the print
  functions write is a list of `Tok`s, one per `printf` call.
* Strings are lists of characters, a read past the end gives the terminator.
* The functions `log10` and `pow` of the C mathematical library are a
  parameter `Libm` of `print_value`.
-/

namespace sdfdiff

/-! ## Machine integers -/

/-- Largest value of a C `int` (`limits.h`). -/
def INT_MAX : Int := 2147483647

/-- Smallest value of a C `int` (`limits.h`). -/
def INT_MIN : Int := -2147483648

/-- Two's-complement reduction of an integer to the range of a C `int`. -/
def wrap32 (x : Int) : Int := (x + 2147483648) % 4294967296 - 2147483648

/-- Two's-complement reduction of an integer to the range of an `int64_t`. -/
def wrap64 (x : Int) : Int :=
  (x + 9223372036854775808) % 18446744073709551616 - 9223372036854775808

/-- C division of two `int`s: truncation toward zero; a zero divisor and the
overflowing quotient `INT_MIN / -1` trap. -/
def c_div (a b : Int) : Option Int :=
  if b = 0 then none
  else if a = INT_MIN ∧ b = -1 then none
  else some (Int.tdiv a b)

/-! ## Double precision values -/

/-- Values of a C `double`: a finite value (`fin 0` is the positive zero), the
negative zero, the infinities and NaN. -/
inductive Dbl where
  | fin (q : ℚ)
  | nzero
  | pinf
  | ninf
  | nan
deriving DecidableEq

namespace Dbl

/-- Numeric value of a finite double (both zeros are `0`). -/
def val : Dbl → ℚ
  | fin q => q
  | _ => 0

/-- Whether the value is one of the infinities. -/
def isInf : Dbl → Bool
  | pinf => true
  | ninf => true
  | _ => false

/-- Whether the value is one of the two zeros. -/
def isZero : Dbl → Bool
  | fin q => decide (q = 0)
  | nzero => true
  | _ => false

/-- Sign bit of a value. -/
def signbit : Dbl → Bool
  | fin q => decide (q < 0)
  | nzero => true
  | ninf => true
  | _ => false

/-- The C comparison `a < b` on doubles: false as soon as one side is NaN. -/
def lt : Dbl → Dbl → Bool
  | nan, _ => false
  | _, nan => false
  | pinf, _ => false
  | _, ninf => false
  | ninf, _ => true
  | _, pinf => true
  | a, b => decide (a.val < b.val)

/-- The C comparison `a <= b` on doubles: false as soon as one side is NaN. -/
def le : Dbl → Dbl → Bool
  | nan, _ => false
  | _, nan => false
  | ninf, _ => true
  | _, pinf => true
  | pinf, _ => false
  | _, ninf => false
  | a, b => decide (a.val ≤ b.val)

/-- The C comparison `a > b` on doubles. -/
def gt (a b : Dbl) : Bool := lt b a

/-- The C comparison `a >= b` on doubles. -/
def ge (a b : Dbl) : Bool := le b a

/-- Unary minus: flips the sign, also of a zero. -/
def neg : Dbl → Dbl
  | fin q => if q = 0 then nzero else fin (-q)
  | nzero => fin 0
  | pinf => ninf
  | ninf => pinf
  | nan => nan

/-- Infinity with the given sign bit. -/
def signedInf (s : Bool) : Dbl := if s then ninf else pinf

/-- Zero with the given sign bit. -/
def signedZero (s : Bool) : Dbl := if s then nzero else fin 0

/-- The C subtraction `a - b`: NaN for `inf - inf`, an exact zero difference is
the positive zero except for `(-0) - (+0)`, any other finite difference is
rounded by `rnd`. -/
def sub (rnd : ℚ → Dbl) : Dbl → Dbl → Dbl
  | nan, _ => nan
  | _, nan => nan
  | pinf, pinf => nan
  | ninf, ninf => nan
  | pinf, _ => pinf
  | ninf, _ => ninf
  | _, pinf => ninf
  | _, ninf => pinf
  | a, b =>
    if a.val - b.val = 0 then
      (if a = nzero ∧ b = fin 0 then nzero else fin 0)
    else rnd (a.val - b.val)

/-- The C division `a / b`: NaN for `inf / inf` and `0 / 0`, a signed infinity
for a non-zero value divided by a zero, a signed zero for `0 / x` and
`x / inf`, any other quotient is rounded by `rnd`. -/
def div (rnd : ℚ → Dbl) (a b : Dbl) : Dbl :=
  match a, b with
  | nan, _ => nan
  | _, nan => nan
  | a, b =>
    if a.isInf then (if b.isInf then nan else signedInf (xor a.signbit b.signbit))
    else if b.isInf then signedZero (xor a.signbit b.signbit)
    else if b.isZero then
      (if a.isZero then nan else signedInf (xor a.signbit b.signbit))
    else if a.isZero then signedZero (xor a.signbit b.signbit)
    else rnd (a.val / b.val)

/-- Conversion of an `int32_t` or a `char` to `double`: always exact. -/
def ofInt32 (i : Int) : Dbl := fin i

/-- Conversion of an `int64_t` to `double`: exact up to `2^53` in magnitude,
rounded by `rnd` above. -/
def ofInt64 (rnd : ℚ → Dbl) (i : Int) : Dbl :=
  if i.natAbs ≤ 9007199254740992 then fin i else rnd i

end Dbl

/-- The macro `ABS(a)`: `((a) < 0.0) ? -(a) : (a)`. -/
def ABS (a : Dbl) : Dbl := if Dbl.lt a (Dbl.fin 0) then Dbl.neg a else a

/-- The macro `MIN(a,b)`: `((a) < (b)) ? (a) : (b)`. -/
def MIN (a b : Dbl) : Dbl := if Dbl.lt a b then a else b

/-! ## Blocks and output -/

/-- Block type tags of the SDF library that `sdfdiff.c` names. -/
inductive BlockType where
  | SDF_BLOCKTYPE_SCRUBBED
  | SDF_BLOCKTYPE_NULL
  | SDF_BLOCKTYPE_PLAIN_MESH
  | SDF_BLOCKTYPE_POINT_MESH
  | SDF_BLOCKTYPE_PLAIN_VARIABLE
  | SDF_BLOCKTYPE_POINT_VARIABLE
  | SDF_BLOCKTYPE_CONSTANT
  | SDF_BLOCKTYPE_ARRAY
  | SDF_BLOCKTYPE_RUN_INFO
  | SDF_BLOCKTYPE_SOURCE
  | SDF_BLOCKTYPE_STITCHED_TENSOR
  | SDF_BLOCKTYPE_STITCHED_MATERIAL
  | SDF_BLOCKTYPE_STITCHED_MATVAR
  | SDF_BLOCKTYPE_STITCHED_SPECIES
  | SDF_BLOCKTYPE_SPECIES
  | SDF_BLOCKTYPE_PLAIN_DERIVED
  | SDF_BLOCKTYPE_POINT_DERIVED
  | SDF_BLOCKTYPE_CONTIGUOUS_TENSOR
  | SDF_BLOCKTYPE_CONTIGUOUS_MATERIAL
  | SDF_BLOCKTYPE_CONTIGUOUS_MATVAR
  | SDF_BLOCKTYPE_CONTIGUOUS_SPECIES
  | SDF_BLOCKTYPE_CPU_SPLIT
  | SDF_BLOCKTYPE_STITCHED_OBSTACLE_GROUP
  | SDF_BLOCKTYPE_UNSTRUCTURED_MESH
  | SDF_BLOCKTYPE_STITCHED
  | SDF_BLOCKTYPE_CONTIGUOUS
  | SDF_BLOCKTYPE_LAGRANGIAN_MESH
  | SDF_BLOCKTYPE_STATION
  | SDF_BLOCKTYPE_STATION_DERIVED
  | SDF_BLOCKTYPE_DATABLOCK
  | SDF_BLOCKTYPE_NAMEVALUE
deriving DecidableEq

/-- Datatype tags of the SDF library. -/
inductive Datatype where
  | SDF_DATATYPE_NULL
  | SDF_DATATYPE_INTEGER4
  | SDF_DATATYPE_INTEGER8
  | SDF_DATATYPE_REAL4
  | SDF_DATATYPE_REAL8
  | SDF_DATATYPE_REAL16
  | SDF_DATATYPE_CHARACTER
  | SDF_DATATYPE_LOGICAL
  | SDF_DATATYPE_OTHER
deriving DecidableEq

/-- The element buffer `b->data` of a block, by the type of its elements:
`int32_t`, `int64_t`, `float`, `double` or `char`.  A `float` element is kept
as the `double` it converts to (the conversion is exact). -/
inductive Buffer where
  | i4 (xs : List Int)
  | i8 (xs : List Int)
  | r4 (xs : List Dbl)
  | r8 (xs : List Dbl)
  | l (xs : List Int)
deriving DecidableEq

/-- Number of elements held by a buffer. -/
def Buffer.size : Buffer → Nat
  | .i4 xs => xs.length
  | .i8 xs => xs.length
  | .r4 xs => xs.length
  | .r8 xs => xs.length
  | .l xs => xs.length

/-- The fields of `sdf_block_t` that the comparison reads: `data` is the buffer
as it is once `sdf_helper_read_data` has loaded it. -/
structure Block where
  id : List Char
  blocktype : BlockType
  datatype : Datatype
  nelements_local : Int
  data : Buffer
deriving DecidableEq

/-- What the program does that can be observed, in program order. -/
inductive Event where
  -- the call sdf_helper_read_data(handles[file], b) on the block id
  | read_data (file : Nat) (id : List Char)
  -- the line "%s (%i): %g %g" printed by diff_block (n is the element index)
  | mismatch (id : List Char) (n : Nat) (val1 val2 : Dbl)
  -- the line "%s not found in second file" printed by main
  | not_found (id : List Char)
  -- the call print_metadata(b, idx, h->nblocks) made by main: what the call
  -- writes, the line "Block N, ID: %s not found in second file" first, is
  -- given by the function print_metadata below
  | print_metadata (id : List Char) (idx : Int)
deriving DecidableEq

/-- Whether a buffer holds elements of the datatype `dt`, for the five
datatypes that `diff_block` compares. -/
def Buffer.holds : Buffer → Datatype → Bool
  | .i4 _, .SDF_DATATYPE_INTEGER4 => true
  | .i8 _, .SDF_DATATYPE_INTEGER8 => true
  | .r4 _, .SDF_DATATYPE_REAL4 => true
  | .r8 _, .SDF_DATATYPE_REAL8 => true
  | .l _, .SDF_DATATYPE_LOGICAL => true
  | _, _ => false

/-- The elements of a buffer as the `double` values they convert to. -/
def Buffer.values (rnd : ℚ → Dbl) : Buffer → List Dbl
  | .i4 xs => xs.map Dbl.ofInt32
  | .i8 xs => xs.map (Dbl.ofInt64 rnd)
  | .r4 xs => xs
  | .r8 xs => xs
  | .l xs => xs.map Dbl.ofInt32

/-! ## diff_block -/

/-- The loads `val1 = i4_1[n]`, `val1 = i8_1[n]`, `val1 = r4_1[n]`,
`val1 = r8_1[n]` and `val1 = l_1[n]`: element `n` of a buffer read at the
datatype `dt` and converted to `double`.  A read past the end of the buffer, or
of a buffer holding another element type, is `none`. -/
def load (rnd : ℚ → Dbl) (dt : Datatype) (buf : Buffer) (n : Nat) : Option Dbl :=
  match dt, buf with
  | .SDF_DATATYPE_INTEGER4, .i4 xs => (xs.get? n).map Dbl.ofInt32
  | .SDF_DATATYPE_INTEGER8, .i8 xs => (xs.get? n).map (Dbl.ofInt64 rnd)
  | .SDF_DATATYPE_REAL4, .r4 xs => xs.get? n
  | .SDF_DATATYPE_REAL8, .r8 xs => xs.get? n
  | .SDF_DATATYPE_LOGICAL, .l xs => (xs.get? n).map Dbl.ofInt32
  | _, _ => none

/-- The value `ABS(val1 - val2) / MIN(ABS(val1), ABS(val2))` that every
datatype branch of `diff_block` computes. -/
def rel_diff (rnd : ℚ → Dbl) (val1 val2 : Dbl) : Dbl :=
  Dbl.div rnd (ABS (Dbl.sub rnd val1 val2)) (MIN (ABS val1) (ABS val2))

/-- The test `ABS(val1 - val2) / MIN(ABS(val1), ABS(val2)) > relerr` of
`diff_block`. -/
def rel_test (rnd : ℚ → Dbl) (relerr val1 val2 : Dbl) : Bool :=
  Dbl.gt (rel_diff rnd val1 val2) relerr

/-- The loop `for (n = 0; n < b1->nelements_local; n++)` of one datatype branch
of `diff_block`, with `left` iterations to go from element `n`: both buffers
are read at the datatype of `b1`, and a line is printed when the test holds. -/
def diff_loop (rnd : ℚ → Dbl) (relerr : Dbl) (b1 b2 : Block) :
    Nat → Nat → Option (List Event)
  | 0, _ => some []
  | left + 1, n =>
    match load rnd b1.datatype b1.data n, load rnd b1.datatype b2.data n with
    | some val1, some val2 =>
      match diff_loop rnd relerr b1 b2 left (n + 1) with
      | some rest =>
        if rel_test rnd relerr val1 val2 then
          some (Event.mismatch b1.id n val1 val2 :: rest)
        else some rest
      | none => none
    | _, _ => none

/-- The function `diff_block(handles, b1, b2)`: its return value and what it
does.  Blocks that are neither plain variables nor plain derived variables
return at once; otherwise the data of both blocks is loaded and the loop of the
branch selected by `b1->datatype` runs (no branch for the other datatypes). -/
def diff_block (rnd : ℚ → Dbl) (relerr : Dbl) (b1 b2 : Block) :
    Option (Int × List Event) :=
  match b1.blocktype with
  | .SDF_BLOCKTYPE_PLAIN_DERIVED | .SDF_BLOCKTYPE_PLAIN_VARIABLE =>
    let reads := [Event.read_data 0 b1.id, Event.read_data 1 b2.id]
    match b1.datatype with
    | .SDF_DATATYPE_INTEGER4 | .SDF_DATATYPE_INTEGER8 | .SDF_DATATYPE_REAL4
    | .SDF_DATATYPE_REAL8 | .SDF_DATATYPE_LOGICAL =>
      (diff_loop rnd relerr b1 b2 b1.nelements_local.toNat 0).map
        (fun out => (0, reads ++ out))
    | _ => some (0, reads)
  | _ => some (0, [])

/-! ## Block selection in main -/

/-- An entry of `range_list`. -/
structure range_type where
  start : Int
  «end» : Int
deriving DecidableEq

/-- The settings that `parse_args` leaves for `main`: `nrange` is the length of
`range_list`, `variable_ids` is the linked list of identifiers (`NULL` when
empty). -/
structure Config where
  range_list : List range_type
  variable_ids : List (List Char)
  exclude_variables : Bool
  metadata : Bool
  relerr : Dbl

/-- The variables of `main` that live across iterations of the block loop. -/
structure LoopState where
  found : Bool
  range_start : Nat
  idx : Int
deriving DecidableEq

/-- What one iteration of the block loop of `main` did: the ordinal `idx`,
whether the range loop set `found`, the value of `found` at the
include/exclude test, whether the block got past that test, and the output of
the iteration (`none` when `diff_block` faults). -/
structure Visit where
  idx : Int
  range_found : Bool
  found : Bool
  processed : Bool
  out : Option (List Event)
deriving DecidableEq

/-- The loop `for (n = range_start; n < nrange; n++)` of `main` at ordinal
`idx`, run over the entries from the cursor on: whether it set `found`, and the
new value of `range_start`. -/
def range_loop (idx : Int) : List range_type → Nat → Bool × Nat
  | [], range_start => (false, range_start)
  | r :: rest, range_start =>
    if idx < r.start then (false, range_start)
    else if idx ≤ r.«end» then (true, range_start)
    else range_loop idx rest (range_start + 1)

/-- The bytes of a C string in memory: its characters and the terminator. -/
def c_str (s : List Char) : List Char := s ++ [Char.ofNat 0]

/-- Whether `memcmp(s1, s2, n)` returns `0`: the first `n` bytes agree. -/
def memcmp_eq (s1 s2 : List Char) (n : Nat) : Bool :=
  decide (s1.take n = s2.take n)

/-- The loop over `variable_ids` of `main`: whether
`memcmp(b->id, entry->id, strlen(entry->id)+1)` is `0` for some entry. -/
def id_loop (id : List Char) : List (List Char) → Bool
  | [] => false
  | entry :: next =>
    if memcmp_eq (c_str id) (c_str entry) (entry.length + 1) then true
    else id_loop id next

/-- Modelled from the spec: `sdf_find_block_by_id` of the SDF library, the
lookup of a block in a file's collection by exact identifier; the first block
with that identifier, if any. -/
def sdf_find_block_by_id (h2 : List Block) (id : List Char) : Option Block :=
  h2.find? (fun b => decide (b.id = id))

/-- The search part of one iteration of the block loop of `main` on the block
`b`, from the reset of `found` to the end of the identifier loop: whether the
range loop set `found`, the value of `found`, and the new `range_start`. -/
def main_search (cfg : Config) (s : LoopState) (b : Block) : Bool × Bool × Nat :=
  let found0 :=
    if cfg.range_list.length > 0 ∨ cfg.variable_ids ≠ [] then false else s.found
  let scan := range_loop s.idx (cfg.range_list.drop s.range_start) s.range_start
  let found1 := if scan.1 then true else found0
  let found2 :=
    if found1 = false ∧ cfg.variable_ids ≠ [] then id_loop b.id cfg.variable_ids
    else found1
  (scan.1, found2, scan.2)

/-- One iteration of the block loop of `main` on the block `b`: the search, the
include/exclude test, the lookup in the second file and the comparison. -/
def main_step (rnd : ℚ → Dbl) (cfg : Config) (h2 : List Block) (s : LoopState)
    (b : Block) : LoopState × Visit :=
  let found := (main_search cfg s b).2.1
  let skip := if cfg.exclude_variables then found else !found
  let out :=
    if skip then some []
    else
      match sdf_find_block_by_id h2 b.id with
      | none =>
        if cfg.metadata then some [Event.print_metadata b.id s.idx]
        else some [Event.not_found b.id]
      | some b2 => (diff_block rnd cfg.relerr b b2).map (fun r => r.2)
  (⟨found, (main_search cfg s b).2.2, s.idx + 1⟩,
    ⟨s.idx, (main_search cfg s b).1, found, !skip, out⟩)

/-- The block loop of `main` over the block list of the first file, from the
state `s`: one `Visit` per block, in list order. -/
def main_loop (rnd : ℚ → Dbl) (cfg : Config) (h2 : List Block) :
    LoopState → List Block → List Visit
  | _, [] => []
  | s, b :: next =>
    (main_step rnd cfg h2 s b).2 :: main_loop rnd cfg h2 (main_step rnd cfg h2 s b).1 next

/-- The state of `main` on entry to the block loop: `found = 1`,
`range_start = 0`, `idx = 1`. -/
def main_init : LoopState := ⟨true, 0, 1⟩

/-- Output of a sequence of iterations, in order; `none` if one faulted. -/
def join_out : List Visit → Option (List Event)
  | [] => some []
  | v :: vs =>
    match v.out, join_out vs with
    | some o, some os => some (o ++ os)
    | _, _ => none

/-- The block loop of `main` on the block lists `h` and `h2` of the two files:
everything it prints and loads. -/
def main (rnd : ℚ → Dbl) (cfg : Config) (h h2 : List Block) : Option (List Event) :=
  join_out (main_loop rnd cfg h2 main_init h)

/-! ## The range list of parse_args -/

/-- The comparator `range_sort` handed to `qsort`: the `int` difference
`a->start - b->start`. -/
def range_sort (a b : range_type) : Int := wrap32 (a.start - b.start)

/-- The call `qsort(range_list, nrange, sz, &range_sort)`.  The C library
leaves the algorithm open; it is modelled as an insertion sort that keeps `a`
before `b` when `range_sort(a, b) <= 0`. -/
def qsort (range_list : List range_type) : List range_type :=
  List.insertionSort (fun a b => range_sort a b ≤ 0) range_list

/-- The loop `for (i=1; i < nrange; )` of `parse_args`, seen from position `i`:
`prev` is `range_list[i-1]` and the list holds `range_list[i..nrange-1]`; the
result is the final content of `range_list[i-1..]`.  When the entry at `i`
starts at or before `prev.end+1` (an `int` sum) it is merged into `prev` and
removed (the `memcpy` that shifts the tail down, with `nrange--`), otherwise
`i` moves on. -/
def sanitize_loop : range_type → List range_type → List range_type
  | prev, [] => [prev]
  | prev, cur :: rest =>
    if cur.start ≤ wrap32 (prev.«end» + 1) then
      sanitize_loop ⟨prev.start, if cur.«end» > prev.«end» then cur.«end» else prev.«end»⟩ rest
    else prev :: sanitize_loop cur rest

/-- The block `if (nrange > 0)` at the end of `parse_args`: sort the range
list, then merge. -/
def parse_args_sanitize (range_list : List range_type) : List range_type :=
  if range_list.length > 0 then
    match qsort range_list with
    | [] => []
    | first :: rest => sanitize_loop first rest
  else range_list

/-- Whether the ordinal `k` lies in one of the closed intervals of a list. -/
def covers (range_list : List range_type) (k : Int) : Prop :=
  ∃ r ∈ range_list, r.start ≤ k ∧ k ≤ r.«end»

/-! ## Index bookkeeping of pretty_print -/

/-- The extent `left` of dimension `i` in the first loop of `pretty_print`:
`array_ends[i] - array_starts[i]` when the block has a sub-range, otherwise
`local_dims[i]`; the `int64_t` value is stored in an `int`. -/
def pretty_print_left (array_starts array_ends : Option (List Int))
    (local_dims : List Int) (i : Nat) : Option Int :=
  match array_starts with
  | some starts =>
    match array_ends with
    | some ends =>
      match ends.get? i, starts.get? i with
      | some e, some s => some (wrap32 (wrap64 (e - s)))
      | _, _ => none
    | none => none
  | none => (local_dims.get? i).map wrap32

/-- The first loop of `pretty_print`, `for (i = 0; i < b->ndims; i++)`, at
dimension `i` with `left` dimensions to go and the current value of `rem`: the
statements `fac[i] = rem; rem *= left;` give the entries of `fac` from `i` on. -/
def fac_loop (array_starts array_ends : Option (List Int)) (local_dims : List Int) :
    Nat → Nat → Int → Option (List Int)
  | _, 0, _ => some []
  | i, left + 1, rem =>
    match pretty_print_left array_starts array_ends local_dims i with
    | none => none
    | some extent =>
      match fac_loop array_starts array_ends local_dims (i + 1) left (wrap32 (rem * extent)) with
      | none => none
      | some rest => some (rem :: rest)

/-- The array `fac` that `pretty_print` builds for a block of `ndims`
dimensions. -/
def pretty_print_fac (array_starts array_ends : Option (List Int))
    (local_dims : List Int) (ndims : Nat) : Option (List Int) :=
  fac_loop array_starts array_ends local_dims 0 ndims 1

/-- The loop `for (i = b->ndims-1; i >= 0; i--)` of `pretty_print` over the
entries of `fac` in the order visited (last dimension first), with the current
value of `rem`: the values `idx0 = rem / fac[i]` in the order computed. -/
def idx0_loop : List Int → Int → Option (List Int)
  | [], _ => some []
  | f :: fs, rem =>
    match c_div rem f with
    | none => none
    | some idx0 =>
      match idx0_loop fs (wrap32 (rem - wrap32 (idx0 * f))) with
      | none => none
      | some rest => some (idx0 :: rest)

/-- The values `idx0` that `pretty_print` computes for the linear index `n`,
listed by dimension `i = 0 .. ndims-1`. -/
def pretty_print_idx0 (fac : List Int) (n : Int) : Option (List Int) :=
  (idx0_loop fac.reverse n).map List.reverse

/-- The per-dimension indices `idx0` of element `n` of a block without
sub-range and with extents `local_dims`. -/
def pretty_print_decompose (local_dims : List Int) (n : Int) : Option (List Int) :=
  match pretty_print_fac none none local_dims local_dims.length with
  | none => none
  | some fac => pretty_print_idx0 fac n

/-- The stride factor of dimension `i` as the product of the extents of the
dimensions below `i`. -/
def stride (dims : List Int) (i : Nat) : Int := (dims.take i).prod

/-- The recombination `sum over i of idx0[i] * fac[i]` with the stride factors
of the shape `dims`. -/
def recombine (dims : List Int) (idx0 : List Int) : Int :=
  (List.zipWith (fun i f => i * f) idx0 ((List.range dims.length).map (stride dims))).sum

/-! ## Index field width of pretty_print -/

/-- The loop `while (left) { left /= 10; digit++; }` of `pretty_print`, with
`fuel` iterations allowed: the final value of `digit`. -/
def digit_loop : Nat → Int → Int → Int
  | 0, _, digit => digit
  | fuel + 1, left, digit =>
    if left ≠ 0 then digit_loop fuel (Int.tdiv left 10) (digit + 1) else digit

/-- The statements `digit = 0; while (left) { left /= 10; digit++; }
if (!digit) digit = 1;` of `pretty_print` for a value of `left`; the loop ends
within `|left|` iterations. -/
def digit_count (left : Int) : Int :=
  if digit_loop left.natAbs left 0 = 0 then 1 else digit_loop left.natAbs left 0

/-- The field width `digit` that the first loop of `pretty_print` computes for
dimension `i`: the digits of `array_ends[i] + index_offset - 1` when the block
has `array_ends`, otherwise the digits of the extent `left` of the dimension. -/
def pretty_print_digit (array_starts array_ends : Option (List Int)) (index_offset : Int)
    (local_dims : List Int) (i : Nat) : Option Int :=
  match pretty_print_left array_starts array_ends local_dims i with
  | none => none
  | some extent =>
    match array_ends with
    | some ends =>
      match ends.get? i with
      | some e => some (digit_count (wrap32 (wrap64 (e + index_offset - 1))))
      | none => none
    | none => some (digit_count extent)

/-! ## Strings and strtol -/

/-- The character at position `ptr` of a C string: past the last character
stands the terminator. -/
def char_at (s : List Char) (ptr : Nat) : Char := s.getD ptr (Char.ofNat 0)

/-- The function `isspace` of the C locale. -/
def isspace (c : Char) : Bool := decide (c.toNat = 32 ∨ (9 ≤ c.toNat ∧ c.toNat ≤ 13))

/-- The test `'0' <= c && c <= '9'`. -/
def isdigit (c : Char) : Bool := decide (48 ≤ c.toNat ∧ c.toNat ≤ 57)

/-- Value of a string of decimal digits. -/
def digits_value (ds : List Char) : Nat :=
  ds.foldl (fun v c => 10 * v + (c.toNat - 48)) 0

/-- Largest value of a C `long` (LP64). -/
def LONG_MAX : Int := 9223372036854775807

/-- Smallest value of a C `long` (LP64). -/
def LONG_MIN : Int := -9223372036854775808

/-- The sign part of the subject of `strtol`: whether a minus sign was read, and
the number of characters read. -/
def strtol_sign (s : List Char) : Bool × Nat :=
  match s with
  | c :: _ => if c = '-' then (true, 1) else if c = '+' then (false, 1) else (false, 0)
  | [] => (false, 0)

/-- The libc function `strtol(nptr, &endptr, 10)` on the string `s`: white
space, an optional sign and decimal digits; the value (clamped to the range of
`long`) and the number of characters up to `endptr`.  Without a digit the
value is 0 and no character is consumed. -/
def strtol (s : List Char) : Int × Nat :=
  let ws := (s.takeWhile isspace).length
  let sign := strtol_sign (s.drop ws)
  let ds := (s.drop (ws + sign.2)).takeWhile isdigit
  if ds = [] then (0, 0)
  else
    let v : Int := if sign.1 then -(digits_value ds : Int) else (digits_value ds : Int)
    (if v > LONG_MAX then LONG_MAX else if v < LONG_MIN then LONG_MIN else v,
      ws + sign.2 + ds.length)

/-! ## parse_format -/

/-- The loop `for (; len > 1; len--) { cc = format_float[len-1];
if (cc < '0' || cc > '9') break; }` of `parse_format`: the final `len`. -/
def parse_format_scan (format_float : List Char) : Nat → Nat
  | 0 => 0
  | 1 => 1
  | len + 2 =>
    if isdigit (char_at format_float (len + 1)) then parse_format_scan format_float (len + 1)
    else len + 2

/-- The function `parse_format` on the template `format_float`: the template it
leaves, `scale_factor` and `special_format`.  The template is the string up to
its terminator, so `format_float[len] = 0` cuts it at `len`; the read of
`format_float[-1]`, for an empty template or the template `p`, is `none`. -/
def parse_format (format_float : List Char) : Option (List Char × Int × Int) :=
  match format_float.length with
  | 0 => none
  | len + 1 =>
    if char_at format_float len = 'p' then
      let cut := format_float.take len
      let len2 := parse_format_scan cut len
      let scale_factor := wrap32 (strtol (cut.drop len2)).1
      match len2 with
      | 0 => none
      | len3 + 1 =>
        some (cut.take len2, scale_factor, if char_at cut len3 = 'd' then 1 else 0)
    else some (format_float, 1, if char_at format_float len = 'd' then 1 else 0)

/-! ## Option scanning of parse_args -/

/-- An option `-v id` or `-x id` as `getopt_long` hands it to `parse_args`. -/
inductive Opt where
  | v (optarg : List Char)
  | x (optarg : List Char)
deriving DecidableEq

/-- The variables of `parse_args` that the options `-v` and `-x` change.
`range_list` holds the slots of the array that were handed out so far, also
those above `nrange`: `calloc` fills a new slot with zeros and growing the
array keeps the old content. -/
structure ArgState where
  got_include : Bool
  got_exclude : Bool
  exclude_variables : Bool
  range_list : List range_type
  nrange : Nat
  variable_ids : List (List Char)
deriving DecidableEq

/-- The state of `parse_args` before the first option. -/
def ArgState.init : ArgState := ⟨false, false, false, [], 0, []⟩

/-- The entries `range_list[0..nrange-1]`. -/
def ArgState.ranges (st : ArgState) : List range_type := st.range_list.take st.nrange

/-- The statement `nrange++` with the growth of the array: a slot that was never
handed out before reads as zeros. -/
def new_slot (st : ArgState) : ArgState :=
  if st.nrange + 1 > st.range_list.length then
    { st with nrange := st.nrange + 1, range_list := st.range_list ++ [⟨0, 0⟩] }
  else { st with nrange := st.nrange + 1 }

/-- The entry `range_list[nrange-1]`. -/
def last_slot (st : ArgState) : range_type := st.range_list.getD (st.nrange - 1) ⟨0, 0⟩

/-- The assignment `range_list[nrange-1] = r`. -/
def set_last_slot (st : ArgState) (r : range_type) : ArgState :=
  { st with range_list := st.range_list.set (st.nrange - 1) r }

/-- The loop `while (ptr < optarg + strlen(optarg) + 1)` of `parse_args` over
the range tokens of `optarg`, with `fuel` iterations allowed, at position `ptr`
with the flag `range`. -/
def range_arg_loop (optarg : List Char) : Nat → Nat → Bool → ArgState → ArgState
  | 0, _, _, st => st
  | fuel + 1, ptr, range, st =>
    if ptr < optarg.length + 1 then
      if range then
        let r := strtol (optarg.drop ptr)
        let i := wrap32 r.1
        let st1 :=
          if i = 0 then set_last_slot st ⟨(last_slot st).start, INT_MAX⟩
          else if i < (last_slot st).start then { st with nrange := st.nrange - 1 }
          else set_last_slot st ⟨(last_slot st).start, i⟩
        range_arg_loop optarg fuel (ptr + r.2 + 1) false st1
      else
        let st1 := new_slot st
        if char_at optarg ptr = '-' then
          range_arg_loop optarg fuel (ptr + 1) true
            (set_last_slot st1 ⟨(last_slot st1).start, INT_MAX⟩)
        else
          let r := strtol (optarg.drop ptr)
          let i := wrap32 r.1
          range_arg_loop optarg fuel (ptr + r.2 + 1)
            (decide (char_at optarg (ptr + r.2) = '-')) (set_last_slot st1 ⟨i, i⟩)
    else st

/-- The body of `case 'v': case 'x':` after the include/exclude check: an
argument that starts with a digit or a dash is read as range tokens (every
iteration moves `ptr` on, so `strlen(optarg) + 1` iterations are enough), any
other argument is appended to `variable_ids`. -/
def parse_arg (st : ArgState) (optarg : List Char) : ArgState :=
  if isdigit (char_at optarg 0) ∨ char_at optarg 0 = '-' then
    range_arg_loop optarg (optarg.length + 1) 0 false st
  else { st with variable_ids := st.variable_ids ++ [optarg] }

/-- The body of `case 'v': case 'x':` of `parse_args` for one option; `none` is
the exit with status 1 after the message `ERROR: cannot both include and
exclude variables.` -/
def parse_args_option (st : ArgState) : Opt → Option ArgState
  | Opt.v optarg =>
    if st.got_exclude then none
    else some (parse_arg { st with got_include := true } optarg)
  | Opt.x optarg =>
    if st.got_include then none
    else some (parse_arg { st with got_exclude := true, exclude_variables := true } optarg)

/-- The loop `while ((c = getopt_long(...)) != -1)` of `parse_args` over the
options in the order scanned. -/
def parse_args_options : ArgState → List Opt → Option ArgState
  | st, [] => some st
  | st, o :: rest =>
    match parse_args_option st o with
    | none => none
    | some st1 => parse_args_options st1 rest

/-- The messages that `parse_args` prints before `exit(1)`. -/
inductive ExitMessage where
  | cannot_both_include_and_exclude
  | error_opening_file (file : List Char)
  | must_specify_two_files
deriving DecidableEq

/-- What `parse_args` leaves for `main` when it returns. -/
structure Parsed where
  files : List (List Char)
  range_list : List range_type
  variable_ids : List (List Char)
  exclude_variables : Bool
  format_float : List Char
  scale_factor : Int
  special_format : Int
deriving DecidableEq

/-- How a call of `parse_args` ends, with the file names handed to `lstat`
before it ends, in order. -/
inductive ParseResult where
  | exit (status : Int) (message : ExitMessage) (examined : List (List Char))
  | fault (examined : List (List Char))
  | ok (examined : List (List Char)) (parsed : Parsed)
deriving DecidableEq

/-- The template `default_float`, `"%13.6E"`. -/
def default_float : List Char := ['%', '1', '3', '.', '6', 'E']

/-- The function `parse_args` on a command line whose options are `-v` and `-x`
only: `opts` are the options in the order scanned, `files` the remaining
arguments, `lstat_ok` tells whether `lstat` succeeds on a name. -/
def parse_args (opts : List Opt) (files : List (List Char)) (lstat_ok : List Char → Bool) :
    ParseResult :=
  match parse_args_options ArgState.init opts with
  | none => ParseResult.exit 1 ExitMessage.cannot_both_include_and_exclude []
  | some st =>
    match files with
    | [f0, f1] =>
      if lstat_ok f0 = false then
        ParseResult.exit 1 (ExitMessage.error_opening_file f0) [f0]
      else if lstat_ok f1 = false then
        ParseResult.exit 1 (ExitMessage.error_opening_file f1) [f0, f1]
      else
        let range_list := if st.nrange > 0 then parse_args_sanitize st.ranges else st.ranges
        match parse_format default_float with
        | none => ParseResult.fault [f0, f1]
        | some fmt =>
          ParseResult.ok [f0, f1]
            ⟨[f0, f1], range_list, st.variable_ids, st.exclude_variables, fmt.1, fmt.2.1, fmt.2.2⟩
    | _ => ParseResult.exit 1 ExitMessage.must_specify_two_files []

/-- The settings of `main` after `parse_args`: no `-m`, and `relerr` is the
constant `1.0e-15` as a `double`. -/
def Parsed.toConfig (rnd : ℚ → Dbl) (p : Parsed) : Config :=
  ⟨p.range_list, p.variable_ids, p.exclude_variables, false, rnd (1 / 1000000000000000)⟩

/-! ## Output of pretty_print and pretty_print_mesh -/

/-- The fields of `sdf_block_t` that `pretty_print` and `pretty_print_mesh`
read: `grids` holds one coordinate buffer per dimension of a mesh. -/
structure ArrayBlock where
  blocktype : BlockType
  ndims : Nat
  local_dims : List Int
  array_starts : Option (List Int)
  array_ends : Option (List Int)
  nelements_local : Int
  grids : List Buffer
deriving DecidableEq

/-- The global settings that the two printing routines read. -/
structure PrintConfig where
  format_number : Bool
  format_rowindex : Bool
  format_index : Bool
  index_offset : Int
deriving DecidableEq

/-- What the printing routines write, piece by piece. -/
inductive Tok where
  -- printf("%i ", idnum)
  | number (idnum : Int)
  -- printf(" ")
  | blank
  -- printf(fmt[i], value) with the zero-padded width digit of dimension i
  | index (i : Nat) (digit : Int) (value : Int)
  -- the place of another dimension in a mesh index: "," before, "0", ")" after
  | zero (i : Nat)
  -- printf(format_space, 1)
  | space
  -- print_value on element n of b->data
  | value (n : Nat)
  -- print_value on element k of b->grids[dim]
  | grid_value (dim : Nat) (k : Nat)
  -- printf("\n")
  | newline
deriving DecidableEq

/-- The widths `digit` of the dimensions from `i` on, as the first loop of
`pretty_print` and of `pretty_print_mesh` computes them, `left` dimensions to
go. -/
def digits_loop (array_starts array_ends : Option (List Int)) (index_offset : Int)
    (local_dims : List Int) : Nat → Nat → Option (List Int)
  | _, 0 => some []
  | i, left + 1 =>
    match pretty_print_digit array_starts array_ends index_offset local_dims i with
    | none => none
    | some digit =>
      match digits_loop array_starts array_ends index_offset local_dims (i + 1) left with
      | none => none
      | some rest => some (digit :: rest)

/-- The calls `printf(fmt[i], idx[i]+index_offset)` for `i = 0 .. ndims-1` of
`pretty_print`; `fmt[i]` is the empty string unless an index option is set. -/
def index_tokens (cfg : PrintConfig) (digits idx : List Int) (ndims : Nat) : List Tok :=
  if cfg.format_rowindex ∨ cfg.format_index then
    (List.range ndims).map
      (fun i => Tok.index i (digits.getD i 1) (wrap32 (idx.getD i 0 + cfg.index_offset)))
  else []

/-- The statement `if (b->array_starts) idx[i] += b->array_starts[i]` for all
dimensions. -/
def add_starts (array_starts : Option (List Int)) (idx0 : List Int) : List Int :=
  match array_starts with
  | none => idx0
  | some starts => List.zipWith (fun v s => wrap32 (v + s)) idx0 starts

/-- The loop `for (n = 0; n < b->nelements_local; n++)` of `pretty_print` with
`left` elements to go from element `n`, and the closing `if (ncount)`: what is
written, and whether the run got to its end; it stops at a division that
traps. -/
def pretty_print_loop (cfg : PrintConfig) (idnum : Int) (array_starts : Option (List Int))
    (ndims : Nat) (fac digits : List Int) : Nat → Nat → Int → List Tok × Bool
  | 0, _, ncount => (if ncount ≠ 0 then [Tok.newline] else [], true)
  | left + 1, n, ncount =>
    match pretty_print_idx0 fac n with
    | none => ([], false)
    | some idx0 =>
      let idx := add_starts array_starts idx0
      let head :=
        if ncount + 1 = 1 then
          (if cfg.format_number then [Tok.number idnum] else []) ++
            index_tokens cfg digits idx ndims
        else
          (if cfg.format_index then Tok.blank :: index_tokens cfg digits idx ndims else []) ++
            [Tok.space]
      let tail := if ncount + 1 = 1 then [Tok.newline] else []
      let rest := pretty_print_loop cfg idnum array_starts ndims fac digits left (n + 1)
        (if ncount + 1 = 1 then 0 else ncount + 1)
      (head ++ [Tok.value n] ++ tail ++ rest.1, rest.2)

/-- The index fields that `pretty_print_mesh` writes before an element: the
index of the current dimension `dim`, and a `0` for every other dimension. -/
def mesh_index_tokens (cfg : PrintConfig) (digits idx : List Int) (ndims dim : Nat) :
    List Tok :=
  (List.range ndims).map
    (fun i =>
      if i = dim then Tok.index i (digits.getD i 1) (wrap32 (idx.getD i 0 + cfg.index_offset))
      else Tok.zero i)

/-- The test `(b->array_ends && idx[dim] >= b->array_ends[dim]) ||
idx[dim] >= b->local_dims[dim]` of `pretty_print_mesh` for the value `v` of
`idx[dim]`, read left to right; `none` when `dim` is outside the array read. -/
def mesh_advance (b : ArrayBlock) (dim : Nat) (v : Int) : Option Bool :=
  let by_dims : Option Bool := (b.local_dims.get? dim).map (fun extent => decide (v ≥ extent))
  match b.array_ends with
  | none => by_dims
  | some ends =>
    match ends.get? dim with
    | none => none
    | some e => if v ≥ e then some true else by_dims

/-- The loop `for (n = 0; n < b->nelements_local; n++)` of `pretty_print_mesh`
with `left` elements to go, and the closing `if (ncount)`: what is written, and
whether every array access was inside its array.  `ptr` is the grid and the
element that the pointer stands at, `none` after `b->grids[dim]` was read past
the end of `grids`.  The run stops at a read through such a pointer or past the
end of a grid, and at an access to `idx[dim]`, `array_ends[dim]` or
`local_dims[dim]` outside the array.  The counter `idx[dim]` counts the
elements written of one grid and is not reduced to `int`. -/
def mesh_loop (cfg : PrintConfig) (idnum : Int) (b : ArrayBlock) (digits : List Int) :
    Nat → List Int → Nat → Option (Nat × Nat) → Int → List Tok × Bool
  | 0, _, _, _, ncount => (if ncount ≠ 0 then [Tok.newline] else [], true)
  | left + 1, idx, dim, ptr, ncount =>
    let head :=
      (if ncount + 1 = 1 then (if cfg.format_number then [Tok.number idnum] else [])
        else (if cfg.format_index then [Tok.blank] else [])) ++
      (if (ncount + 1 = 1 ∧ cfg.format_rowindex) ∨ cfg.format_index then
        mesh_index_tokens cfg digits idx b.ndims dim else []) ++
      (if ncount + 1 ≠ 1 ∧ cfg.format_index then [Tok.space] else [])
    match ptr with
    | none => (head, false)
    | some (g, k) =>
      if (b.grids.getD g (Buffer.i4 [])).size ≤ k then (head, false)
      else
        match idx.get? dim with
        | none => (head ++ [Tok.grid_value g k], false)
        | some v =>
          match mesh_advance b dim (v + 1) with
          | none => (head ++ [Tok.grid_value g k], false)
          | some true =>
            let rest := mesh_loop cfg idnum b digits left (idx.set dim 0) (dim + 1)
              (if dim + 1 < b.grids.length then some (dim + 1, 0) else none) 0
            (head ++ [Tok.grid_value g k, Tok.newline] ++ rest.1,
              decide (dim + 1 < b.grids.length) && rest.2)
          | some false =>
            let rest := mesh_loop cfg idnum b digits left (idx.set dim (v + 1)) dim
              (some (g, k + 1)) (if ncount + 1 = 1 then 0 else ncount + 1)
            (head ++ [Tok.grid_value g k] ++ (if ncount + 1 = 1 then [Tok.newline] else []) ++
              rest.1, rest.2)

/-- The loop `for (i = 0; i < b->ndims; i++) { if (b->array_ends[i] >
b->array_starts[i]) break; dim++; }` of `pretty_print_mesh` from dimension `i`
with `left` dimensions to go: the final `dim`. -/
def mesh_first_dim (starts ends : List Int) : Nat → Nat → Nat → Option Nat
  | _, 0, dim => some dim
  | i, left + 1, dim =>
    match ends.get? i, starts.get? i with
    | some e, some s => if e > s then some dim else mesh_first_dim starts ends (i + 1) left (dim + 1)
    | _, _ => none

/-- The function `pretty_print_mesh`: what it writes, and whether every array
access was inside its array. -/
def pretty_print_mesh (cfg : PrintConfig) (b : ArrayBlock) (idnum : Int) : List Tok × Bool :=
  match digits_loop b.array_starts b.array_ends cfg.index_offset b.local_dims 0 b.ndims with
  | none => ([], false)
  | some digits =>
    let start : Option (List Int × Nat) :=
      match b.array_starts with
      | none => some (List.replicate b.ndims 0, 0)
      | some starts =>
        match b.array_ends with
        | none => none
        | some ends =>
          if starts.length < b.ndims then none
          else (mesh_first_dim starts ends 0 b.ndims 0).map
            (fun dim => ((starts.take b.ndims).map wrap32, dim))
    match start with
    | none => ([], false)
    | some (idx, dim) =>
      let run := mesh_loop cfg idnum b digits b.nelements_local.toNat idx dim
        (if dim < b.grids.length then some (dim, 0) else none) 0
      (run.1, decide (dim < b.grids.length) && run.2)

/-- The function `pretty_print`: what it writes, and whether the run got to its
end.  Mesh blocks go to `pretty_print_mesh`. -/
def pretty_print (cfg : PrintConfig) (b : ArrayBlock) (idnum : Int) : List Tok × Bool :=
  if b.blocktype = BlockType.SDF_BLOCKTYPE_PLAIN_MESH ∨
      b.blocktype = BlockType.SDF_BLOCKTYPE_POINT_MESH then
    pretty_print_mesh cfg b idnum
  else
    match pretty_print_fac b.array_starts b.array_ends b.local_dims b.ndims,
      digits_loop b.array_starts b.array_ends cfg.index_offset b.local_dims 0 b.ndims with
    | some fac, some digits =>
      pretty_print_loop cfg idnum b.array_starts b.ndims fac digits b.nelements_local.toNat 0 0
    | _, _ => ([], false)

/-- The values that a run hands to `print_value` from the grids, in order. -/
def grid_values (out : List Tok) : List (Nat × Nat) :=
  out.filterMap (fun t => match t with
    | Tok.grid_value dim k => some (dim, k)
    | _ => none)

/-- The order of the coordinates of a mesh dimension by dimension, from
dimension `i` on: all of `grids[i]`, then all of `grids[i+1]`, and so on. -/
def mesh_order : Nat → List Int → List (Nat × Nat)
  | _, [] => []
  | i, d :: ds => (List.range d.toNat).map (fun k => (i, k)) ++ mesh_order (i + 1) ds

/-! ## print_value -/

namespace Dbl

end Dbl

/-- The test of `diff_block` with the division read as guarded: undefined
(`none`) when the divisor `MIN(ABS(val1), ABS(val2))` is a zero, the value of
`rel_test` otherwise.  The program itself has no such guard and divides by the
rules of `double` arithmetic. -/
def rel_test_guarded (rnd : ℚ → Dbl) (relerr val1 val2 : Dbl) : Option Bool :=
  if (MIN (ABS val1) (ABS val2)).isZero then none
  else some (rel_test rnd relerr val1 val2)

/-! ## print_metadata -/

/-- What `print_metadata` writes, piece by piece. -/
inductive MetaOut where
  -- printf of the format "Block %<digit>i, ID: %s not found in second file"
  -- with the arguments inum and b->id
  | block_not_found (digit inum : Int) (id : List Char)
  -- printf("  (derived)")
  | derived
  -- the printf of a newline
  | newline
  -- the lines from "name:" on: the metadata of the block, by block type
  | metadata (id : List Char)
deriving DecidableEq

/-- The function `print_metadata(b, inum, nblocks)`, called by `main` for a
block that the second file lacks when the metadata option is set.  `digit` is
counted by the loop `while (nblocks) { nblocks /= 10; digit++; }`, which ends
within `|nblocks|` iterations; `in_file` is `b->in_file` and `just_id` the
global of that name.  The first line is the report that the block was not
found; with `just_id` the function returns after it. -/
def print_metadata (just_id in_file : Bool) (b : Block) (inum nblocks : Int) :
    List MetaOut :=
  [MetaOut.block_not_found (digit_loop nblocks.natAbs nblocks 0) inum b.id] ++
    (if !in_file then [MetaOut.derived] else []) ++
    [MetaOut.newline] ++
    (if just_id then [] else [MetaOut.metadata b.id, MetaOut.newline])

/-! ## Arithmetic of finite doubles -/

theorem lt_fin (p q : ℚ) : Dbl.lt (Dbl.fin p) (Dbl.fin q) = decide (p < q) := rfl

theorem le_fin (p q : ℚ) : Dbl.le (Dbl.fin p) (Dbl.fin q) = decide (p ≤ q) := rfl

theorem ABS_fin (q : ℚ) : ABS (Dbl.fin q) = Dbl.fin |q| := by
  unfold ABS
  rw [lt_fin]
  by_cases h : q < 0
  · have h0 : q ≠ 0 := by linarith
    simp [h, Dbl.neg, h0, abs_of_neg h]
  · have h1 : 0 ≤ q := le_of_not_lt h
    simp [h, abs_of_nonneg h1]

theorem MIN_fin (p q : ℚ) : MIN (Dbl.fin p) (Dbl.fin q) = Dbl.fin (min p q) := by
  unfold MIN
  rw [lt_fin]
  by_cases h : p < q
  · simp [h, min_eq_left (le_of_lt h)]
  · simp [h, min_eq_right (le_of_not_lt h)]

theorem sub_fin (rnd : ℚ → Dbl) (p q : ℚ) :
    Dbl.sub rnd (Dbl.fin p) (Dbl.fin q) = if p - q = 0 then Dbl.fin 0 else rnd (p - q) := by
  simp [Dbl.sub, Dbl.val]

theorem div_fin (rnd : ℚ → Dbl) (p q : ℚ) :
    Dbl.div rnd (Dbl.fin p) (Dbl.fin q) =
      if q = 0 then (if p = 0 then Dbl.nan else Dbl.signedInf (decide (p < 0)))
      else if p = 0 then Dbl.signedZero (decide (q < 0))
      else rnd (p / q) := by
  by_cases hq : q = 0 <;> by_cases hp : p = 0 <;>
    simp [Dbl.div, Dbl.val, Dbl.isInf, Dbl.isZero, Dbl.signbit, hq, hp]

/-! ## Lemmas on diff_block -/

theorem load_eq_values (rnd : ℚ → Dbl) (dt : Datatype) (buf : Buffer) (n : Nat)
    (h : buf.holds dt = true) : load rnd dt buf n = (buf.values rnd).get? n := by
  cases buf <;> cases dt <;> simp_all [Buffer.holds, load, Buffer.values]

theorem values_length (rnd : ℚ → Dbl) (buf : Buffer) :
    (buf.values rnd).length = buf.size := by
  cases buf <;> simp [Buffer.values, Buffer.size]

/-- The loop of `diff_block` over typed buffers that are long enough prints the
line of every element that fails the test, in index order. -/
theorem diff_loop_eq (rnd : ℚ → Dbl) (relerr : Dbl) (b1 b2 : Block)
    (h1 : b1.data.holds b1.datatype = true) (h2 : b2.data.holds b1.datatype = true) :
    ∀ (left n : Nat), n + left ≤ b1.data.size → n + left ≤ b2.data.size →
      diff_loop rnd relerr b1 b2 left n =
        some ((List.range' n left).filterMap (fun k =>
          if rel_test rnd relerr ((b1.data.values rnd).getD k Dbl.nan)
              ((b2.data.values rnd).getD k Dbl.nan) = true then
            some (Event.mismatch b1.id k ((b1.data.values rnd).getD k Dbl.nan)
              ((b2.data.values rnd).getD k Dbl.nan))
          else none)) := by
  intro left
  induction left with
  | zero => intro n _ _; simp [diff_loop]
  | succ left ih =>
    intro n hn1 hn2
    have l1 : n < (b1.data.values rnd).length := by rw [values_length]; omega
    have l2 : n < (b2.data.values rnd).length := by rw [values_length]; omega
    have e1 : load rnd b1.datatype b1.data n = some ((b1.data.values rnd).getD n Dbl.nan) := by
      rw [load_eq_values rnd _ _ _ h1, List.getD_eq_getElem _ _ l1]
      simp [List.getElem?_eq_getElem l1]
    have e2 : load rnd b1.datatype b2.data n = some ((b2.data.values rnd).getD n Dbl.nan) := by
      rw [load_eq_values rnd _ _ _ h2, List.getD_eq_getElem _ _ l2]
      simp [List.getElem?_eq_getElem l2]
    rw [diff_loop, e1, e2]
    simp only []
    rw [ih (n + 1) (by omega) (by omega)]
    simp only [List.range'_succ, List.filterMap_cons]
    split <;> simp_all

/-- Output of `diff_block` on a plain variable or plain derived block whose
buffers hold `nelements_local` elements of the datatype of `b1`. -/
theorem diff_block_typed (rnd : ℚ → Dbl) (relerr : Dbl) (b1 b2 : Block)
    (hbt : b1.blocktype = BlockType.SDF_BLOCKTYPE_PLAIN_VARIABLE ∨
      b1.blocktype = BlockType.SDF_BLOCKTYPE_PLAIN_DERIVED)
    (h1 : b1.data.holds b1.datatype = true) (h2 : b2.data.holds b1.datatype = true)
    (hn1 : b1.data.size = b1.nelements_local.toNat)
    (hn2 : b2.data.size = b1.nelements_local.toNat) :
    diff_block rnd relerr b1 b2 =
      some (0, [Event.read_data 0 b1.id, Event.read_data 1 b2.id] ++
        (List.range b1.nelements_local.toNat).filterMap (fun n =>
          if rel_test rnd relerr ((b1.data.values rnd).getD n Dbl.nan)
              ((b2.data.values rnd).getD n Dbl.nan) = true then
            some (Event.mismatch b1.id n ((b1.data.values rnd).getD n Dbl.nan)
              ((b2.data.values rnd).getD n Dbl.nan))
          else none)) := by
  have hl := diff_loop_eq rnd relerr b1 b2 h1 h2 b1.nelements_local.toNat 0
    (by omega) (by omega)
  rw [← List.range_eq_range'] at hl
  unfold diff_block
  have hdt : b1.datatype = Datatype.SDF_DATATYPE_INTEGER4 ∨
      b1.datatype = Datatype.SDF_DATATYPE_INTEGER8 ∨
      b1.datatype = Datatype.SDF_DATATYPE_REAL4 ∨
      b1.datatype = Datatype.SDF_DATATYPE_REAL8 ∨
      b1.datatype = Datatype.SDF_DATATYPE_LOGICAL := by
    cases hd : b1.datatype <;> cases hb : b1.data <;> simp_all [Buffer.holds]
  rcases hbt with hbt | hbt <;> rw [hbt] <;>
    rcases hdt with h | h | h | h | h <;> simp only [h] <;> rw [hl] <;> rfl

/-- A comparison `t <= r` that holds excludes `r < t`. -/
theorem lt_false_of_le (t r : Dbl) (h : Dbl.le t r = true) : Dbl.lt r t = false := by
  cases t <;> cases r <;> simp_all [Dbl.le, Dbl.lt, Dbl.val]

/-- Output of `diff_block` on two one-element blocks holding the values `a`
and `b` of datatype `dt`. -/
theorem diff_block_single (rnd : ℚ → Dbl) (relerr : Dbl) (b1 b2 : Block)
    (hbt : b1.blocktype = BlockType.SDF_BLOCKTYPE_PLAIN_VARIABLE ∨
      b1.blocktype = BlockType.SDF_BLOCKTYPE_PLAIN_DERIVED)
    (h1 : b1.data.holds b1.datatype = true) (h2 : b2.data.holds b1.datatype = true)
    (hn : b1.nelements_local = 1) (a b : Dbl)
    (ha : b1.data.values rnd = [a]) (hb : b2.data.values rnd = [b]) :
    diff_block rnd relerr b1 b2 =
      some (0, [Event.read_data 0 b1.id, Event.read_data 1 b2.id] ++
        (if rel_test rnd relerr a b = true then [Event.mismatch b1.id 0 a b] else [])) := by
  have s1 : b1.data.size = b1.nelements_local.toNat := by
    rw [← values_length rnd, ha, hn]; rfl
  have s2 : b2.data.size = b1.nelements_local.toNat := by
    rw [← values_length rnd, hb, hn]; rfl
  rw [diff_block_typed rnd relerr b1 b2 hbt h1 h2 s1 s2, ha, hb, hn]
  by_cases ht : rel_test rnd relerr a b = true <;>
    simp [List.range, List.range.loop, List.filterMap_cons, ht]

/-! ## Claims on diff_block -/

/-- C10: for every pair of element values `a`, `b` the value
`t = ABS(a - b) / MIN(ABS(a), ABS(b))` is a threshold: `diff_block` prints the
mismatch line of the pair for every `relerr < t` and prints none for every
`relerr >= t`. -/
theorem diff_block_threshold (rnd : ℚ → Dbl) (id1 id2 : List Char) (a b : Dbl) :
    ∃ t : Dbl, t = Dbl.div rnd (ABS (Dbl.sub rnd a b)) (MIN (ABS a) (ABS b)) ∧
      ∀ relerr : Dbl,
        (Dbl.lt relerr t = true →
          diff_block rnd relerr
            ⟨id1, BlockType.SDF_BLOCKTYPE_PLAIN_VARIABLE, Datatype.SDF_DATATYPE_REAL8, 1,
              Buffer.r8 [a]⟩
            ⟨id2, BlockType.SDF_BLOCKTYPE_PLAIN_VARIABLE, Datatype.SDF_DATATYPE_REAL8, 1,
              Buffer.r8 [b]⟩ =
          some (0, [Event.read_data 0 id1, Event.read_data 1 id2,
            Event.mismatch id1 0 a b])) ∧
        (Dbl.ge relerr t = true →
          diff_block rnd relerr
            ⟨id1, BlockType.SDF_BLOCKTYPE_PLAIN_VARIABLE, Datatype.SDF_DATATYPE_REAL8, 1,
              Buffer.r8 [a]⟩
            ⟨id2, BlockType.SDF_BLOCKTYPE_PLAIN_VARIABLE, Datatype.SDF_DATATYPE_REAL8, 1,
              Buffer.r8 [b]⟩ =
          some (0, [Event.read_data 0 id1, Event.read_data 1 id2])) := by
  refine ⟨_, rfl, fun relerr => ⟨fun h => ?_, fun h => ?_⟩⟩
  · have key := diff_block_single rnd relerr
      ⟨id1, BlockType.SDF_BLOCKTYPE_PLAIN_VARIABLE, Datatype.SDF_DATATYPE_REAL8, 1,
        Buffer.r8 [a]⟩
      ⟨id2, BlockType.SDF_BLOCKTYPE_PLAIN_VARIABLE, Datatype.SDF_DATATYPE_REAL8, 1,
        Buffer.r8 [b]⟩ (Or.inl rfl) rfl rfl rfl a b rfl rfl
    have ht : rel_test rnd relerr a b = true := h
    rw [key]
    simp [ht]
  · have key := diff_block_single rnd relerr
      ⟨id1, BlockType.SDF_BLOCKTYPE_PLAIN_VARIABLE, Datatype.SDF_DATATYPE_REAL8, 1,
        Buffer.r8 [a]⟩
      ⟨id2, BlockType.SDF_BLOCKTYPE_PLAIN_VARIABLE, Datatype.SDF_DATATYPE_REAL8, 1,
        Buffer.r8 [b]⟩ (Or.inl rfl) rfl rfl rfl a b rfl rfl
    have ht : rel_test rnd relerr a b = false := lt_false_of_le _ _ h
    rw [key]
    simp [ht]

/-- C9, counterexample: the logical bytes 1 and 2 (both true) with
`relerr = 0.5` are printed as a mismatch, the normalized pair (1, 1) is not. -/
theorem diff_block_logical_not_normalized :
    diff_block Dbl.fin (Dbl.fin (1/2))
        ⟨['a'], BlockType.SDF_BLOCKTYPE_PLAIN_VARIABLE, Datatype.SDF_DATATYPE_LOGICAL, 1,
          Buffer.l [1]⟩
        ⟨['a'], BlockType.SDF_BLOCKTYPE_PLAIN_VARIABLE, Datatype.SDF_DATATYPE_LOGICAL, 1,
          Buffer.l [2]⟩ =
      some (0, [Event.read_data 0 ['a'], Event.read_data 1 ['a'],
        Event.mismatch ['a'] 0 (Dbl.fin 1) (Dbl.fin 2)]) ∧
    diff_block Dbl.fin (Dbl.fin (1/2))
        ⟨['a'], BlockType.SDF_BLOCKTYPE_PLAIN_VARIABLE, Datatype.SDF_DATATYPE_LOGICAL, 1,
          Buffer.l [1]⟩
        ⟨['a'], BlockType.SDF_BLOCKTYPE_PLAIN_VARIABLE, Datatype.SDF_DATATYPE_LOGICAL, 1,
          Buffer.l [1]⟩ =
      some (0, [Event.read_data 0 ['a'], Event.read_data 1 ['a']]) ∧
    Dbl.ge (Dbl.fin (1/2)) (Dbl.fin 0) = true := by
  refine ⟨?_, ?_, ?_⟩
  · rw [diff_block_single Dbl.fin (Dbl.fin (1/2))
      ⟨['a'], BlockType.SDF_BLOCKTYPE_PLAIN_VARIABLE, Datatype.SDF_DATATYPE_LOGICAL, 1,
        Buffer.l [1]⟩
      ⟨['a'], BlockType.SDF_BLOCKTYPE_PLAIN_VARIABLE, Datatype.SDF_DATATYPE_LOGICAL, 1,
        Buffer.l [2]⟩ (Or.inl rfl) rfl rfl rfl (Dbl.fin 1) (Dbl.fin 2)
      (by simp [Buffer.values, Dbl.ofInt32]) (by simp [Buffer.values, Dbl.ofInt32])]
    norm_num [rel_test, rel_diff, ABS_fin, MIN_fin, sub_fin, div_fin, lt_fin, Dbl.gt]
  · rw [diff_block_single Dbl.fin (Dbl.fin (1/2))
      ⟨['a'], BlockType.SDF_BLOCKTYPE_PLAIN_VARIABLE, Datatype.SDF_DATATYPE_LOGICAL, 1,
        Buffer.l [1]⟩
      ⟨['a'], BlockType.SDF_BLOCKTYPE_PLAIN_VARIABLE, Datatype.SDF_DATATYPE_LOGICAL, 1,
        Buffer.l [1]⟩ (Or.inl rfl) rfl rfl rfl (Dbl.fin 1) (Dbl.fin 1)
      (by simp [Buffer.values, Dbl.ofInt32]) (by simp [Buffer.values, Dbl.ofInt32])]
    norm_num [rel_test, rel_diff, ABS_fin, MIN_fin, sub_fin, div_fin, lt_fin, Dbl.gt,
      Dbl.signedZero]
  · norm_num [Dbl.ge, le_fin]

/-- C9, amended: for the logical datatype `diff_block` applies the
relative-error test to the raw byte values `x` and `y` (no reduction to 0/1);
two equal non-zero bytes are never printed for `relerr >= 0`, and for bytes
that are 0 or 1 the outcome is that of the normalized pair. -/
theorem diff_block_logical_raw (rnd : ℚ → Dbl) (relerr : Dbl) (id1 id2 : List Char)
    (x y : Int) :
    (diff_block rnd relerr
        ⟨id1, BlockType.SDF_BLOCKTYPE_PLAIN_VARIABLE, Datatype.SDF_DATATYPE_LOGICAL, 1,
          Buffer.l [x]⟩
        ⟨id2, BlockType.SDF_BLOCKTYPE_PLAIN_VARIABLE, Datatype.SDF_DATATYPE_LOGICAL, 1,
          Buffer.l [y]⟩ =
      some (0, [Event.read_data 0 id1, Event.read_data 1 id2] ++
        (if Dbl.gt (Dbl.div rnd (ABS (Dbl.sub rnd (Dbl.fin x) (Dbl.fin y)))
            (MIN (ABS (Dbl.fin x)) (ABS (Dbl.fin y)))) relerr = true
          then [Event.mismatch id1 0 (Dbl.fin x) (Dbl.fin y)] else []))) ∧
    (x = y → x ≠ 0 → Dbl.ge relerr (Dbl.fin 0) = true →
      diff_block rnd relerr
        ⟨id1, BlockType.SDF_BLOCKTYPE_PLAIN_VARIABLE, Datatype.SDF_DATATYPE_LOGICAL, 1,
          Buffer.l [x]⟩
        ⟨id2, BlockType.SDF_BLOCKTYPE_PLAIN_VARIABLE, Datatype.SDF_DATATYPE_LOGICAL, 1,
          Buffer.l [y]⟩ =
      some (0, [Event.read_data 0 id1, Event.read_data 1 id2])) ∧
    ((x = 0 ∨ x = 1) → (y = 0 ∨ y = 1) →
      diff_block rnd relerr
        ⟨id1, BlockType.SDF_BLOCKTYPE_PLAIN_VARIABLE, Datatype.SDF_DATATYPE_LOGICAL, 1,
          Buffer.l [x]⟩
        ⟨id2, BlockType.SDF_BLOCKTYPE_PLAIN_VARIABLE, Datatype.SDF_DATATYPE_LOGICAL, 1,
          Buffer.l [y]⟩ =
      diff_block rnd relerr
        ⟨id1, BlockType.SDF_BLOCKTYPE_PLAIN_VARIABLE, Datatype.SDF_DATATYPE_LOGICAL, 1,
          Buffer.l [if x ≠ 0 then 1 else 0]⟩
        ⟨id2, BlockType.SDF_BLOCKTYPE_PLAIN_VARIABLE, Datatype.SDF_DATATYPE_LOGICAL, 1,
          Buffer.l [if y ≠ 0 then 1 else 0]⟩) := by
  have key := diff_block_single rnd relerr
    ⟨id1, BlockType.SDF_BLOCKTYPE_PLAIN_VARIABLE, Datatype.SDF_DATATYPE_LOGICAL, 1,
      Buffer.l [x]⟩
    ⟨id2, BlockType.SDF_BLOCKTYPE_PLAIN_VARIABLE, Datatype.SDF_DATATYPE_LOGICAL, 1,
      Buffer.l [y]⟩ (Or.inl rfl) rfl rfl rfl (Dbl.fin x) (Dbl.fin y)
    (by simp [Buffer.values, Dbl.ofInt32]) (by simp [Buffer.values, Dbl.ofInt32])
  refine ⟨key, ?_, ?_⟩
  · intro hxy hx hr
    rw [key]
    subst hxy
    have hx0 : (x : ℚ) ≠ 0 := by exact_mod_cast hx
    have hax : |(x : ℚ)| ≠ 0 := abs_ne_zero.mpr hx0
    have ht : rel_test rnd relerr (Dbl.fin x) (Dbl.fin x) = false := by
      simp only [rel_test, rel_diff, Dbl.gt, sub_fin, sub_self, if_true, ABS_fin, MIN_fin,
        abs_zero, min_self, div_fin, if_neg hax]
      have hn : ¬ (|(x : ℚ)| < 0) := not_lt.mpr (abs_nonneg _)
      simp only [hn, decide_False, Dbl.signedZero]
      exact lt_false_of_le _ _ hr
    simp [ht]
  · intro hx hy
    rcases hx with hx | hx <;> rcases hy with hy | hy <;> subst hx <;> subst hy <;> rfl

/-! ## Lemmas on the range list -/

theorem wrap32_eq_self (x : Int) (h1 : -2147483648 ≤ x) (h2 : x ≤ 2147483647) :
    wrap32 x = x := by
  unfold wrap32; omega

theorem orderedInsert_congr (r s : range_type → range_type → Prop) [DecidableRel r]
    [DecidableRel s] (a : range_type) :
    ∀ l : List range_type, (∀ b ∈ l, r a b ↔ s a b) →
      List.orderedInsert r a l = List.orderedInsert s a l := by
  intro l
  induction l with
  | nil => intro _; rfl
  | cons b l ih =>
    intro h
    have hb : r a b ↔ s a b := h b (List.mem_cons_self _ _)
    have hl : ∀ c ∈ l, r a c ↔ s a c := fun c hc => h c (List.mem_cons_of_mem _ hc)
    by_cases hr : r a b
    · have hs : s a b := hb.mp hr
      simp [List.orderedInsert, hr, hs]
    · have hs : ¬ s a b := fun x => hr (hb.mpr x)
      simp [List.orderedInsert, hr, hs, ih hl]

theorem insertionSort_congr (r s : range_type → range_type → Prop) [DecidableRel r]
    [DecidableRel s] :
    ∀ l : List range_type, (∀ a ∈ l, ∀ b ∈ l, r a b ↔ s a b) →
      List.insertionSort r l = List.insertionSort s l := by
  intro l
  induction l with
  | nil => intro _; rfl
  | cons a l ih =>
    intro h
    have hl : ∀ x ∈ l, ∀ y ∈ l, r x y ↔ s x y := fun x hx y hy =>
      h x (List.mem_cons_of_mem _ hx) y (List.mem_cons_of_mem _ hy)
    simp only [List.insertionSort]
    rw [ih hl]
    apply orderedInsert_congr
    intro b hb
    have hb2 : b ∈ l := (List.perm_insertionSort s l).mem_iff.mp hb
    exact h a (List.mem_cons_self _ _) b (List.mem_cons_of_mem _ hb2)

/-- With starts that are non-negative `int`s the comparator difference does not
overflow, and `qsort` returns the list sorted by `start`. -/
theorem qsort_eq_sort_by_start (l : List range_type)
    (h : ∀ r ∈ l, 0 ≤ r.start ∧ r.start ≤ INT_MAX) :
    qsort l = List.insertionSort (fun a b => a.start ≤ b.start) l := by
  unfold qsort
  apply insertionSort_congr
  intro a ha b hb
  have h1 := h a ha
  have h2 := h b hb
  unfold INT_MAX at h1 h2
  unfold range_sort
  rw [wrap32_eq_self _ (by omega) (by omega)]
  omega

theorem qsort_perm (l : List range_type) : (qsort l).Perm l :=
  List.perm_insertionSort _ l

theorem qsort_sorted (l : List range_type)
    (h : ∀ r ∈ l, 0 ≤ r.start ∧ r.start ≤ INT_MAX) :
    (qsort l).Pairwise (fun a b => a.start ≤ b.start) := by
  rw [qsort_eq_sort_by_start l h]
  haveI : IsTotal range_type (fun a b => a.start ≤ b.start) := ⟨fun a b => le_total _ _⟩
  haveI : IsTrans range_type (fun a b => a.start ≤ b.start) :=
    ⟨fun a b c hab hbc => le_trans hab hbc⟩
  exact List.sorted_insertionSort (fun a b : range_type => a.start ≤ b.start) l

theorem covers_cons (r : range_type) (l : List range_type) (k : Int) :
    covers (r :: l) k ↔ (r.start ≤ k ∧ k ≤ r.«end») ∨ covers l k := by
  simp [covers]

/-- The merge loop keeps the set of covered integers, on a list sorted by
`start` whose entries satisfy `0 <= start <= end <= INT_MAX`. -/
theorem sanitize_loop_covers (k : Int) :
    ∀ (rest : List range_type) (prev : range_type),
      0 ≤ prev.start → prev.start ≤ prev.«end» → prev.«end» ≤ INT_MAX →
      (∀ r ∈ rest, prev.start ≤ r.start ∧ r.start ≤ r.«end» ∧ r.«end» ≤ INT_MAX) →
      rest.Pairwise (fun a b => a.start ≤ b.start) →
      (covers (sanitize_loop prev rest) k ↔ covers (prev :: rest) k) := by
  intro rest
  induction rest with
  | nil => intro prev _ _ _ _ _; simp [sanitize_loop]
  | cons cur rest ih =>
    intro prev h0 h1 h2 hr hs
    have hc := hr cur (List.mem_cons_self _ _)
    have hrest : ∀ r ∈ rest, prev.start ≤ r.start ∧ r.start ≤ r.«end» ∧ r.«end» ≤ INT_MAX :=
      fun r hx => hr r (List.mem_cons_of_mem _ hx)
    rw [List.pairwise_cons] at hs
    unfold INT_MAX at h2 hc
    rw [sanitize_loop]
    by_cases hm : cur.start ≤ wrap32 (prev.«end» + 1)
    · rw [if_pos hm]
      have hw : cur.start ≤ prev.«end» + 1 := by
        unfold wrap32 at hm; omega
      have hmerge := ih ⟨prev.start, if cur.«end» > prev.«end» then cur.«end» else prev.«end»⟩
        h0
        (by show prev.start ≤ (if cur.«end» > prev.«end» then cur.«end» else prev.«end»)
            split <;> omega)
        (by show (if cur.«end» > prev.«end» then cur.«end» else prev.«end») ≤ INT_MAX
            unfold INT_MAX; split <;> omega)
        hrest hs.2
      rw [hmerge]
      rw [covers_cons, covers_cons, covers_cons]
      dsimp only
      constructor
      · rintro (⟨a, b⟩ | c)
        · by_cases hk : k ≤ prev.«end»
          · exact Or.inl ⟨a, hk⟩
          · refine Or.inr (Or.inl ⟨by omega, ?_⟩)
            split at b <;> omega
        · exact Or.inr (Or.inr c)
      · rintro (⟨a, b⟩ | ⟨a, b⟩ | c)
        · exact Or.inl ⟨a, by split <;> omega⟩
        · exact Or.inl ⟨by omega, by split <;> omega⟩
        · exact Or.inr c
    · rw [if_neg hm]
      rw [covers_cons, covers_cons]
      rw [ih cur (by omega) hc.2.1 (by unfold INT_MAX; omega)
        (fun r hx => ⟨hs.1 r hx, (hrest r hx).2⟩) hs.2]

/-- The sort-and-merge step keeps the set of covered integers, for entries with
`0 <= start <= end <= INT_MAX`. -/
theorem parse_args_sanitize_covers (range_list : List range_type)
    (h : ∀ r ∈ range_list, 0 ≤ r.start ∧ r.start ≤ r.«end» ∧ r.«end» ≤ INT_MAX) (k : Int) :
    covers (parse_args_sanitize range_list) k ↔ covers range_list k := by
  unfold parse_args_sanitize
  split
  · have hp := qsort_perm range_list
    have hsrt := qsort_sorted range_list (fun r hr => ⟨(h r hr).1, by
      have := h r hr; omega⟩)
    have hcov : covers (qsort range_list) k ↔ covers range_list k := by
      unfold covers
      constructor
      · rintro ⟨r, hr, x⟩; exact ⟨r, hp.mem_iff.mp hr, x⟩
      · rintro ⟨r, hr, x⟩; exact ⟨r, hp.mem_iff.mpr hr, x⟩
    rw [← hcov]
    cases hq : qsort range_list with
    | nil => simp
    | cons first rest =>
      rw [hq] at hsrt hp
      rw [List.pairwise_cons] at hsrt
      have hf := h first (hp.mem_iff.mp (List.mem_cons_self _ _))
      simp only []
      exact sanitize_loop_covers k rest first hf.1 hf.2.1 hf.2.2
        (fun r hr => ⟨hsrt.1 r hr, (h r (hp.mem_iff.mp (List.mem_cons_of_mem _ hr))).2⟩) hsrt.2
  · rfl

/-- The merge loop leaves a list whose consecutive entries `p`, `q` satisfy
`p.start < q.start` and `p.end + 1 < q.start`, on a list sorted by `start`
whose entries satisfy `0 <= start <= end < INT_MAX`. -/
theorem sanitize_loop_separated :
    ∀ (rest : List range_type) (prev : range_type),
      0 ≤ prev.start → prev.start ≤ prev.«end» → prev.«end» < INT_MAX →
      (∀ r ∈ rest, prev.start ≤ r.start ∧ r.start ≤ r.«end» ∧ r.«end» < INT_MAX) →
      rest.Pairwise (fun a b => a.start ≤ b.start) →
      ∃ e tl, sanitize_loop prev rest = ⟨prev.start, e⟩ :: tl ∧ prev.«end» ≤ e ∧
        List.Chain (fun p q => p.start < q.start ∧ p.«end» + 1 < q.start) ⟨prev.start, e⟩ tl := by
  intro rest
  induction rest with
  | nil =>
    intro prev _ _ _ _ _
    exact ⟨prev.«end», [], rfl, le_refl _, List.Chain.nil⟩
  | cons cur rest ih =>
    intro prev h0 h1 h2 hr hs
    have hc := hr cur (List.mem_cons_self _ _)
    have hrest : ∀ r ∈ rest, prev.start ≤ r.start ∧ r.start ≤ r.«end» ∧ r.«end» < INT_MAX :=
      fun r hx => hr r (List.mem_cons_of_mem _ hx)
    rw [List.pairwise_cons] at hs
    unfold INT_MAX at h2 hc
    rw [sanitize_loop]
    by_cases hm : cur.start ≤ wrap32 (prev.«end» + 1)
    · rw [if_pos hm]
      obtain ⟨e, tl, he, hle, hch⟩ :=
        ih ⟨prev.start, if cur.«end» > prev.«end» then cur.«end» else prev.«end»⟩ h0
          (by show prev.start ≤ (if cur.«end» > prev.«end» then cur.«end» else prev.«end»)
              split <;> omega)
          (by show (if cur.«end» > prev.«end» then cur.«end» else prev.«end») < INT_MAX
              unfold INT_MAX; split <;> omega)
          hrest hs.2
      refine ⟨e, tl, he, ?_, hch⟩
      have hle2 : (if cur.«end» > prev.«end» then cur.«end» else prev.«end») ≤ e := hle
      split at hle2 <;> omega
    · rw [if_neg hm]
      obtain ⟨e, tl, he, hle, hch⟩ := ih cur (by omega) hc.2.1 (by unfold INT_MAX; omega)
        (fun r hx => ⟨hs.1 r hx, (hrest r hx).2⟩) hs.2
      have hw : prev.«end» + 1 < cur.start := by
        unfold wrap32 at hm; omega
      refine ⟨prev.«end», ⟨cur.start, e⟩ :: tl, ?_, le_refl _, ?_⟩
      · rw [he]
      · exact List.Chain.cons ⟨by show prev.start < cur.start; omega, hw⟩ hch

/-- The sort-and-merge step leaves a list whose consecutive entries `p`, `q`
satisfy `p.start < q.start` and `p.end + 1 < q.start`, when no entry of the
input ends at `INT_MAX`: entries with `0 <= start <= end < INT_MAX`. -/
theorem parse_args_sanitize_separated (range_list : List range_type)
    (h : ∀ r ∈ range_list, 0 ≤ r.start ∧ r.start ≤ r.«end» ∧ r.«end» < INT_MAX) :
    (parse_args_sanitize range_list).Chain'
      (fun p q => p.start < q.start ∧ p.«end» + 1 < q.start) := by
  unfold parse_args_sanitize
  split
  · have hp := qsort_perm range_list
    have hsrt := qsort_sorted range_list (fun r hr => ⟨(h r hr).1, by
      have := h r hr; omega⟩)
    cases hq : qsort range_list with
    | nil => simp
    | cons first rest =>
      rw [hq] at hsrt hp
      rw [List.pairwise_cons] at hsrt
      have hf := h first (hp.mem_iff.mp (List.mem_cons_self _ _))
      obtain ⟨e, tl, he, _, hch⟩ := sanitize_loop_separated rest first hf.1 hf.2.1 hf.2.2
        (fun r hr => ⟨hsrt.1 r hr, (h r (hp.mem_iff.mp (List.mem_cons_of_mem _ hr))).2⟩) hsrt.2
      simp only []
      rw [he]
      exact hch
  · have hnil : range_list = [] := by
      cases range_list with
      | nil => rfl
      | cons a l => simp at *
    rw [hnil]
    exact List.chain'_nil

/-! ## Claims on the range list -/

/-- C2, failing input: the range list of `-v 1-,5-7` holds the open range
`(1, INT_MAX)` and `(5, 7)`; `prev.end+1` overflows, nothing is merged, and the
list that is left overlaps. -/
theorem parse_args_sanitize_open_range_kept :
    parse_args_sanitize [⟨1, INT_MAX⟩, ⟨5, 7⟩] = [⟨1, INT_MAX⟩, ⟨5, 7⟩] ∧
      wrap32 (INT_MAX + 1) = INT_MIN ∧ ¬ (INT_MAX + 1 < 5) := by
  decide

/-- C3, counterexample: on the entries `(1, 1)` and `(INT_MIN, INT_MIN)` the
comparator difference overflows, the entry that starts at `INT_MIN` is sorted
last and merged away, and `INT_MIN` is no longer covered. -/
theorem parse_args_sanitize_loses_negative_start :
    parse_args_sanitize [⟨1, 1⟩, ⟨INT_MIN, INT_MIN⟩] = [⟨1, 1⟩] ∧
      covers [⟨1, 1⟩, ⟨INT_MIN, INT_MIN⟩] INT_MIN ∧
      ¬ covers (parse_args_sanitize [⟨1, 1⟩, ⟨INT_MIN, INT_MIN⟩]) INT_MIN := by
  have h : parse_args_sanitize [⟨1, 1⟩, ⟨INT_MIN, INT_MIN⟩] = [⟨1, 1⟩] := by decide
  refine ⟨h, ?_, ?_⟩
  · unfold covers; decide
  · rw [h]; unfold covers; decide

/-- C3, amended: for every range list whose entries satisfy
`0 <= start <= end <= INT_MAX`, the integers covered by the list that the
sort-and-merge step leaves are the integers covered by the input. -/
theorem parse_args_sanitize_same_union (range_list : List range_type)
    (h : ∀ r ∈ range_list, 0 ≤ r.start ∧ r.start ≤ r.«end» ∧ r.«end» ≤ INT_MAX) :
    ∀ k : Int, covers (parse_args_sanitize range_list) k ↔ covers range_list k :=
  fun k => parse_args_sanitize_covers range_list h k

/-- C3, witness: the input `[(5,8),(1,3),(4,4)]` becomes `[(1,8)]`, and 4 is
covered before and after. -/
theorem parse_args_sanitize_same_union_witness :
    parse_args_sanitize [⟨5, 8⟩, ⟨1, 3⟩, ⟨4, 4⟩] = [⟨1, 8⟩] ∧
      (covers (parse_args_sanitize [⟨5, 8⟩, ⟨1, 3⟩, ⟨4, 4⟩]) 4 ↔
        covers [⟨5, 8⟩, ⟨1, 3⟩, ⟨4, 4⟩] 4) :=
  ⟨by decide, parse_args_sanitize_same_union [⟨5, 8⟩, ⟨1, 3⟩, ⟨4, 4⟩] (by decide) 4⟩

/-! ## Lemmas on the block loop of main -/

/-- The range loop at ordinal `idx`, started at a cursor that has only passed
entries ending before `idx`, on a list sorted by `start`: it sets `found`
exactly when `idx` lies in some entry, and the new cursor has still only passed
entries ending before `idx`. -/
theorem range_loop_spec (idx : Int) :
    ∀ (suf pre : List range_type), (∀ r ∈ pre, r.«end» < idx) →
      (pre ++ suf).Pairwise (fun a b => a.start ≤ b.start) →
      ((range_loop idx suf pre.length).1 = true ↔ covers (pre ++ suf) idx) ∧
      ∃ pre2 suf2, pre ++ suf = pre2 ++ suf2 ∧
        (range_loop idx suf pre.length).2 = pre2.length ∧ ∀ r ∈ pre2, r.«end» < idx := by
  intro suf
  induction suf with
  | nil =>
    intro pre hpre _
    refine ⟨?_, pre, [], rfl, rfl, hpre⟩
    simp only [range_loop, List.append_nil, covers]
    constructor
    · intro h; cases h
    · rintro ⟨r, hr, _, h2⟩
      have := hpre r hr
      omega
  | cons r rest ih =>
    intro pre hpre hs
    rw [range_loop]
    by_cases h1 : idx < r.start
    · rw [if_pos h1]
      refine ⟨?_, pre, r :: rest, rfl, rfl, hpre⟩
      constructor
      · intro h; cases h
      · rintro ⟨x, hx, hx1, hx2⟩
        rw [List.pairwise_append] at hs
        rw [List.mem_append] at hx
        rcases hx with hx | hx
        · have := hpre x hx; omega
        · rw [List.mem_cons] at hx
          rcases hx with hx | hx
          · subst hx; omega
          · have := (List.pairwise_cons.mp hs.2.1).1 x hx
            omega
    · rw [if_neg h1]
      by_cases h2 : idx ≤ r.«end»
      · rw [if_pos h2]
        refine ⟨?_, pre, r :: rest, rfl, rfl, hpre⟩
        constructor
        · intro _
          exact ⟨r, by simp, by omega, h2⟩
        · intro _; rfl
      · rw [if_neg h2]
        have hpre2 : ∀ x ∈ pre ++ [r], x.«end» < idx := by
          intro x hx
          rw [List.mem_append] at hx
          rcases hx with hx | hx
          · exact hpre x hx
          · simp at hx; subst hx; omega
        have heq : pre ++ r :: rest = (pre ++ [r]) ++ rest := by simp
        have hlen : (pre ++ [r]).length = pre.length + 1 := by simp
        have := ih (pre ++ [r]) hpre2 (by rw [← heq]; exact hs)
        rw [hlen, ← heq] at this
        exact this

/-- The comparison `memcmp(b->id, entry->id, strlen(entry->id)+1)` is `0`
exactly when the two identifiers are the same string. -/
theorem memcmp_eq_iff (id entry : List Char) (h : Char.ofNat 0 ∉ id) :
    memcmp_eq (c_str id) (c_str entry) (entry.length + 1) = true ↔ id = entry := by
  unfold memcmp_eq c_str
  rw [decide_eq_true_iff]
  have he : (entry ++ [Char.ofNat 0]).take (entry.length + 1) = entry ++ [Char.ofNat 0] := by
    apply List.take_of_length_le; simp
  rw [he]
  constructor
  · intro hid
    by_cases hl : id.length ≤ entry.length
    · have : (id ++ [Char.ofNat 0]).take (entry.length + 1) = id ++ [Char.ofNat 0] := by
        apply List.take_of_length_le; simp; omega
      rw [this] at hid
      exact List.append_cancel_right hid
    · exfalso
      have hlt : entry.length + 1 ≤ id.length := by omega
      have ht : (id ++ [Char.ofNat 0]).take (entry.length + 1) = id.take (entry.length + 1) :=
        List.take_append_of_le_length hlt
      rw [ht] at hid
      have hm : Char.ofNat 0 ∈ id.take (entry.length + 1) := by rw [hid]; simp
      exact h (List.mem_of_mem_take hm)
  · intro hid
    subst hid
    exact he

/-- The identifier loop finds a block exactly when its identifier is an entry
of the list. -/
theorem id_loop_iff (id : List Char) (h : Char.ofNat 0 ∉ id) :
    ∀ ids : List (List Char), id_loop id ids = true ↔ id ∈ ids := by
  intro ids
  induction ids with
  | nil => simp [id_loop]
  | cons e rest ih =>
    rw [id_loop]
    by_cases hm : memcmp_eq (c_str id) (c_str e) (e.length + 1) = true
    · rw [if_pos hm]
      have := (memcmp_eq_iff id e h).mp hm
      simp [this]
    · rw [if_neg hm, ih]
      have hne : ¬ id = e := fun x => hm ((memcmp_eq_iff id e h).mpr x)
      simp [hne]

/-- Every visit of the block loop is one iteration of `main` on the block at
that position. -/
theorem main_loop_get (rnd : ℚ → Dbl) (cfg : Config) (h2 : List Block) :
    ∀ (blocks : List Block) (s : LoopState) (k : Nat) (b : Block),
      blocks.get? k = some b →
      ∃ sk, (main_loop rnd cfg h2 s blocks).get? k = some (main_step rnd cfg h2 sk b).2 := by
  intro blocks
  induction blocks with
  | nil => intro s k b h; simp at h
  | cons b0 next ih =>
    intro s k b h
    cases k with
    | zero =>
      simp at h
      subst h
      exact ⟨s, by simp [main_loop]⟩
    | succ k =>
      simp at h
      obtain ⟨sk, hsk⟩ := ih (main_step rnd cfg h2 s b0).1 k b (by simpa using h)
      exact ⟨sk, by simpa [main_loop] using hsk⟩

theorem main_loop_length (rnd : ℚ → Dbl) (cfg : Config) (h2 : List Block) :
    ∀ (blocks : List Block) (s : LoopState),
      (main_loop rnd cfg h2 s blocks).length = blocks.length := by
  intro blocks
  induction blocks with
  | nil => intro s; rfl
  | cons b next ih => intro s; simp [main_loop, ih]

/-- The visit of the block at position `k` of the block loop started in a state
whose cursor has only passed entries ending before `idx`, on a range list
sorted by `start`: the ordinal is `idx + k`, the range loop sets `found`
exactly when the ordinal lies in some entry, and with a range list or an
identifier list `found` is the disjunction of the two searches. -/
theorem main_loop_visit (rnd : ℚ → Dbl) (cfg : Config) (h2 : List Block)
    (hs : cfg.range_list.Pairwise (fun a b => a.start ≤ b.start)) :
    ∀ (blocks : List Block) (s : LoopState) (pre suf : List range_type),
      cfg.range_list = pre ++ suf → s.range_start = pre.length →
      (∀ r ∈ pre, r.«end» < s.idx) →
      ∀ (k : Nat) (b : Block), blocks.get? k = some b →
      ∃ v, (main_loop rnd cfg h2 s blocks).get? k = some v ∧ v.idx = s.idx + k ∧
        (v.range_found = true ↔ covers cfg.range_list (s.idx + k)) ∧
        (cfg.range_list.length > 0 ∨ cfg.variable_ids ≠ [] →
          v.found = (v.range_found || id_loop b.id cfg.variable_ids)) := by
  intro blocks
  induction blocks with
  | nil => intro s pre suf _ _ _ k b h; simp at h
  | cons b0 next ih =>
    intro s pre suf hrl hrs hpre k b h
    have hdrop : cfg.range_list.drop s.range_start = suf := by
      rw [hrl, hrs]; exact List.drop_left _ _
    have hspec := range_loop_spec s.idx suf pre hpre (by rw [← hrl]; exact hs)
    rw [← hrl, ← hrs, ← hdrop] at hspec
    obtain ⟨hfound, pre2, suf2, heq, hcur, hpre2⟩ := hspec
    cases k with
    | zero =>
      simp at h
      subst h
      refine ⟨(main_step rnd cfg h2 s b0).2, by simp [main_loop], by simp [main_step], ?_, ?_⟩
      · simpa [main_step, main_search] using hfound
      · intro hcfg
        simp only [main_step, main_search]
        rw [if_pos hcfg]
        by_cases hv : cfg.variable_ids = []
        · simp [hv, id_loop]
        · cases hsc : (range_loop s.idx (List.drop s.range_start cfg.range_list)
            s.range_start).1 <;> simp [hv]
    | succ k =>
      have hk : next.get? k = some b := by simpa using h
      obtain ⟨v, hv1, hv2, hv3, hv4⟩ := ih (main_step rnd cfg h2 s b0).1 pre2 suf2 heq
        (by simpa [main_step, main_search] using hcur)
        (by
          intro r hr
          have := hpre2 r hr
          simp only [main_step]
          omega) k b hk
      refine ⟨v, by simpa [main_loop] using hv1, ?_, ?_, hv4⟩
      · rw [hv2]; simp only [main_step]; push_cast; ring
      · rw [hv3]
        have : (main_step rnd cfg h2 s b0).1.idx + (k : Int) = s.idx + ((k + 1 : Nat) : Int) := by
          simp only [main_step]; push_cast; ring
        rw [this]

/-- The state after an iteration and the value of `found` do not depend on
`exclude_variables`, `metadata` and the second file; the block is processed
exactly when `found` differs from `exclude_variables`. -/
theorem main_step_exclude (rnd : ℚ → Dbl) (range_list : List range_type)
    (variable_ids : List (List Char)) (metadata : Bool) (relerr : Dbl) (h2 : List Block)
    (s : LoopState) (b : Block) (e : Bool) :
    (main_step rnd ⟨range_list, variable_ids, e, metadata, relerr⟩ h2 s b).1 =
        (main_step rnd ⟨range_list, variable_ids, false, metadata, relerr⟩ h2 s b).1 ∧
      (main_step rnd ⟨range_list, variable_ids, e, metadata, relerr⟩ h2 s b).2.found =
        (main_step rnd ⟨range_list, variable_ids, false, metadata, relerr⟩ h2 s b).2.found ∧
      (main_step rnd ⟨range_list, variable_ids, e, metadata, relerr⟩ h2 s b).2.processed =
        xor (main_step rnd ⟨range_list, variable_ids, e, metadata, relerr⟩ h2 s b).2.found e := by
  refine ⟨rfl, rfl, ?_⟩
  simp only [main_step]
  cases e <;> simp

/-- Output of one iteration of `main`: nothing for a block that is skipped; for
a block that is processed, the call of `print_metadata` or the not-found line
when the second file has no block of that identifier, otherwise the output of
`diff_block`. -/
theorem main_step_out (rnd : ℚ → Dbl) (cfg : Config) (h2 : List Block) (s : LoopState)
    (b : Block) :
    (main_step rnd cfg h2 s b).2.out =
      if (main_step rnd cfg h2 s b).2.processed = true then
        match sdf_find_block_by_id h2 b.id with
        | none =>
          if cfg.metadata = true then some [Event.print_metadata b.id s.idx]
          else some [Event.not_found b.id]
        | some b2 => (diff_block rnd cfg.relerr b b2).map (fun r => r.2)
      else some [] := by
  simp only [main_step]
  by_cases hsk : (if cfg.exclude_variables = true then (main_search cfg s b).2.1
    else !(main_search cfg s b).2.1) = true
  · rw [if_pos hsk]; simp [hsk]
  · rw [if_neg hsk]
    rw [Bool.not_eq_true] at hsk
    simp [hsk]

/-- Output of `diff_block` on the `int32` buffers `[1,2,3]` and `[1,2,100]` of
two plain variable blocks named `ex`, with `relerr = 0`. -/
theorem diff_block_ex :
    diff_block Dbl.fin (Dbl.fin 0)
      ⟨['e', 'x'], BlockType.SDF_BLOCKTYPE_PLAIN_VARIABLE, Datatype.SDF_DATATYPE_INTEGER4, 3,
        Buffer.i4 [1, 2, 3]⟩
      ⟨['e', 'x'], BlockType.SDF_BLOCKTYPE_PLAIN_VARIABLE, Datatype.SDF_DATATYPE_INTEGER4, 3,
        Buffer.i4 [1, 2, 100]⟩ =
    some (0, [Event.read_data 0 ['e', 'x'], Event.read_data 1 ['e', 'x'],
      Event.mismatch ['e', 'x'] 2 (Dbl.fin 3) (Dbl.fin 100)]) := by
  refine (diff_block_typed Dbl.fin (Dbl.fin 0)
    ⟨['e', 'x'], BlockType.SDF_BLOCKTYPE_PLAIN_VARIABLE, Datatype.SDF_DATATYPE_INTEGER4, 3,
      Buffer.i4 [1, 2, 3]⟩
    ⟨['e', 'x'], BlockType.SDF_BLOCKTYPE_PLAIN_VARIABLE, Datatype.SDF_DATATYPE_INTEGER4, 3,
      Buffer.i4 [1, 2, 100]⟩ (Or.inl rfl) rfl rfl rfl rfl).trans ?_
  norm_num [List.range, List.range.loop, List.filterMap_cons, Buffer.values, Dbl.signedZero,
    Dbl.ofInt32, rel_test, rel_diff, ABS_fin, MIN_fin, sub_fin, div_fin, lt_fin, Dbl.gt]

/-! ## Claims on the block loop of main -/

/-- C4: on a range list sorted by `start`, when `main` visits the blocks at the
ordinals 1, 2, 3, ... and carries `range_start` along, the range loop sets
`found` for the block at ordinal `k + 1` exactly when `start <= k + 1 <= end`
for some entry of the list. -/
theorem main_range_cursor_is_membership (rnd : ℚ → Dbl) (cfg : Config) (h h2 : List Block)
    (hs : cfg.range_list.Pairwise (fun a b => a.start ≤ b.start))
    (k : Nat) (b : Block) (hk : h.get? k = some b) :
    ∃ v, (main_loop rnd cfg h2 main_init h).get? k = some v ∧ v.idx = (k : Int) + 1 ∧
      (v.range_found = true ↔
        ∃ r ∈ cfg.range_list, r.start ≤ (k : Int) + 1 ∧ (k : Int) + 1 ≤ r.«end») := by
  obtain ⟨v, h1, h2, h3, _⟩ := main_loop_visit rnd cfg h2 hs h main_init [] cfg.range_list
    rfl rfl (by simp) k b hk
  have hi : main_init.idx + (k : Int) = (k : Int) + 1 := by
    simp only [main_init]; ring
  rw [hi] at h2 h3
  exact ⟨v, h1, h2, h3⟩

/-- C4, witness: with the ranges `(2,3)` and `(5,5)` the fifth block is
found by the range loop. -/
theorem main_range_cursor_is_membership_witness :
    ∃ v, (main_loop Dbl.fin ⟨[⟨2, 3⟩, ⟨5, 5⟩], [], false, false, Dbl.fin 0⟩ []
        main_init (List.replicate 6 ⟨['a'], BlockType.SDF_BLOCKTYPE_CONSTANT,
          Datatype.SDF_DATATYPE_NULL, 0, Buffer.i4 []⟩)).get? 4 = some v ∧
      v.idx = ((4 : Nat) : Int) + 1 ∧
      (v.range_found = true ↔
        ∃ r ∈ [(⟨2, 3⟩ : range_type), ⟨5, 5⟩],
          r.start ≤ ((4 : Nat) : Int) + 1 ∧ ((4 : Nat) : Int) + 1 ≤ r.«end») :=
  main_range_cursor_is_membership Dbl.fin ⟨[⟨2, 3⟩, ⟨5, 5⟩], [], false, false, Dbl.fin 0⟩
    (List.replicate 6 ⟨['a'], BlockType.SDF_BLOCKTYPE_CONSTANT,
      Datatype.SDF_DATATYPE_NULL, 0, Buffer.i4 []⟩) [] (by decide) 4
    ⟨['a'], BlockType.SDF_BLOCKTYPE_CONSTANT, Datatype.SDF_DATATYPE_NULL, 0, Buffer.i4 []⟩ rfl

/-- C5: with a range list sorted by `start`, and a range list or an identifier
list supplied, the block at ordinal `k + 1` is matched exactly when the ordinal
lies in some entry of the range list or the identifier of the block is equal,
as a string, to some entry of the identifier list. -/
theorem main_found_iff_range_or_id (rnd : ℚ → Dbl) (cfg : Config) (h h2 : List Block)
    (hs : cfg.range_list.Pairwise (fun a b => a.start ≤ b.start))
    (hcfg : cfg.range_list.length > 0 ∨ cfg.variable_ids ≠ [])
    (hid : ∀ b ∈ h, Char.ofNat 0 ∉ b.id)
    (k : Nat) (b : Block) (hk : h.get? k = some b) :
    ∃ v, (main_loop rnd cfg h2 main_init h).get? k = some v ∧
      (v.found = true ↔
        (∃ r ∈ cfg.range_list, r.start ≤ (k : Int) + 1 ∧ (k : Int) + 1 ≤ r.«end») ∨
          b.id ∈ cfg.variable_ids) := by
  obtain ⟨v, h1, _, h3, h4⟩ := main_loop_visit rnd cfg h2 hs h main_init [] cfg.range_list
    rfl rfl (by simp) k b hk
  have hi : main_init.idx + (k : Int) = (k : Int) + 1 := by
    simp only [main_init]; ring
  rw [hi] at h3
  refine ⟨v, h1, ?_⟩
  rw [h4 hcfg, Bool.or_eq_true, h3, id_loop_iff b.id (hid b (List.get?_mem hk))]
  rfl

/-- C5, witness: with the identifier list `["ex"]` and no range, the blocks
`ex`, `e`, `exx` and `Ex` are visited; only `ex` is matched, the proper
leading part `e`, the extension `exx` and `Ex` are not. -/
theorem main_found_iff_range_or_id_witness :
    (main_loop Dbl.fin ⟨[], [['e', 'x']], false, false, Dbl.fin 0⟩ [] main_init
        [⟨['e', 'x'], BlockType.SDF_BLOCKTYPE_CONSTANT, Datatype.SDF_DATATYPE_NULL, 0, Buffer.i4 []⟩,
         ⟨['e'], BlockType.SDF_BLOCKTYPE_CONSTANT, Datatype.SDF_DATATYPE_NULL, 0, Buffer.i4 []⟩,
         ⟨['e', 'x', 'x'], BlockType.SDF_BLOCKTYPE_CONSTANT, Datatype.SDF_DATATYPE_NULL, 0, Buffer.i4 []⟩,
         ⟨['E', 'x'], BlockType.SDF_BLOCKTYPE_CONSTANT, Datatype.SDF_DATATYPE_NULL, 0, Buffer.i4 []⟩]).map
      (fun v => v.found) = [true, false, false, false] ∧
    ∃ v, (main_loop Dbl.fin ⟨[], [['e', 'x']], false, false, Dbl.fin 0⟩ [] main_init
        [⟨['e', 'x'], BlockType.SDF_BLOCKTYPE_CONSTANT, Datatype.SDF_DATATYPE_NULL, 0, Buffer.i4 []⟩,
         ⟨['e'], BlockType.SDF_BLOCKTYPE_CONSTANT, Datatype.SDF_DATATYPE_NULL, 0, Buffer.i4 []⟩,
         ⟨['e', 'x', 'x'], BlockType.SDF_BLOCKTYPE_CONSTANT, Datatype.SDF_DATATYPE_NULL, 0, Buffer.i4 []⟩,
         ⟨['E', 'x'], BlockType.SDF_BLOCKTYPE_CONSTANT, Datatype.SDF_DATATYPE_NULL, 0, Buffer.i4 []⟩]).get? 1
        = some v ∧
      (v.found = true ↔
        (∃ r ∈ ([] : List range_type), r.start ≤ ((1 : Nat) : Int) + 1 ∧
          ((1 : Nat) : Int) + 1 ≤ r.«end») ∨ ['e'] ∈ [['e', 'x']]) :=
  ⟨by decide,
   main_found_iff_range_or_id Dbl.fin ⟨[], [['e', 'x']], false, false, Dbl.fin 0⟩
    [⟨['e', 'x'], BlockType.SDF_BLOCKTYPE_CONSTANT, Datatype.SDF_DATATYPE_NULL, 0, Buffer.i4 []⟩,
     ⟨['e'], BlockType.SDF_BLOCKTYPE_CONSTANT, Datatype.SDF_DATATYPE_NULL, 0, Buffer.i4 []⟩,
     ⟨['e', 'x', 'x'], BlockType.SDF_BLOCKTYPE_CONSTANT, Datatype.SDF_DATATYPE_NULL, 0, Buffer.i4 []⟩,
     ⟨['E', 'x'], BlockType.SDF_BLOCKTYPE_CONSTANT, Datatype.SDF_DATATYPE_NULL, 0, Buffer.i4 []⟩]
    [] (by decide) (by decide) (by decide) 1
    ⟨['e'], BlockType.SDF_BLOCKTYPE_CONSTANT, Datatype.SDF_DATATYPE_NULL, 0, Buffer.i4 []⟩ rfl⟩

/-- C6: for every block list, every range list, identifier list and state of
the cursor, the decisions to process the blocks with `exclude_variables` set
are the negations of the decisions with it unset, the values of `found` are the
same, and a block is processed exactly when `found` differs from
`exclude_variables`. -/
theorem main_exclude_negates (rnd : ℚ → Dbl) (range_list : List range_type)
    (variable_ids : List (List Char)) (metadata : Bool) (relerr : Dbl) (h2 : List Block) :
    ∀ (blocks : List Block) (s : LoopState),
      (main_loop rnd ⟨range_list, variable_ids, true, metadata, relerr⟩ h2 s blocks).map
          (fun v => v.processed) =
        (main_loop rnd ⟨range_list, variable_ids, false, metadata, relerr⟩ h2 s blocks).map
          (fun v => !v.processed) ∧
      (main_loop rnd ⟨range_list, variable_ids, true, metadata, relerr⟩ h2 s blocks).map
          (fun v => v.found) =
        (main_loop rnd ⟨range_list, variable_ids, false, metadata, relerr⟩ h2 s blocks).map
          (fun v => v.found) ∧
      ∀ e : Bool,
        ∀ v ∈ main_loop rnd ⟨range_list, variable_ids, e, metadata, relerr⟩ h2 s blocks,
          v.processed = xor v.found e := by
  intro blocks
  induction blocks with
  | nil => intro s; simp [main_loop]
  | cons b next ih =>
    intro s
    have ht := main_step_exclude rnd range_list variable_ids metadata relerr h2 s b true
    have hf := main_step_exclude rnd range_list variable_ids metadata relerr h2 s b false
    obtain ⟨i1, i2, i3⟩ := ih
      (main_step rnd ⟨range_list, variable_ids, false, metadata, relerr⟩ h2 s b).1
    refine ⟨?_, ?_, ?_⟩
    · simp only [main_loop, List.map_cons]
      rw [ht.1, i1, ht.2.2, hf.2.2, ht.2.1]
      simp
    · simp only [main_loop, List.map_cons]
      rw [ht.1, i2, ht.2.1]
    · intro e v hv
      simp only [main_loop, List.mem_cons] at hv
      rcases hv with hv | hv
      · rw [hv]
        exact (main_step_exclude rnd range_list variable_ids metadata relerr h2 s b e).2.2
      · rw [(main_step_exclude rnd range_list variable_ids metadata relerr h2 s b e).1] at hv
        exact i3 e v hv

/-- C7: `main` makes one visit per block of the first file, in list order, and
its output is the outputs of the visits in that order; a visit of a skipped
block prints nothing; a visit of a processed block whose identifier the second
file lacks runs no comparison and reports once that the block was not found:
without the metadata option by the line of `main`, with it by the call of
`print_metadata`, whose first line is that report and which writes no second
one; a visit of a processed block found in the second file is the run of
`diff_block` on the pair. -/
theorem main_reports_not_found_once (rnd : ℚ → Dbl) (cfg : Config) (h h2 : List Block) :
    main rnd cfg h h2 = join_out (main_loop rnd cfg h2 main_init h) ∧
      (main_loop rnd cfg h2 main_init h).length = h.length ∧
      ∀ (k : Nat) (b : Block), h.get? k = some b →
        ∃ v, (main_loop rnd cfg h2 main_init h).get? k = some v ∧
          (v.processed = false → v.out = some []) ∧
          (v.processed = true → sdf_find_block_by_id h2 b.id = none →
            (cfg.metadata = false → v.out = some [Event.not_found b.id]) ∧
            (cfg.metadata = true →
              v.out = some [Event.print_metadata b.id v.idx] ∧
              ∀ (just_id in_file : Bool) (nblocks : Int), ∃ digit rest,
                print_metadata just_id in_file b v.idx nblocks =
                  MetaOut.block_not_found digit v.idx b.id :: rest ∧
                ∀ o ∈ rest, ∀ d i x, o ≠ MetaOut.block_not_found d i x)) ∧
          (v.processed = true → ∀ b2, sdf_find_block_by_id h2 b.id = some b2 →
            v.out = (diff_block rnd cfg.relerr b b2).map (fun r => r.2)) := by
  refine ⟨rfl, main_loop_length rnd cfg h2 h main_init, ?_⟩
  intro k b hk
  obtain ⟨sk, hsk⟩ := main_loop_get rnd cfg h2 h main_init k b hk
  refine ⟨_, hsk, ?_, ?_, ?_⟩
  · intro hp
    rw [main_step_out, hp]
    simp
  · intro hp hf
    refine ⟨fun hm => ?_, fun hm => ⟨?_, fun just_id in_file nblocks => ?_⟩⟩
    · rw [main_step_out, hp, hf, hm]
      simp
    · rw [main_step_out, hp, hf, hm]
      simp [main_step]
    · refine ⟨_, _, rfl, ?_⟩
      intro o ho d i x hc
      subst hc
      cases in_file <;> cases just_id <;> simp at ho
  · intro hp b2 hf
    rw [main_step_out, hp, hf]
    simp

/-- C7, witness: the first file holds `ex` and `ey`, the second file `ex` only,
no filter; the output is the mismatch of `ex` followed by the not-found line of
`ey`.  With the metadata option the block `ey` is handed to `print_metadata`,
which writes the report as its first line. -/
theorem main_reports_not_found_once_witness :
    main Dbl.fin ⟨[], [], false, false, Dbl.fin 0⟩
        [⟨['e', 'x'], BlockType.SDF_BLOCKTYPE_PLAIN_VARIABLE, Datatype.SDF_DATATYPE_INTEGER4, 3,
          Buffer.i4 [1, 2, 3]⟩,
         ⟨['e', 'y'], BlockType.SDF_BLOCKTYPE_PLAIN_VARIABLE, Datatype.SDF_DATATYPE_INTEGER4, 3,
          Buffer.i4 [1, 2, 3]⟩]
        [⟨['e', 'x'], BlockType.SDF_BLOCKTYPE_PLAIN_VARIABLE, Datatype.SDF_DATATYPE_INTEGER4, 3,
          Buffer.i4 [1, 2, 100]⟩] =
      some [Event.read_data 0 ['e', 'x'], Event.read_data 1 ['e', 'x'],
        Event.mismatch ['e', 'x'] 2 (Dbl.fin 3) (Dbl.fin 100), Event.not_found ['e', 'y']] ∧
    main Dbl.fin ⟨[], [], false, true, Dbl.fin 0⟩
        [⟨['e', 'y'], BlockType.SDF_BLOCKTYPE_PLAIN_VARIABLE, Datatype.SDF_DATATYPE_INTEGER4, 0,
          Buffer.i4 []⟩] [] =
      some [Event.print_metadata ['e', 'y'] 1] ∧
    print_metadata false true
        ⟨['e', 'y'], BlockType.SDF_BLOCKTYPE_PLAIN_VARIABLE, Datatype.SDF_DATATYPE_INTEGER4, 0,
          Buffer.i4 []⟩ 1 1 =
      [MetaOut.block_not_found 1 1 ['e', 'y'], MetaOut.newline, MetaOut.metadata ['e', 'y'],
        MetaOut.newline] := by
  refine ⟨?_, by decide, by decide⟩
  rw [(main_reports_not_found_once Dbl.fin ⟨[], [], false, false, Dbl.fin 0⟩
        [⟨['e', 'x'], BlockType.SDF_BLOCKTYPE_PLAIN_VARIABLE, Datatype.SDF_DATATYPE_INTEGER4, 3,
          Buffer.i4 [1, 2, 3]⟩,
         ⟨['e', 'y'], BlockType.SDF_BLOCKTYPE_PLAIN_VARIABLE, Datatype.SDF_DATATYPE_INTEGER4, 3,
          Buffer.i4 [1, 2, 3]⟩]
        [⟨['e', 'x'], BlockType.SDF_BLOCKTYPE_PLAIN_VARIABLE, Datatype.SDF_DATATYPE_INTEGER4, 3,
          Buffer.i4 [1, 2, 100]⟩]).1]
  simp only [main_loop, join_out, main_step_out]
  have hfx : sdf_find_block_by_id
      [⟨['e', 'x'], BlockType.SDF_BLOCKTYPE_PLAIN_VARIABLE, Datatype.SDF_DATATYPE_INTEGER4, 3,
        Buffer.i4 [1, 2, 100]⟩] ['e', 'x'] =
      some ⟨['e', 'x'], BlockType.SDF_BLOCKTYPE_PLAIN_VARIABLE, Datatype.SDF_DATATYPE_INTEGER4, 3,
        Buffer.i4 [1, 2, 100]⟩ := by decide
  have hfy : sdf_find_block_by_id
      [⟨['e', 'x'], BlockType.SDF_BLOCKTYPE_PLAIN_VARIABLE, Datatype.SDF_DATATYPE_INTEGER4, 3,
        Buffer.i4 [1, 2, 100]⟩] ['e', 'y'] = none := by decide
  simp [main_step, main_search, main_init, range_loop, hfx, hfy, diff_block_ex]

/-! ## Lemmas on the index bookkeeping of pretty_print -/

theorem prod_pos_of_ge_one (l : List Int) (h : ∀ d ∈ l, 1 ≤ d) : 1 ≤ l.prod := by
  induction l with
  | nil => simp
  | cons d l ih =>
    have h1 := h d (List.mem_cons_self _ _)
    have h2 := ih (fun x hx => h x (List.mem_cons_of_mem _ hx))
    rw [List.prod_cons]
    nlinarith

/-- The product of a leading part of a shape with extents `>= 1` is at most the
product of the whole shape. -/
theorem prod_take_le (pre suf : List Int) (hp : ∀ d ∈ pre, 1 ≤ d) (hs : ∀ d ∈ suf, 1 ≤ d) :
    pre.prod ≤ (pre ++ suf).prod := by
  rw [List.prod_append]
  have h1 := prod_pos_of_ge_one pre hp
  have h2 := prod_pos_of_ge_one suf hs
  nlinarith

/-- The first loop of `pretty_print` on a shape without sub-range, with extents
`>= 1` and a product within `int`: `fac[i]` is the product of the extents of
the dimensions below `i`. -/
theorem fac_loop_eq_strides (dims : List Int) (hd : ∀ d ∈ dims, 1 ≤ d)
    (hp : dims.prod ≤ INT_MAX) :
    ∀ (suf pre : List Int), dims = pre ++ suf →
      fac_loop none none dims pre.length suf.length pre.prod =
        some ((List.range suf.length).map (fun j => stride dims (pre.length + j))) := by
  intro suf
  induction suf with
  | nil => intro pre _; simp [fac_loop]
  | cons d rest ih =>
    intro pre hdims
    have hmem : ∀ x ∈ pre ++ d :: rest, 1 ≤ x := by rw [← hdims]; exact hd
    have hpre : ∀ x ∈ pre, 1 ≤ x := fun x hx => hmem x (by simp [hx])
    have hd1 : 1 ≤ d := hmem d (by simp)
    have hrest : ∀ x ∈ rest, 1 ≤ x := fun x hx => hmem x (by simp [hx])
    have heq : dims = (pre ++ [d]) ++ rest := by rw [hdims]; simp
    have hpd : ∀ x ∈ pre ++ [d], 1 ≤ x := by
      intro x hx
      rw [List.mem_append] at hx
      rcases hx with hx | hx
      · exact hpre x hx
      · simp at hx; omega
    have hle : (pre ++ [d]).prod ≤ dims.prod := by
      rw [heq]; exact prod_take_le _ _ hpd hrest
    have hprod : (pre ++ [d]).prod = pre.prod * d := by simp
    have h1 : 1 ≤ (pre ++ [d]).prod := prod_pos_of_ge_one _ hpd
    have hdle : d ≤ dims.prod := by
      have := prod_pos_of_ge_one pre hpre
      nlinarith
    unfold INT_MAX at hp
    have hget : dims.get? pre.length = some d := by
      rw [hdims, List.get?_eq_getElem?, List.getElem?_append_right (le_refl _)]
      simp
    have hleft : pretty_print_left none none dims pre.length = some d := by
      simp only [pretty_print_left, hget, Option.map_some']
      rw [wrap32_eq_self _ (by omega) (by omega)]
    have hrec := ih (pre ++ [d]) heq
    have hlen : (pre ++ [d]).length = pre.length + 1 := by simp
    rw [hlen, hprod] at hrec
    rw [List.length_cons, fac_loop, hleft]
    simp only []
    rw [wrap32_eq_self _ (by rw [← hprod]; omega) (by rw [← hprod]; omega), hrec]
    simp only [List.range_succ_eq_map, List.map_cons, List.map_map]
    congr 1
    congr 1
    · simp [stride, hdims]
    · apply List.map_congr_left
      intro j _
      simp only [Function.comp]
      congr 1
      omega

/-- The second loop of `pretty_print` over stride factors that are positive
`int`s, from a remainder that is a non-negative `int`: every division is
defined, and the products `idx0 * fac` together with the final remainder add
up to the initial remainder; a last factor of 1 leaves no remainder. -/
theorem idx0_loop_sum :
    ∀ (fs : List Int) (rem : Int), (∀ f ∈ fs, 1 ≤ f ∧ f ≤ INT_MAX) → 0 ≤ rem → rem ≤ INT_MAX →
      ∃ l r, idx0_loop fs rem = some l ∧ l.length = fs.length ∧ 0 ≤ r ∧
        (List.zipWith (fun i f => i * f) l fs).sum + r = rem ∧
        (fs.getLast? = some 1 → r = 0) ∧ (fs = [] → r = rem) := by
  intro fs
  induction fs with
  | nil =>
    intro rem _ h0 _
    exact ⟨[], rem, rfl, rfl, h0, by simp, by simp, fun _ => rfl⟩
  | cons f fs ih =>
    intro rem hf h0 h1
    have hf1 := hf f (List.mem_cons_self _ _)
    have hfs : ∀ x ∈ fs, 1 ≤ x ∧ x ≤ INT_MAX := fun x hx => hf x (List.mem_cons_of_mem _ hx)
    unfold INT_MAX at h1 hf1
    have hdiv : c_div rem f = some (rem / f) := by
      unfold c_div
      rw [if_neg (by omega), if_neg (by omega), Int.tdiv_eq_ediv h0 (by omega)]
    have hq0 : 0 ≤ rem / f := Int.ediv_nonneg h0 (by omega)
    have hmul : rem / f * f ≤ rem := Int.ediv_mul_le rem (by omega)
    have hmul0 : 0 ≤ rem / f * f := Int.mul_nonneg hq0 (by omega)
    have hw1 : wrap32 (rem / f * f) = rem / f * f := wrap32_eq_self _ (by omega) (by omega)
    have hw2 : wrap32 (rem - rem / f * f) = rem - rem / f * f :=
      wrap32_eq_self _ (by omega) (by omega)
    obtain ⟨l, r, hl, hlen, hr0, hsum, hlast, hnil⟩ :=
      ih (rem - rem / f * f) hfs (by omega) (by unfold INT_MAX; omega)
    refine ⟨rem / f :: l, r, ?_, by simp [hlen], hr0, ?_, ?_, by simp⟩
    · rw [idx0_loop, hdiv]
      simp only []
      rw [hw1, hw2, hl]
    · simp only [List.zipWith_cons_cons, List.sum_cons]
      omega
    · intro hlast1
      cases fs with
      | nil =>
        simp at hlast1
        have := hnil rfl
        subst hlast1
        rw [this]
        simp
      | cons g gs =>
        apply hlast
        simpa [List.getLast?_cons_cons] using hlast1

theorem stride_bounds (dims : List Int) (hd : ∀ d ∈ dims, 1 ≤ d) (i : Nat) :
    1 ≤ stride dims i ∧ stride dims i ≤ dims.prod := by
  have ht : ∀ x ∈ dims.take i, 1 ≤ x := fun x hx => hd x (List.mem_of_mem_take hx)
  have hr : ∀ x ∈ dims.drop i, 1 ≤ x := fun x hx => hd x (List.mem_of_mem_drop hx)
  refine ⟨prod_pos_of_ge_one _ ht, ?_⟩
  have := prod_take_le (dims.take i) (dims.drop i) ht hr
  rw [List.take_append_drop] at this
  exact this

/-- The index decomposition of `pretty_print` on a shape without sub-range,
with extents `>= 1` and at most `INT_MAX` elements: the indices exist, one per
dimension, and recombine to the linear index. -/
theorem pretty_print_decompose_sum (dims : List Int) (n : Int)
    (hd : ∀ d ∈ dims, 1 ≤ d) (hp : dims.prod ≤ INT_MAX) (h0 : 0 ≤ n) (hn : n < dims.prod) :
    ∃ idx0, pretty_print_decompose dims n = some idx0 ∧ idx0.length = dims.length ∧
      recombine dims idx0 = n := by
  have hfac : pretty_print_fac none none dims dims.length =
      some ((List.range dims.length).map (stride dims)) := by
    have := fac_loop_eq_strides dims hd hp dims [] (by simp)
    simpa [pretty_print_fac] using this
  have hbound : ∀ f ∈ ((List.range dims.length).map (stride dims)).reverse,
      1 ≤ f ∧ f ≤ INT_MAX := by
    intro f hf
    rw [List.mem_reverse, List.mem_map] at hf
    obtain ⟨i, _, hi⟩ := hf
    have := stride_bounds dims hd i
    rw [hi] at this
    exact ⟨this.1, le_trans this.2 hp⟩
  obtain ⟨l, r, hl, hlen, _, hsum, hlast, hnil⟩ :=
    idx0_loop_sum _ n hbound h0 (by omega)
  have hr : r = 0 := by
    cases hdims : dims with
    | nil =>
      rw [hdims] at hnil hn
      have := hnil (by simp)
      simp at hn
      omega
    | cons d rest =>
      apply hlast
      rw [List.getLast?_reverse, List.head?_map, List.head?_range, hdims]
      simp [stride]
  refine ⟨l.reverse, ?_, ?_, ?_⟩
  · simp only [pretty_print_decompose, hfac, pretty_print_idx0, hl, Option.map_some']
  · simpa using hlen
  · have hlen2 : l.length = ((List.range dims.length).map (stride dims)).reverse.length := hlen
    have hrev := List.reverse_zipWith (f := fun i f : Int => i * f) hlen2
    rw [List.reverse_reverse] at hrev
    unfold recombine
    rw [← hrev, List.sum_reverse]
    omega

/-! ## Claims on the index bookkeeping of pretty_print -/

/-- C8, counterexample: for the shape `[65536, 65536, 2]` the `int` product
`rem` overflows to 0, `fac[2]` is 0, and the division `rem / fac[2]` for the
linear index 0 is a division by zero: no indices are computed. -/
theorem pretty_print_decompose_overflow :
    pretty_print_fac none none [65536, 65536, 2] 3 = some [1, 65536, 0] ∧
      pretty_print_decompose [65536, 65536, 2] 0 = none ∧
      (0 : Int) < ([65536, 65536, 2] : List Int).prod := by
  decide

/-- C8, amended: for every shape without sub-range whose extents are `>= 1` and
whose number of elements is at most `INT_MAX`, and every linear index `n` with
`0 <= n < product(dims)`, `pretty_print` computes one index `idx0[i]` per
dimension, and the sum of `idx0[i] * fac[i]`, with `fac[i]` the product of the
extents below `i`, is `n`. -/
theorem pretty_print_decompose_recombines (dims : List Int) (n : Int)
    (hd : ∀ d ∈ dims, 1 ≤ d) (hp : dims.prod ≤ INT_MAX) (h0 : 0 ≤ n) (hn : n < dims.prod) :
    ∃ idx0, pretty_print_decompose dims n = some idx0 ∧ idx0.length = dims.length ∧
      (List.zipWith (fun i f => i * f) idx0
        ((List.range dims.length).map (fun i => (dims.take i).prod))).sum = n :=
  pretty_print_decompose_sum dims n hd hp h0 hn

/-- C8, witness: in the shape `[3, 4, 5]` the linear index 37 has the indices
`[1, 0, 3]`, and `1*1 + 0*3 + 3*12 = 37`. -/
theorem pretty_print_decompose_recombines_witness :
    pretty_print_decompose [3, 4, 5] 37 = some [1, 0, 3] ∧
      ∃ idx0, pretty_print_decompose [3, 4, 5] 37 = some idx0 ∧
        idx0.length = ([3, 4, 5] : List Int).length ∧
        (List.zipWith (fun i f => i * f) idx0
          ((List.range ([3, 4, 5] : List Int).length).map
            (fun i => (([3, 4, 5] : List Int).take i).prod))).sum = 37 :=
  ⟨by decide, pretty_print_decompose_recombines [3, 4, 5] 37 (by decide) (by decide)
    (by decide) (by decide)⟩

/-! ## Claims on diff_block: other block types -/

/-- C11: for a block `b1` that is neither a plain variable nor a plain derived
variable, `diff_block` returns 0 and does nothing: no line is printed and no
data is loaded, whatever `b2`, the datatype and the buffers are. -/
theorem diff_block_other_blocktype (rnd : ℚ → Dbl) (relerr : Dbl) (b1 b2 : Block)
    (hv : b1.blocktype ≠ BlockType.SDF_BLOCKTYPE_PLAIN_VARIABLE)
    (hd : b1.blocktype ≠ BlockType.SDF_BLOCKTYPE_PLAIN_DERIVED) :
    diff_block rnd relerr b1 b2 = some (0, []) := by
  unfold diff_block
  cases hb : b1.blocktype <;> simp_all

/-- C11, witness: a plain mesh block that holds data is not compared. -/
theorem diff_block_other_blocktype_witness :
    diff_block Dbl.fin (Dbl.fin 0)
      ⟨['g'], BlockType.SDF_BLOCKTYPE_PLAIN_MESH, Datatype.SDF_DATATYPE_REAL8, 2,
        Buffer.r8 [Dbl.fin 1, Dbl.fin 2]⟩
      ⟨['g'], BlockType.SDF_BLOCKTYPE_PLAIN_MESH, Datatype.SDF_DATATYPE_REAL8, 2,
        Buffer.r8 [Dbl.fin 1, Dbl.fin 3]⟩ = some (0, []) :=
  diff_block_other_blocktype Dbl.fin (Dbl.fin 0)
    ⟨['g'], BlockType.SDF_BLOCKTYPE_PLAIN_MESH, Datatype.SDF_DATATYPE_REAL8, 2,
      Buffer.r8 [Dbl.fin 1, Dbl.fin 2]⟩
    ⟨['g'], BlockType.SDF_BLOCKTYPE_PLAIN_MESH, Datatype.SDF_DATATYPE_REAL8, 2,
      Buffer.r8 [Dbl.fin 1, Dbl.fin 3]⟩ (by decide) (by decide)

/-! ## Claims on the block loop of main: no filter -/

/-- Without a range list and an identifier list, an iteration that starts with
`found` set leaves it set. -/
theorem main_search_no_filter (cfg : Config) (s : LoopState) (b : Block)
    (hr : cfg.range_list = []) (hi : cfg.variable_ids = []) (hf : s.found = true) :
    (main_search cfg s b).2.1 = true := by
  simp [main_search, hr, hi, hf, range_loop]

/-- Without a range list and an identifier list, every visit of the block loop
started with `found` set has `found` set. -/
theorem main_loop_no_filter (rnd : ℚ → Dbl) (cfg : Config) (h2 : List Block)
    (hr : cfg.range_list = []) (hi : cfg.variable_ids = []) :
    ∀ (blocks : List Block) (s : LoopState), s.found = true →
      ∀ v ∈ main_loop rnd cfg h2 s blocks,
        v.found = true ∧ v.processed = !cfg.exclude_variables := by
  intro blocks
  induction blocks with
  | nil => intro s _ v hv; simp [main_loop] at hv
  | cons b next ih =>
    intro s hf v hv
    have hs := main_search_no_filter cfg s b hr hi hf
    simp only [main_loop, List.mem_cons] at hv
    rcases hv with hv | hv
    · subst hv
      simp only [main_step, hs]
      cases cfg.exclude_variables <;> simp
    · exact ih (main_step rnd cfg h2 s b).1 (by simp only [main_step, hs]) v hv

/-- C14: with no range (`nrange = 0`) and no identifier configured, `main`
visits every block of the first file with `found` set: every block is processed
when `exclude_variables` is unset, none when it is set. -/
theorem main_no_filter_matches_all (rnd : ℚ → Dbl) (cfg : Config) (h h2 : List Block)
    (hr : cfg.range_list = []) (hi : cfg.variable_ids = []) :
    (main_loop rnd cfg h2 main_init h).length = h.length ∧
      ∀ v ∈ main_loop rnd cfg h2 main_init h,
        v.found = true ∧ v.processed = !cfg.exclude_variables :=
  ⟨main_loop_length rnd cfg h2 h main_init,
    main_loop_no_filter rnd cfg h2 hr hi h main_init rfl⟩

/-- C14, witness: `-x 5-3` leaves no range, no identifier and
`exclude_variables` set; with these settings the two blocks of the first file
are visited and none is processed. -/
theorem main_no_filter_matches_all_witness :
    parse_args [Opt.x ['5', '-', '3']] [['a'], ['b']] (fun _ => true) =
        ParseResult.ok [['a'], ['b']]
          ⟨[['a'], ['b']], [], [], true, ['%', '1', '3', '.', '6', 'E'], 1, 0⟩ ∧
      (main_loop Dbl.fin ⟨[], [], true, false, Dbl.fin 0⟩ [] main_init
          [⟨['e', 'x'], BlockType.SDF_BLOCKTYPE_PLAIN_VARIABLE, Datatype.SDF_DATATYPE_INTEGER4, 0,
            Buffer.i4 []⟩,
           ⟨['e', 'y'], BlockType.SDF_BLOCKTYPE_PLAIN_VARIABLE, Datatype.SDF_DATATYPE_INTEGER4, 0,
            Buffer.i4 []⟩]).length = 2 ∧
      ∀ v ∈ main_loop Dbl.fin ⟨[], [], true, false, Dbl.fin 0⟩ [] main_init
          [⟨['e', 'x'], BlockType.SDF_BLOCKTYPE_PLAIN_VARIABLE, Datatype.SDF_DATATYPE_INTEGER4, 0,
            Buffer.i4 []⟩,
           ⟨['e', 'y'], BlockType.SDF_BLOCKTYPE_PLAIN_VARIABLE, Datatype.SDF_DATATYPE_INTEGER4, 0,
            Buffer.i4 []⟩],
        v.found = true ∧ v.processed = !true :=
  ⟨by decide,
    main_no_filter_matches_all Dbl.fin ⟨[], [], true, false, Dbl.fin 0⟩
      [⟨['e', 'x'], BlockType.SDF_BLOCKTYPE_PLAIN_VARIABLE, Datatype.SDF_DATATYPE_INTEGER4, 0,
        Buffer.i4 []⟩,
       ⟨['e', 'y'], BlockType.SDF_BLOCKTYPE_PLAIN_VARIABLE, Datatype.SDF_DATATYPE_INTEGER4, 0,
        Buffer.i4 []⟩] [] rfl rfl⟩

/-! ## Claims on the index field width of pretty_print -/

/-- C19, failing input: a block without sub-range whose dimension has 10
elements is printed with fields of width 2, with `index_offset` 1 (largest
index 10) and with `index_offset` 0 (largest index 9, one digit); with a
sub-range ending at 10 the width for `index_offset` 0 is 1. -/
theorem pretty_print_digit_ignores_index_offset :
    pretty_print_digit none none 1 [10] 0 = some 2 ∧
      pretty_print_digit none none 0 [10] 0 = some 2 ∧
      max 1 (Nat.digits 10 (10 + 0 - 1)).length = 1 ∧
      pretty_print_digit (some [0]) (some [10]) 0 [10] 0 = some 1 := by
  refine ⟨by decide, by decide, by norm_num, by decide⟩

/-! ## Lemmas on strings and strtol -/

theorem takeWhile_append_all (p : Char → Bool) :
    ∀ (ds rest : List Char), (∀ c ∈ ds, p c = true) →
      (∀ c, rest.head? = some c → p c = false) → (ds ++ rest).takeWhile p = ds := by
  intro ds
  induction ds with
  | nil =>
    intro rest _ h
    cases rest with
    | nil => rfl
    | cons c t => simp [List.takeWhile, h c rfl]
  | cons d ds ih =>
    intro rest h1 h2
    have hd : p d = true := h1 d (List.mem_cons_self _ _)
    have := ih rest (fun c hc => h1 c (List.mem_cons_of_mem _ hc)) h2
    simp [List.takeWhile, hd, this]

theorem isdigit_not_space (c : Char) (h : isdigit c = true) :
    isspace c = false ∧ c ≠ '-' ∧ c ≠ '+' := by
  unfold isdigit at h
  unfold isspace
  rw [decide_eq_true_iff] at h
  refine ⟨?_, ?_, ?_⟩
  · rw [decide_eq_false_iff_not]; omega
  · intro hc; subst hc; revert h; decide
  · intro hc; subst hc; revert h; decide

/-- The conversion `strtol` of a string that starts with a decimal numeral
followed by a character that is not a digit: the value of the numeral, and the
numeral is consumed. -/
theorem strtol_numeral (ds rest : List Char) (hne : ds ≠ [])
    (hd : ∀ c ∈ ds, isdigit c = true) (hr : ∀ c, rest.head? = some c → isdigit c = false)
    (hfit : (digits_value ds : Int) ≤ LONG_MAX) :
    strtol (ds ++ rest) = ((digits_value ds : Int), ds.length) := by
  obtain ⟨d, t, rfl⟩ := List.exists_cons_of_ne_nil hne
  have hd0 := isdigit_not_space d (hd d (List.mem_cons_self _ _))
  have hws : ((d :: t ++ rest).takeWhile isspace) = [] := by
    simp [List.takeWhile, hd0.1]
  have hsign : strtol_sign (d :: t ++ rest) = (false, 0) := by
    simp [strtol_sign, hd0.2.1, hd0.2.2]
  have htw : (d :: t ++ rest).takeWhile isdigit = d :: t := by
    have := takeWhile_append_all isdigit (d :: t) rest hd hr
    simpa using this
  unfold strtol
  simp only [hws, List.length_nil, List.drop_zero, hsign, Nat.add_zero, htw]
  have h0 : (0 : Int) ≤ (digits_value (d :: t) : Int) := Int.ofNat_nonneg _
  have hlo : ¬ ((digits_value (d :: t) : Int) < LONG_MIN) := by
    unfold LONG_MIN; omega
  have hhi : ¬ ((digits_value (d :: t) : Int) > LONG_MAX) := by omega
  simp [hlo, hhi]

theorem strtol_nil : strtol [] = (0, 0) := by decide

theorem char_at_append_left (s t : List Char) (k : Nat) (h : k < s.length) :
    char_at (s ++ t) k = char_at s k := by
  unfold char_at
  rw [List.getD_eq_getElem?_getD, List.getD_eq_getElem?_getD, List.getElem?_append_left h]

theorem char_at_append_right (s t : List Char) (k : Nat) :
    char_at (s ++ t) (s.length + k) = char_at t k := by
  unfold char_at
  rw [List.getD_eq_getElem?_getD, List.getD_eq_getElem?_getD,
    List.getElem?_append_right (by omega)]
  simp

theorem char_at_last (s : List Char) (c : Char) (h : s.getLast? = some c) :
    char_at s (s.length - 1) = c := by
  unfold char_at
  rw [List.getD_eq_getElem?_getD]
  rw [List.getLast?_eq_getElem?] at h
  rw [h]; rfl

theorem char_at_mem (s : List Char) (k : Nat) (h : k < s.length) : char_at s k ∈ s := by
  unfold char_at
  rw [List.getD_eq_getElem _ _ h]
  exact List.getElem_mem _

/-! ## Lemmas on parse_format -/

/-- The backward scan of `parse_format` over a template that ends with a run
of digits after a non-empty body whose last character is not a digit stops at
the end of the body. -/
theorem parse_format_scan_body (body ds tail : List Char) (hb : body ≠ [])
    (hlast : ∀ c, body.getLast? = some c → isdigit c = false)
    (hd : ∀ c ∈ ds, isdigit c = true) :
    ∀ k, k ≤ ds.length →
      parse_format_scan (body ++ ds ++ tail) (body.length + k) = body.length := by
  have hB : 1 ≤ body.length := by
    cases body with
    | nil => exact absurd rfl hb
    | cons c t => simp
  intro k
  induction k with
  | zero =>
    intro _
    obtain ⟨n, hn⟩ : ∃ n, body.length = n + 1 := ⟨body.length - 1, by omega⟩
    rw [Nat.add_zero, hn]
    cases n with
    | zero => rfl
    | succ m =>
      obtain ⟨c, hc⟩ : ∃ c, body.getLast? = some c := by
        cases hg : body.getLast? with
        | none => rw [List.getLast?_eq_none_iff] at hg; exact absurd hg hb
        | some c => exact ⟨c, rfl⟩
      have h1 : char_at (body ++ ds ++ tail) (m + 1) = c := by
        rw [List.append_assoc, char_at_append_left _ _ _ (by omega)]
        have := char_at_last body c hc
        rw [hn] at this
        simpa using this
      rw [parse_format_scan, h1, hlast c hc]
      simp
  | succ k ih =>
    intro hk
    obtain ⟨n, hn⟩ : ∃ n, body.length + k = n + 1 := ⟨body.length + k - 1, by omega⟩
    have h1 : isdigit (char_at (body ++ ds ++ tail) (n + 1)) = true := by
      rw [← hn, List.append_assoc, char_at_append_right,
        char_at_append_left _ _ _ (by omega)]
      exact hd _ (char_at_mem ds k (by omega))
    have : body.length + (k + 1) = n + 2 := by omega
    rw [this, parse_format_scan, h1, if_pos rfl, ← hn]
    exact ih (by omega)

/-! ## Claims on parse_format -/

/-- C15: for a template `body ++ digits ++ "p"` with a non-empty body that does
not end in a digit and a decimal numeral `digits` that fits in `int`,
`parse_format` leaves the template `body`, sets `scale_factor` to the value of
`digits` and `special_format` to 1 exactly when `body` ends in `d`; a non-empty
template that does not end in `p` is left as it is, with `scale_factor` 1 and
`special_format` 1 exactly when its last character is `d`. -/
theorem parse_format_derives (body digits template : List Char) (hb : body ≠ [])
    (hlast : ∀ c, body.getLast? = some c → isdigit c = false)
    (hne : digits ≠ []) (hd : ∀ c ∈ digits, isdigit c = true)
    (hfit : (digits_value digits : Int) ≤ INT_MAX)
    (ht : template ≠ []) (hp : template.getLast? ≠ some 'p') :
    parse_format (body ++ digits ++ ['p']) =
        some (body, (digits_value digits : Int),
          if body.getLast? = some 'd' then 1 else 0) ∧
      parse_format template =
        some (template, 1, if template.getLast? = some 'd' then 1 else 0) := by
  constructor
  · have hlen : (body ++ digits ++ ['p']).length = (body.length + digits.length) + 1 := by
      simp only [List.length_append, List.length_singleton]
    have hB : 1 ≤ body.length := by
      cases body with
      | nil => exact absurd rfl hb
      | cons c t => simp
    have hcp : char_at (body ++ digits ++ ['p']) (body.length + digits.length) = 'p' := by
      have := char_at_append_right (body ++ digits) ['p'] 0
      simpa [char_at] using this
    have hcut : (body ++ digits ++ ['p']).take (body.length + digits.length) = body ++ digits := by
      rw [List.take_append_of_le_length (by simp)]
      exact List.take_of_length_le (by simp)
    have hscan := parse_format_scan_body body digits [] hb hlast hd digits.length (le_refl _)
    rw [List.append_nil] at hscan
    have hdrop : (body ++ digits).drop body.length = digits := List.drop_left _ _
    have htake : (body ++ digits).take body.length = body := List.take_left _ _
    have hst := strtol_numeral digits [] hne hd (by simp) (by
      unfold LONG_MAX; unfold INT_MAX at hfit; omega)
    rw [List.append_nil] at hst
    obtain ⟨c, hc⟩ : ∃ c, body.getLast? = some c := by
      cases hg : body.getLast? with
      | none => rw [List.getLast?_eq_none_iff] at hg; exact absurd hg hb
      | some c => exact ⟨c, rfl⟩
    obtain ⟨n, hn⟩ : ∃ n, body.length = n + 1 := ⟨body.length - 1, by omega⟩
    have hcl : char_at (body ++ digits) n = c := by
      rw [char_at_append_left _ _ _ (by omega)]
      have := char_at_last body c hc
      rw [hn] at this
      simpa using this
    unfold INT_MAX at hfit
    have hw : wrap32 (digits_value digits : Int) = (digits_value digits : Int) :=
      wrap32_eq_self _ (by have := Int.ofNat_nonneg (digits_value digits); omega) hfit
    unfold parse_format
    rw [hlen]
    simp only [hcp, if_true, hcut, hscan, hdrop, hst, htake, hw]
    rw [hn]
    simp only [hcl, hc, Option.some.injEq]
  · obtain ⟨n, hn⟩ : ∃ n, template.length = n + 1 := by
      cases template with
      | nil => exact absurd rfl ht
      | cons c t => exact ⟨t.length, by simp⟩
    obtain ⟨c, hc⟩ : ∃ c, template.getLast? = some c := by
      cases hg : template.getLast? with
      | none => rw [List.getLast?_eq_none_iff] at hg; exact absurd hg ht
      | some c => exact ⟨c, rfl⟩
    have hcl : char_at template n = c := by
      have := char_at_last template c hc
      rw [hn] at this
      simpa using this
    have hcp : c ≠ 'p' := fun h => hp (by rw [hc, h])
    unfold parse_format
    rw [hn]
    simp only [hcl, hcp, if_false, hc, Option.some.injEq]

/-- C15, witness: `"%9.6fE%+2.2d1p"` gives the template `"%9.6fE%+2.2d"`,
`scale_factor` 1 and `special_format` 1; `"%13.6E"` gives `scale_factor` 1 and
`special_format` 0. -/
theorem parse_format_derives_witness :
    parse_format (['%', '9', '.', '6', 'f', 'E', '%', '+', '2', '.', '2', 'd'] ++ ['1'] ++ ['p']) =
        some (['%', '9', '.', '6', 'f', 'E', '%', '+', '2', '.', '2', 'd'], 1, 1) ∧
      parse_format ['%', '1', '3', '.', '6', 'E'] = some (['%', '1', '3', '.', '6', 'E'], 1, 0) :=
  parse_format_derives ['%', '9', '.', '6', 'f', 'E', '%', '+', '2', '.', '2', 'd'] ['1']
    ['%', '1', '3', '.', '6', 'E'] (by decide) (by decide) (by decide) (by decide) (by decide)
    (by decide) (by decide)

/-! ## Lemmas on the range tokens of parse_args -/

theorem range_arg_loop_done (optarg : List Char) (fuel ptr : Nat) (range : Bool)
    (st : ArgState) (h : optarg.length + 1 ≤ ptr) :
    range_arg_loop optarg fuel ptr range st = st := by
  cases fuel with
  | zero => rfl
  | succ n =>
    rw [range_arg_loop, if_neg (by omega)]

/-- The first iteration of the token loop on an argument that starts with a
decimal numeral: a new entry `(a, a)` is written, and the flag `range` is set
when a dash follows the numeral. -/
theorem range_arg_loop_numeral (da rest : List Char) (fuel : Nat) (st : ArgState)
    (hne : da ≠ []) (hd : ∀ c ∈ da, isdigit c = true)
    (hr : ∀ c, rest.head? = some c → isdigit c = false)
    (hfit : (digits_value da : Int) ≤ INT_MAX) :
    range_arg_loop (da ++ rest) (fuel + 1) 0 false st =
      range_arg_loop (da ++ rest) fuel (da.length + 1)
        (decide (char_at rest 0 = '-'))
        (set_last_slot (new_slot st) ⟨(digits_value da : Int), (digits_value da : Int)⟩) := by
  obtain ⟨d, t, rfl⟩ := List.exists_cons_of_ne_nil hne
  have hd0 := isdigit_not_space d (hd d (List.mem_cons_self _ _))
  have hc0 : char_at (d :: t ++ rest) 0 = d := rfl
  unfold INT_MAX at hfit
  have hst := strtol_numeral (d :: t) rest (by simp) hd hr (by unfold LONG_MAX; omega)
  have hw : wrap32 (digits_value (d :: t) : Int) = (digits_value (d :: t) : Int) :=
    wrap32_eq_self _ (by have := Int.ofNat_nonneg (digits_value (d :: t)); omega) hfit
  have hch : char_at (d :: t ++ rest) ((d :: t).length) = char_at rest 0 := by
    have := char_at_append_right (d :: t) rest 0
    simpa using this
  rw [range_arg_loop, if_pos (by omega)]
  simp only [Bool.false_eq_true, if_false, hc0, hd0.2.1, List.drop_zero, hst, hw, hch,
    Nat.zero_add]

/-- The state after the first entry of an empty range list is written: its one
entry is `r`, whatever the slots held before. -/
theorem first_slot (st : ArgState) (r : range_type) (h : st.nrange = 0) :
    ∃ tl, (set_last_slot (new_slot st) r).range_list = r :: tl ∧
      (set_last_slot (new_slot st) r).nrange = 1 := by
  unfold set_last_slot new_slot
  rw [h]
  cases hl : st.range_list with
  | nil => exact ⟨[], by simp, by simp⟩
  | cons x tl => exact ⟨tl, by simp, by simp⟩

/-- In a state whose range list is the one entry `r`: the entry, the list after
the entry is overwritten, and the list after `nrange--`. -/
theorem one_slot (S : ArgState) (r q : range_type) (tl : List range_type)
    (hl : S.range_list = r :: tl) (hn : S.nrange = 1) :
    last_slot S = r ∧ S.ranges = [r] ∧ (set_last_slot S q).ranges = [q] ∧
      ArgState.ranges { S with nrange := S.nrange - 1 } = [] := by
  simp [last_slot, ArgState.ranges, set_last_slot, hl, hn]

/-- The ranges that one argument made of the numeral `da`, alone or followed
by a dash and a numeral `db` or nothing, adds to an empty range list. -/
theorem parse_arg_token (st : ArgState) (da db : List Char) (hst : st.nrange = 0)
    (hna : da ≠ []) (hda : ∀ c ∈ da, isdigit c = true)
    (hfa : (digits_value da : Int) ≤ INT_MAX)
    (hdb : ∀ c ∈ db, isdigit c = true) (hfb : (digits_value db : Int) ≤ INT_MAX) :
    (parse_arg st da).ranges = [⟨(digits_value da : Int), (digits_value da : Int)⟩] ∧
      (parse_arg st (da ++ '-' :: db)).ranges =
        if db = [] ∨ digits_value db = 0 then [⟨(digits_value da : Int), INT_MAX⟩]
        else if digits_value db < digits_value da then []
        else [⟨(digits_value da : Int), (digits_value db : Int)⟩] := by
  obtain ⟨d, t, hdt⟩ := List.exists_cons_of_ne_nil hna
  have hdig : isdigit d = true := hda d (by rw [hdt]; exact List.mem_cons_self _ _)
  obtain ⟨tl, hl, hn⟩ := first_slot st
    ⟨(digits_value da : Int), (digits_value da : Int)⟩ hst
  have hc : ∀ rest, isdigit (char_at (da ++ rest) 0) = true := by
    intro rest; rw [hdt]; exact hdig
  constructor
  · have h1 := range_arg_loop_numeral da [] da.length st hna hda (by simp) hfa
    rw [List.append_nil] at h1
    have hc0 := hc []
    rw [List.append_nil] at hc0
    unfold parse_arg
    rw [if_pos (Or.inl hc0), h1, range_arg_loop_done _ _ _ _ _ (le_refl _)]
    exact (one_slot _ _ ⟨0, 0⟩ tl hl hn).2.1
  · have hrest : ∀ c, ('-' :: db).head? = some c → isdigit c = false := by
      intro c hc
      simp at hc
      subst hc
      decide
    have hlen : (da ++ '-' :: db).length + 1 = (da.length + db.length + 1) + 1 := by
      simp only [List.length_append, List.length_cons]; omega
    have h1 := range_arg_loop_numeral da ('-' :: db) (da.length + db.length + 1) st hna hda
      hrest hfa
    have hdash : decide (char_at ('-' :: db) 0 = '-') = true := by simp [char_at]
    have hdrop : (da ++ '-' :: db).drop (da.length + 1) = db := by
      have : da ++ '-' :: db = (da ++ ['-']) ++ db := by simp
      rw [this]
      have hl2 : (da ++ ['-']).length = da.length + 1 := by simp
      rw [← hl2]
      exact List.drop_left _ _
    unfold parse_arg
    rw [if_pos (Or.inl (hc _)), hlen, h1, hdash]
    generalize set_last_slot (new_slot st)
      ⟨(digits_value da : Int), (digits_value da : Int)⟩ = S at hl hn ⊢
    have hS := fun q => one_slot S _ q tl hl hn
    rw [range_arg_loop, if_pos (by simp only [List.length_append, List.length_cons]; omega)]
    simp only [if_true, hdrop, (hS ⟨0, 0⟩).1]
    by_cases hnil : db = []
    · subst hnil
      rw [strtol_nil]
      have hw0 : wrap32 0 = 0 := by decide
      simp only [true_or, if_true, hw0]
      rw [range_arg_loop_done _ _ _ _ _ (by simp)]
      exact (hS _).2.2.1
    · have hst2 := strtol_numeral db [] hnil hdb (by simp) (by
        unfold LONG_MAX; unfold INT_MAX at hfb; omega)
      rw [List.append_nil] at hst2
      have hfb2 := hfb
      unfold INT_MAX at hfb2
      have hw : wrap32 (digits_value db : Int) = (digits_value db : Int) :=
        wrap32_eq_self _ (by have := Int.ofNat_nonneg (digits_value db); omega) hfb2
      rw [hst2]
      simp only [hw]
      rw [range_arg_loop_done _ _ _ _ _ (by
        simp only [List.length_append, List.length_cons]; omega)]
      by_cases hz : digits_value db = 0
      · have hz2 : (digits_value db : Int) = 0 := by omega
        simp only [hz, hz2, or_true, if_true]
        exact (hS _).2.2.1
      · have hz2 : ¬ ((digits_value db : Int) = 0) := by omega
        by_cases hlt : digits_value db < digits_value da
        · have hlt2 : (digits_value db : Int) < (digits_value da : Int) := by omega
          simp only [hz, hz2, hnil, hlt, hlt2, or_self, if_false, if_true]
          exact (hS ⟨0, 0⟩).2.2.2
        · have hlt2 : ¬ ((digits_value db : Int) < (digits_value da : Int)) := by omega
          simp only [hz, hz2, hnil, hlt, hlt2, or_self, if_false]
          exact (hS _).2.2.1

/-! ## Claims on the range tokens of parse_args -/

/-- C13: one `-v`/`-x` argument made of one range token, read into a range list
with `nrange = 0`, for decimal numerals `da` and `db` whose values `a` and `b`
fit in `int`: `a` gives the one entry `(a, a)`; `a-` and `a-b` with `b = 0`
give `(a, INT_MAX)`; `a-b` with `0 < b < a` leaves no entry; `a-b` with
`b >= a` and `b != 0` gives `(a, b)`. -/
theorem parse_arg_one_range_token (st : ArgState) (da db : List Char) (hst : st.nrange = 0)
    (hna : da ≠ []) (hda : ∀ c ∈ da, isdigit c = true)
    (hfa : (digits_value da : Int) ≤ INT_MAX)
    (hnb : db ≠ []) (hdb : ∀ c ∈ db, isdigit c = true)
    (hfb : (digits_value db : Int) ≤ INT_MAX) :
    (parse_arg st da).ranges = [⟨(digits_value da : Int), (digits_value da : Int)⟩] ∧
      (parse_arg st (da ++ ['-'])).ranges = [⟨(digits_value da : Int), INT_MAX⟩] ∧
      (digits_value db = 0 →
        (parse_arg st (da ++ '-' :: db)).ranges = [⟨(digits_value da : Int), INT_MAX⟩]) ∧
      (0 < digits_value db → digits_value db < digits_value da →
        (parse_arg st (da ++ '-' :: db)).ranges = []) ∧
      (digits_value da ≤ digits_value db → digits_value db ≠ 0 →
        (parse_arg st (da ++ '-' :: db)).ranges =
          [⟨(digits_value da : Int), (digits_value db : Int)⟩]) := by
  have h1 := parse_arg_token st da db hst hna hda hfa hdb hfb
  have h2 := parse_arg_token st da [] hst hna hda hfa (by simp) (by decide)
  refine ⟨h1.1, ?_, ?_, ?_, ?_⟩
  · rw [h2.2]; simp
  · intro hz
    rw [h1.2, if_pos (Or.inr hz)]
  · intro h0 hlt
    rw [h1.2, if_neg (by intro h; rcases h with h | h; exact hnb h; omega), if_pos hlt]
  · intro hle hz
    rw [h1.2, if_neg (by intro h; rcases h with h | h; exact hnb h; exact hz h),
      if_neg (by omega)]

/-- C13, witness: read into the empty range list, `5` gives `(5, 5)`, `5-`
gives `(5, INT_MAX)` and `5-3` gives no entry. -/
theorem parse_arg_one_range_token_witness :
    (parse_arg ArgState.init ['5']).ranges = [⟨5, 5⟩] ∧
      (parse_arg ArgState.init ['5', '-']).ranges = [⟨5, INT_MAX⟩] ∧
      (parse_arg ArgState.init ['5', '-', '3']).ranges = [] ∧
      (parse_arg ArgState.init ['5', '-', '0']).ranges = [⟨5, INT_MAX⟩] ∧
      (parse_arg ArgState.init ['5', '-', '1', '2']).ranges = [⟨5, 12⟩] := by
  have h := parse_arg_one_range_token ArgState.init ['5'] ['3'] rfl (by decide) (by decide)
    (by decide) (by decide) (by decide) (by decide)
  exact ⟨h.1, h.2.1, h.2.2.2.1 (by decide) (by decide), by decide, by decide⟩

/-! ## Lemmas on the option scan of parse_args -/

/-- The token loop changes the range list only. -/
theorem range_arg_loop_flags (optarg : List Char) :
    ∀ (fuel ptr : Nat) (range : Bool) (st : ArgState),
      (range_arg_loop optarg fuel ptr range st).got_include = st.got_include ∧
        (range_arg_loop optarg fuel ptr range st).got_exclude = st.got_exclude := by
  intro fuel
  induction fuel with
  | zero => intro ptr range st; exact ⟨rfl, rfl⟩
  | succ n ih =>
    intro ptr range st
    rw [range_arg_loop]
    split
    · split
      · rw [(ih _ _ _).1, (ih _ _ _).2]
        split
        · exact ⟨rfl, rfl⟩
        · split <;> exact ⟨rfl, rfl⟩
      · split
        · rw [(ih _ _ _).1, (ih _ _ _).2]
          simp only [set_last_slot, new_slot]
          split <;> exact ⟨rfl, rfl⟩
        · rw [(ih _ _ _).1, (ih _ _ _).2]
          simp only [set_last_slot, new_slot]
          split <;> exact ⟨rfl, rfl⟩
    · exact ⟨rfl, rfl⟩

theorem parse_arg_flags (st : ArgState) (optarg : List Char) :
    (parse_arg st optarg).got_include = st.got_include ∧
      (parse_arg st optarg).got_exclude = st.got_exclude := by
  unfold parse_arg
  split
  · exact range_arg_loop_flags optarg _ _ _ _
  · exact ⟨rfl, rfl⟩

/-- The option scan stops with the error exactly when, counting the options
seen before, both a `-v` and a `-x` occur. -/
theorem parse_args_options_none :
    ∀ (opts : List Opt) (st : ArgState), ¬ (st.got_include = true ∧ st.got_exclude = true) →
      (parse_args_options st opts = none ↔
        (st.got_include = true ∨ ∃ a, Opt.v a ∈ opts) ∧
          (st.got_exclude = true ∨ ∃ a, Opt.x a ∈ opts)) := by
  intro opts
  induction opts with
  | nil =>
    intro st hinv
    simp only [parse_args_options, List.not_mem_nil, exists_false, or_false]
    constructor
    · intro h; cases h
    · intro h; exact absurd h hinv
  | cons o rest ih =>
    intro st hinv
    cases o with
    | v a =>
      by_cases he : st.got_exclude = true
      · simp [parse_args_options, parse_args_option, he]
      · have hf := parse_arg_flags { st with got_include := true } a
        have := ih (parse_arg { st with got_include := true } a) (by
          rw [hf.1, hf.2]; simp [he])
        rw [parse_args_options, parse_args_option, if_neg he]
        simp only []
        rw [this, hf.1, hf.2]
        have hv : ∃ a_1, Opt.v a_1 ∈ Opt.v a :: rest := ⟨a, List.mem_cons_self _ _⟩
        have hx : (∃ a_1, Opt.x a_1 ∈ Opt.v a :: rest) ↔ ∃ a_1, Opt.x a_1 ∈ rest := by
          simp
        rw [hx]
        simp [hv]
    | x a =>
      by_cases hi : st.got_include = true
      · simp [parse_args_options, parse_args_option, hi]
      · have hf := parse_arg_flags { st with got_exclude := true, exclude_variables := true } a
        have := ih (parse_arg { st with got_exclude := true, exclude_variables := true } a) (by
          rw [hf.1, hf.2]; simp [hi])
        rw [parse_args_options, parse_args_option, if_neg hi]
        simp only []
        rw [this, hf.1, hf.2]
        have hx : ∃ a_1, Opt.x a_1 ∈ Opt.x a :: rest := ⟨a, List.mem_cons_self _ _⟩
        have hv : (∃ a_1, Opt.v a_1 ∈ Opt.x a :: rest) ↔ ∃ a_1, Opt.v a_1 ∈ rest := by
          simp
        rw [hv]
        simp [hx]

/-! ## Claims on the option scan of parse_args -/

/-- C12: on a command line whose options are `-v` and `-x` only, `parse_args`
exits with the message `cannot both include and exclude variables` exactly when
the options hold a `-v` and a `-x`, in either order; the exit status is 1 and
no file name has been handed to `lstat` before. -/
theorem parse_args_include_exclude_error (opts : List Opt) (files : List (List Char))
    (lstat_ok : List Char → Bool) :
    ((∃ status examined, parse_args opts files lstat_ok =
        ParseResult.exit status ExitMessage.cannot_both_include_and_exclude examined) ↔
      (∃ a, Opt.v a ∈ opts) ∧ (∃ a, Opt.x a ∈ opts)) ∧
    (∀ status examined, parse_args opts files lstat_ok =
        ParseResult.exit status ExitMessage.cannot_both_include_and_exclude examined →
      status = 1 ∧ examined = []) := by
  have key := parse_args_options_none opts ArgState.init (by decide)
  have hinit : (ArgState.init.got_include = true) = False := by decide
  have hinit2 : (ArgState.init.got_exclude = true) = False := by decide
  rw [hinit, hinit2, false_or, false_or] at key
  cases hs : parse_args_options ArgState.init opts with
  | none =>
    have hboth := key.mp hs
    have hres : parse_args opts files lstat_ok =
        ParseResult.exit 1 ExitMessage.cannot_both_include_and_exclude [] := by
      simp only [parse_args, hs]
    refine ⟨⟨fun _ => hboth, fun _ => ⟨1, [], hres⟩⟩, ?_⟩
    intro status examined h
    rw [hres] at h
    injection h with h1 _ h3
    exact ⟨h1.symm, h3.symm⟩
  | some st =>
    have hnot : ¬ ((∃ a, Opt.v a ∈ opts) ∧ (∃ a, Opt.x a ∈ opts)) := by
      intro h
      have := key.mpr h
      rw [hs] at this
      cases this
    have hne : ∀ status examined, parse_args opts files lstat_ok ≠
        ParseResult.exit status ExitMessage.cannot_both_include_and_exclude examined := by
      intro status examined
      simp only [parse_args, hs]
      split
      · split
        · intro h; injection h with _ h2 _; cases h2
        · split
          · intro h; injection h with _ h2 _; cases h2
          · split <;> intro h <;> cases h
      · intro h; injection h with _ h2 _; cases h2
    refine ⟨⟨fun ⟨s, e, h⟩ => absurd h (hne s e), fun h => absurd h hnot⟩, ?_⟩
    intro status examined h
    exact absurd h (hne status examined)

/-! ## Lemmas on the output of pretty_print -/

/-- Without sub-range the first loop computes a width for every dimension. -/
theorem digits_loop_whole (index_offset : Int) (dims : List Int) :
    ∀ (left i : Nat), i + left ≤ dims.length →
      ∃ digits, digits_loop none none index_offset dims i left = some digits := by
  intro left
  induction left with
  | zero => intro i _; exact ⟨[], rfl⟩
  | succ left ih =>
    intro i hi
    obtain ⟨rest, hrest⟩ := ih (i + 1) (by omega)
    have hlt : i < dims.length := by omega
    have hget : dims[i]? = some dims[i] := List.getElem?_eq_getElem hlt
    refine ⟨digit_count (wrap32 dims[i]) :: rest, ?_⟩
    simp [digits_loop, pretty_print_digit, pretty_print_left, hget, hrest]

theorem grid_values_append (a b : List Tok) :
    grid_values (a ++ b) = grid_values a ++ grid_values b := by
  simp [grid_values, List.filterMap_append]

theorem grid_values_mesh_index (cfg : PrintConfig) (digits idx : List Int) (ndims dim : Nat) :
    grid_values (mesh_index_tokens cfg digits idx ndims dim) = [] := by
  unfold grid_values mesh_index_tokens
  rw [List.filterMap_eq_nil_iff]
  intro t ht
  rw [List.mem_map] at ht
  obtain ⟨i, _, rfl⟩ := ht
  by_cases h : i = dim <;> simp [h]

/-- The tokens that `pretty_print_mesh` writes before a value hold no value. -/
theorem grid_values_mesh_head (cfg : PrintConfig) (idnum : Int) (digits idx : List Int)
    (ndims dim : Nat) (ncount : Int) :
    grid_values
      ((if ncount + 1 = 1 then (if cfg.format_number then [Tok.number idnum] else [])
        else (if cfg.format_index then [Tok.blank] else [])) ++
      (if (ncount + 1 = 1 ∧ cfg.format_rowindex) ∨ cfg.format_index then
        mesh_index_tokens cfg digits idx ndims dim else []) ++
      (if ncount + 1 ≠ 1 ∧ cfg.format_index then [Tok.space] else [])) = [] := by
  rw [grid_values_append, grid_values_append]
  have h1 : grid_values (if ncount + 1 = 1 then
      (if cfg.format_number then [Tok.number idnum] else [])
      else (if cfg.format_index then [Tok.blank] else [])) = [] := by
    split <;> split <;> rfl
  have h2 : grid_values (if (ncount + 1 = 1 ∧ cfg.format_rowindex) ∨ cfg.format_index then
      mesh_index_tokens cfg digits idx ndims dim else []) = [] := by
    split
    · exact grid_values_mesh_index cfg digits idx ndims dim
    · rfl
  have h3 : grid_values (if ncount + 1 ≠ 1 ∧ cfg.format_index then [Tok.space] else []) = [] := by
    split <;> rfl
  rw [h1, h2, h3]; rfl

/-- Number of coordinates of the dimensions of a list of extents. -/
theorem sum_toNat (l : List Int) (h : ∀ e ∈ l, 1 ≤ e) :
    (l.sum).toNat = (l.map Int.toNat).sum ∧ 0 ≤ l.sum := by
  induction l with
  | nil => simp
  | cons e l ih =>
    have he := h e (List.mem_cons_self _ _)
    obtain ⟨h1, h2⟩ := ih (fun x hx => h x (List.mem_cons_of_mem _ hx))
    simp only [List.sum_cons, List.map_cons]
    constructor
    · rw [← h1]; omega
    · omega

/-- The element loop of `pretty_print_mesh` without sub-range, entered with
`ncount = 0` at element `k` of the grid of dimension `dim`, with exactly the
rest of that grid and the grids of the later dimensions to go: the values are
taken from the rest of the grid, then from the later grids in order. -/
theorem mesh_loop_values (cfg : PrintConfig) (idnum : Int) (b : ArrayBlock) (digits : List Int)
    (he : b.array_ends = none) (hg : b.grids.length = b.local_dims.length)
    (hgs : ∀ i e, b.local_dims.get? i = some e → e ≤ ((b.grids.getD i (Buffer.i4 [])).size : Int)) :
    ∀ (left : Nat) (pre : List Int) (d : Int) (post : List Int) (idx : List Int) (k : Nat),
      b.local_dims = pre ++ d :: post → (k : Int) < d →
      idx.get? pre.length = some (k : Int) →
      (∀ j, pre.length < j → j < b.local_dims.length → idx.get? j = some 0) →
      (∀ e ∈ post, 1 ≤ e) →
      left = (d - k).toNat + (post.map Int.toNat).sum →
      grid_values (mesh_loop cfg idnum b digits left idx pre.length
          (some (pre.length, k)) 0).1 =
        (List.range' k (d - k).toNat).map (fun x => (pre.length, x)) ++
          mesh_order (pre.length + 1) post := by
  intro left
  induction left with
  | zero =>
    intro pre d post idx k _ hk _ _ _ hleft
    omega
  | succ left ih =>
    intro pre d post idx k hdims hk hidx hzero hpost hleft
    have hdget : b.local_dims.get? pre.length = some d := by
      rw [hdims, List.get?_eq_getElem?, List.getElem?_append_right (le_refl _)]
      simp
    have hdget2 := hdget
    have hsize : ¬ ((b.grids.getD pre.length (Buffer.i4 [])).size ≤ k) := by
      have := hgs pre.length d hdget
      omega
    have hadv : mesh_advance b pre.length ((k : Int) + 1) = some (decide ((k : Int) + 1 ≥ d)) := by
      rw [List.get?_eq_getElem?] at hdget
      simp [mesh_advance, he, hdget]
    rw [mesh_loop]
    simp only [hsize, if_false, hidx, hadv]
    by_cases hlast : (k : Int) + 1 ≥ d
    · have hdk : (d - k).toNat = 1 := by omega
      simp only [hlast, decide_True]
      rw [grid_values_append, grid_values_append, grid_values_mesh_head, hdk]
      have hone : grid_values [Tok.grid_value pre.length k, Tok.newline] = [(pre.length, k)] := rfl
      rw [hone]
      simp only [List.nil_append, List.range'_one, List.map_cons, List.map_nil,
        List.singleton_append, List.cons.injEq, true_and]
      cases post with
      | nil =>
        have hl0 : left = 0 := by simp at hleft; omega
        rw [hl0]
        simp [mesh_loop, mesh_order, grid_values]
      | cons d2 post2 =>
        have hd2 : 1 ≤ d2 := hpost d2 (List.mem_cons_self _ _)
        have hlen : b.local_dims.length = pre.length + 1 + (post2.length + 1) := by
          rw [hdims]; simp; omega
        have hptr : pre.length + 1 < b.grids.length := by rw [hg, hlen]; omega
        have hpre2 : (pre ++ [d]).length = pre.length + 1 := by simp
        have hrec := ih (pre ++ [d]) d2 post2 (idx.set pre.length 0) 0
          (by rw [hdims]; simp) (by simpa using hd2)
          (by
            rw [hpre2]
            have := hzero (pre.length + 1) (by omega) (by omega)
            rw [List.get?_eq_getElem?] at this ⊢
            rw [List.getElem?_set_ne (by omega)]
            exact this)
          (by
            intro j hj1 hj2
            rw [hpre2] at hj1
            have := hzero j (by omega) hj2
            rw [List.get?_eq_getElem?] at this ⊢
            rw [List.getElem?_set_ne (by omega)]
            exact this)
          (fun e he2 => hpost e (List.mem_cons_of_mem _ he2))
          (by
            simp only [List.map_cons, List.sum_cons] at hleft
            simp only [Nat.cast_zero, sub_zero]
            omega)
        rw [hpre2] at hrec
        simp only [hptr, if_true]
        rw [hrec]
        simp only [Nat.cast_zero, sub_zero, mesh_order, List.range_eq_range']
    · have hdk : (d - k).toNat = (d - ((k + 1 : Nat) : Int)).toNat + 1 := by
        push_cast; omega
      simp only [hlast, decide_False]
      have hrec := ih pre d post (idx.set pre.length ((k : Int) + 1)) (k + 1) hdims
        (by push_cast; omega)
        (by
          have hlt : pre.length < idx.length := by
            rw [List.get?_eq_getElem?] at hidx
            exact (List.getElem?_eq_some_iff.mp hidx).1
          rw [List.get?_eq_getElem?, List.getElem?_set_self hlt]
          push_cast; rfl)
        (by
          intro j hj1 hj2
          have := hzero j hj1 hj2
          rw [List.get?_eq_getElem?] at this ⊢
          rw [List.getElem?_set_ne (by omega)]
          exact this)
        hpost (by omega)
      have hn : (if (0 : Int) + 1 = 1 then (0 : Int) else 0 + 1) = 0 := by simp
      rw [hn, grid_values_append, grid_values_append, grid_values_append, grid_values_mesh_head,
        hrec, hdk, List.range'_succ]
      have hone : grid_values [Tok.grid_value pre.length k] = [(pre.length, k)] := rfl
      have hnl : grid_values (if (0 : Int) + 1 = 1 then [Tok.newline] else []) = [] := by
        simp [grid_values]
      rw [hone, hnl]
      simp

/-- C18: for a mesh block without sub-range whose extents are all at least 1,
whose `nelements_local` is the sum of the extents and whose grids hold at least
as many elements as their extents, the values that `pretty_print_mesh` hands to
`print_value` are `grids[0][0]` to `grids[0][local_dims[0]-1]`, then
`grids[1][0]` to `grids[1][local_dims[1]-1]`, and so on through the last
dimension; `pretty_print` takes this path for both mesh block types. -/
theorem pretty_print_mesh_dimension_order (cfg : PrintConfig) (b : ArrayBlock) (idnum : Int)
    (hs : b.array_starts = none) (he : b.array_ends = none)
    (hnd : b.ndims = b.local_dims.length) (hg : b.grids.length = b.local_dims.length)
    (hgs : ∀ i e, b.local_dims.get? i = some e →
      e ≤ ((b.grids.getD i (Buffer.i4 [])).size : Int))
    (hd : ∀ e ∈ b.local_dims, 1 ≤ e) (hN : b.nelements_local = b.local_dims.sum) :
    grid_values (pretty_print_mesh cfg b idnum).1 = mesh_order 0 b.local_dims ∧
    (b.blocktype = BlockType.SDF_BLOCKTYPE_PLAIN_MESH ∨
        b.blocktype = BlockType.SDF_BLOCKTYPE_POINT_MESH →
      grid_values (pretty_print cfg b idnum).1 = mesh_order 0 b.local_dims) := by
  have main : grid_values (pretty_print_mesh cfg b idnum).1 = mesh_order 0 b.local_dims := by
    obtain ⟨digits, hdig⟩ := digits_loop_whole cfg.index_offset b.local_dims b.ndims 0
      (by omega)
    unfold pretty_print_mesh
    rw [hs, he, hdig]
    simp only []
    cases hdims : b.local_dims with
    | nil =>
      have h0 : b.nelements_local.toNat = 0 := by rw [hN, hdims]; rfl
      rw [h0]
      simp [mesh_loop, mesh_order, grid_values]
    | cons d post =>
      have hd1 : 1 ≤ d := hd d (by rw [hdims]; exact List.mem_cons_self _ _)
      have hpost : ∀ e ∈ post, 1 ≤ e :=
        fun e hmem => hd e (by rw [hdims]; exact List.mem_cons_of_mem _ hmem)
      have hsum := sum_toNat post hpost
      have hlen : b.ndims = post.length + 1 := by rw [hnd, hdims]; rfl
      have hglen : 0 < b.grids.length := by rw [hg, hdims]; simp
      have hrun := mesh_loop_values cfg idnum b digits he hg hgs b.nelements_local.toNat
        [] d post (List.replicate b.ndims 0) 0 hdims (by simpa using hd1)
        (by rw [hlen]; rfl)
        (by
          intro j _ hj
          rw [hdims] at hj
          rw [List.get?_eq_getElem?, List.getElem?_replicate]
          have : j < b.ndims := by rw [hlen]; simpa using hj
          simp [this])
        hpost
        (by
          rw [hN, hdims, List.sum_cons, ← hsum.1]
          have := hsum.2
          simp only [Nat.cast_zero, sub_zero]
          omega)
      simp only [List.length_nil, Nat.cast_zero, sub_zero, zero_add] at hrun
      simp only [hglen, if_true]
      rw [hrun]
      simp [mesh_order, List.range_eq_range']
  refine ⟨main, fun hb => ?_⟩
  unfold pretty_print
  rw [if_pos hb]
  exact main

theorem pretty_print_mesh_dimension_order_witness :
    grid_values (pretty_print_mesh ⟨true, true, false, 1⟩
      ⟨BlockType.SDF_BLOCKTYPE_PLAIN_MESH, 2, [3, 2], none, none, 5,
        [Buffer.r8 [Dbl.fin 0, Dbl.fin 1, Dbl.fin 2], Buffer.r8 [Dbl.fin 5, Dbl.fin 6]]⟩ 7).1 =
      [(0, 0), (0, 1), (0, 2), (1, 0), (1, 1)] :=
  (pretty_print_mesh_dimension_order ⟨true, true, false, 1⟩
    ⟨BlockType.SDF_BLOCKTYPE_PLAIN_MESH, 2, [3, 2], none, none, 5,
      [Buffer.r8 [Dbl.fin 0, Dbl.fin 1, Dbl.fin 2], Buffer.r8 [Dbl.fin 5, Dbl.fin 6]]⟩ 7
    rfl rfl rfl rfl
    (by
      intro i e h
      match i, h with
      | 0, h => cases h; decide
      | 1, h => cases h; decide
      | _ + 2, h => cases h)
    (by decide) rfl).1

/-! ## Lemmas on print_value -/

theorem ABS_nzero : ABS Dbl.nzero = Dbl.nzero := by
  simp [ABS, Dbl.lt, Dbl.val]

theorem ABS_pinf : ABS Dbl.pinf = Dbl.pinf := by
  simp [ABS, Dbl.lt]

theorem ABS_ninf : ABS Dbl.ninf = Dbl.pinf := by
  simp [ABS, Dbl.lt, Dbl.neg]

theorem ABS_nan : ABS Dbl.nan = Dbl.nan := by
  simp [ABS, Dbl.lt]

/-- The divisor `MIN(ABS(a), ABS(b))` is a zero exactly when `b` is a zero, or
`a` is a zero and `b` is not NaN. -/
theorem divisor_isZero (a b : Dbl) :
    (MIN (ABS a) (ABS b)).isZero = true ↔
      (b.isZero = true ∨ (a.isZero = true ∧ b ≠ Dbl.nan)) := by
  cases a <;> cases b <;>
    simp only [ABS_fin, ABS_nzero, ABS_pinf, ABS_ninf, ABS_nan, MIN_fin] <;>
    simp [MIN, Dbl.lt, Dbl.isZero, Dbl.val]
  · rename_i p q
    constructor
    · intro h
      by_contra hne
      push_neg at hne
      have := lt_min (abs_pos.mpr hne.2) (abs_pos.mpr hne.1)
      rw [h] at this
      exact lt_irrefl _ this
    · rintro (rfl | rfl) <;> simp
  · rename_i q
    rw [if_neg (not_lt.mpr (abs_nonneg q))]
  · rename_i q
    by_cases h : q = 0 <;> simp [h]

/-- The guarded test is undefined exactly when the divisor is a zero, and is the
test of the program otherwise. -/
theorem rel_test_guarded_none (rnd : ℚ → Dbl) (relerr a b : Dbl) :
    rel_test_guarded rnd relerr a b = none ↔ (MIN (ABS a) (ABS b)).isZero = true := by
  unfold rel_test_guarded
  by_cases h : (MIN (ABS a) (ABS b)).isZero = true <;> simp [h]

/-! ## C21: the zero divisor of diff_block -/

/-- C21 (as stated): for the pair `a = 0.0`, `b = NaN` of a `double` buffer the
divisor `MIN(ABS(a), ABS(b))` is NaN, not a zero, although `a` is a zero: the
guarded test is defined, and `diff_block` prints nothing for the pair. -/
theorem diff_block_divisor_nan :
    MIN (ABS (Dbl.fin 0)) (ABS Dbl.nan) = Dbl.nan ∧
      Dbl.isZero (Dbl.fin 0) = true ∧
      Dbl.isZero (MIN (ABS (Dbl.fin 0)) (ABS Dbl.nan)) = false ∧
      rel_test_guarded Dbl.fin (Dbl.fin 0) (Dbl.fin 0) Dbl.nan = some false ∧
      diff_block Dbl.fin (Dbl.fin 0)
          ⟨['a'], BlockType.SDF_BLOCKTYPE_PLAIN_VARIABLE, Datatype.SDF_DATATYPE_REAL8, 1,
            Buffer.r8 [Dbl.fin 0]⟩
          ⟨['a'], BlockType.SDF_BLOCKTYPE_PLAIN_VARIABLE, Datatype.SDF_DATATYPE_REAL8, 1,
            Buffer.r8 [Dbl.nan]⟩ =
        some (0, [Event.read_data 0 ['a'], Event.read_data 1 ['a']]) := by
  have hmin : MIN (ABS (Dbl.fin 0)) (ABS Dbl.nan) = Dbl.nan := by
    rw [ABS_nan, ABS_fin]
    rfl
  have htest : rel_test Dbl.fin (Dbl.fin 0) (Dbl.fin 0) Dbl.nan = false := by
    simp [rel_test, rel_diff, hmin, Dbl.sub, Dbl.div, ABS_nan, Dbl.gt, Dbl.lt]
  refine ⟨hmin, rfl, by rw [hmin]; rfl, ?_, ?_⟩
  · simp [rel_test_guarded, hmin, Dbl.isZero, htest]
  · rw [diff_block_single Dbl.fin (Dbl.fin 0)
      ⟨['a'], BlockType.SDF_BLOCKTYPE_PLAIN_VARIABLE, Datatype.SDF_DATATYPE_REAL8, 1,
        Buffer.r8 [Dbl.fin 0]⟩
      ⟨['a'], BlockType.SDF_BLOCKTYPE_PLAIN_VARIABLE, Datatype.SDF_DATATYPE_REAL8, 1,
        Buffer.r8 [Dbl.nan]⟩ (Or.inl rfl) rfl rfl rfl (Dbl.fin 0) Dbl.nan rfl rfl, htest]
    rfl

/-- C21 (amended): every datatype branch of `diff_block` divides by
`MIN(ABS(a), ABS(b))` for every element pair.  The divisor is a zero exactly
when `b` is a zero, or `a` is a zero and `b` is not NaN; so for every pair
other than a zero `a` with a NaN `b` the divisor is a zero if and only if `a`
or `b` is a zero, the guarded test is undefined exactly for the pairs with a
zero operand, and for two non-zero values it is defined and is the test of the
program. -/
theorem diff_block_divisor_zero_iff (rnd : ℚ → Dbl) (relerr a b : Dbl) :
    rel_test rnd relerr a b =
        Dbl.gt (Dbl.div rnd (ABS (Dbl.sub rnd a b)) (MIN (ABS a) (ABS b))) relerr ∧
      ((MIN (ABS a) (ABS b)).isZero = true ↔
        (b.isZero = true ∨ (a.isZero = true ∧ b ≠ Dbl.nan))) ∧
      (¬ (a.isZero = true ∧ b = Dbl.nan) →
        (((MIN (ABS a) (ABS b)).isZero = true ↔ (a.isZero = true ∨ b.isZero = true)) ∧
          (rel_test_guarded rnd relerr a b = none ↔
            (a.isZero = true ∨ b.isZero = true)))) ∧
      (a.isZero = false → b.isZero = false →
        rel_test_guarded rnd relerr a b = some (rel_test rnd relerr a b)) := by
  have hz := divisor_isZero a b
  have hiff : ¬ (a.isZero = true ∧ b = Dbl.nan) →
      ((MIN (ABS a) (ABS b)).isZero = true ↔ (a.isZero = true ∨ b.isZero = true)) := by
    intro hn
    rw [hz]
    constructor
    · rintro (h | ⟨h, _⟩)
      · exact Or.inr h
      · exact Or.inl h
    · rintro (h | h)
      · exact Or.inr ⟨h, fun hb => hn ⟨h, hb⟩⟩
      · exact Or.inl h
  refine ⟨rfl, hz, fun hn => ⟨hiff hn, ?_⟩, fun ha hb => ?_⟩
  · rw [rel_test_guarded_none, hiff hn]
  · have hnz : ¬ (MIN (ABS a) (ABS b)).isZero = true := by
      rw [hz, ha, hb]
      simp
    simp [rel_test_guarded, hnz]

/-- C21, witness: the pair (0, 5) has a zero divisor and the guarded test is
undefined; for the pair (2, 4) it is the test of the program. -/
theorem diff_block_divisor_zero_iff_witness :
    rel_test_guarded Dbl.fin (Dbl.fin 0) (Dbl.fin 0) (Dbl.fin 5) = none ∧
      rel_test_guarded Dbl.fin (Dbl.fin 0) (Dbl.fin 2) (Dbl.fin 4) =
        some (rel_test Dbl.fin (Dbl.fin 0) (Dbl.fin 2) (Dbl.fin 4)) :=
  ⟨(((diff_block_divisor_zero_iff Dbl.fin (Dbl.fin 0) (Dbl.fin 0) (Dbl.fin 5)).2.2.1
      (by simp)).2).mpr (Or.inl rfl),
    (diff_block_divisor_zero_iff Dbl.fin (Dbl.fin 0) (Dbl.fin 2) (Dbl.fin 4)).2.2.2
      (by simp [Dbl.isZero]) (by simp [Dbl.isZero])⟩

/-! ## C22: a buffer compared with itself -/

/-- The test of `diff_block` on a value and itself is false for every
`relerr >= 0`: the quotient is a zero for a non-zero finite value and NaN for a
zero, an infinity and NaN. -/
theorem rel_test_self (rnd : ℚ → Dbl) (relerr x : Dbl)
    (hr : Dbl.ge relerr (Dbl.fin 0) = true) : rel_test rnd relerr x x = false := by
  have hz : Dbl.lt relerr (Dbl.fin 0) = false := lt_false_of_le _ _ hr
  have hn : Dbl.lt relerr Dbl.nan = false := by cases relerr <;> rfl
  unfold rel_test rel_diff Dbl.gt
  cases x with
  | fin q =>
    have hsub : Dbl.sub rnd (Dbl.fin q) (Dbl.fin q) = Dbl.fin 0 := by
      simp [Dbl.sub, Dbl.val]
    rw [hsub, ABS_fin, ABS_fin, MIN_fin, abs_zero, min_self]
    by_cases hq : q = 0
    · subst hq
      have : Dbl.div rnd (Dbl.fin 0) (Dbl.fin |0|) = Dbl.nan := by
        simp [Dbl.div, Dbl.isInf, Dbl.isZero]
      rw [this, hn]
    · have : Dbl.div rnd (Dbl.fin 0) (Dbl.fin |q|) = Dbl.fin 0 := by
        simp [Dbl.div, Dbl.isInf, Dbl.isZero, hq, Dbl.signedZero, Dbl.signbit]
      rw [this, hz]
  | nzero =>
    have : Dbl.div rnd (ABS (Dbl.sub rnd Dbl.nzero Dbl.nzero)) (MIN (ABS Dbl.nzero)
        (ABS Dbl.nzero)) = Dbl.nan := by
      simp [ABS_nzero, Dbl.sub, Dbl.val, ABS_fin, MIN, Dbl.lt, Dbl.div, Dbl.isInf, Dbl.isZero]
    rw [this, hn]
  | pinf =>
    have : Dbl.div rnd (ABS (Dbl.sub rnd Dbl.pinf Dbl.pinf)) (MIN (ABS Dbl.pinf)
        (ABS Dbl.pinf)) = Dbl.nan := by
      simp [Dbl.sub, ABS_nan, Dbl.div]
    rw [this, hn]
  | ninf =>
    have : Dbl.div rnd (ABS (Dbl.sub rnd Dbl.ninf Dbl.ninf)) (MIN (ABS Dbl.ninf)
        (ABS Dbl.ninf)) = Dbl.nan := by
      simp [Dbl.sub, ABS_nan, Dbl.div]
    rw [this, hn]
  | nan =>
    have : Dbl.div rnd (ABS (Dbl.sub rnd Dbl.nan Dbl.nan)) (MIN (ABS Dbl.nan)
        (ABS Dbl.nan)) = Dbl.nan := by
      simp [Dbl.sub, ABS_nan, Dbl.div]
    rw [this, hn]

/-- C22: for every datatype that `diff_block` compares, every buffer of that
datatype with `nelements_local` elements (zeros, infinities and NaN included)
and every `relerr >= 0`, `diff_block` on two blocks holding that same buffer
loads both blocks and prints no mismatch line. -/
theorem diff_block_self_no_mismatch (rnd : ℚ → Dbl) (relerr : Dbl) (b1 b2 : Block)
    (hbt : b1.blocktype = BlockType.SDF_BLOCKTYPE_PLAIN_VARIABLE ∨
      b1.blocktype = BlockType.SDF_BLOCKTYPE_PLAIN_DERIVED)
    (hd : b1.data.holds b1.datatype = true)
    (hn : b1.data.size = b1.nelements_local.toNat)
    (hsame : b2.data = b1.data)
    (hr : Dbl.ge relerr (Dbl.fin 0) = true) :
    diff_block rnd relerr b1 b2 =
      some (0, [Event.read_data 0 b1.id, Event.read_data 1 b2.id]) := by
  rw [diff_block_typed rnd relerr b1 b2 hbt hd (by rw [hsame]; exact hd) hn
    (by rw [hsame]; exact hn), hsame]
  have : (List.range b1.nelements_local.toNat).filterMap (fun n =>
      if rel_test rnd relerr ((b1.data.values rnd).getD n Dbl.nan)
          ((b1.data.values rnd).getD n Dbl.nan) = true then
        some (Event.mismatch b1.id n ((b1.data.values rnd).getD n Dbl.nan)
          ((b1.data.values rnd).getD n Dbl.nan))
      else none) = [] := by
    rw [List.filterMap_eq_nil_iff]
    intro n _
    rw [rel_test_self rnd relerr _ hr]
    rfl
  rw [this]
  rfl

/-- C22, witness: a `double` buffer holding 0, -0, 1.5, +Infinity and NaN
compared with itself at `relerr = 0`. -/
theorem diff_block_self_no_mismatch_witness :
    diff_block Dbl.fin (Dbl.fin 0)
        ⟨['a'], BlockType.SDF_BLOCKTYPE_PLAIN_VARIABLE, Datatype.SDF_DATATYPE_REAL8, 5,
          Buffer.r8 [Dbl.fin 0, Dbl.nzero, Dbl.fin (3 / 2), Dbl.pinf, Dbl.nan]⟩
        ⟨['b'], BlockType.SDF_BLOCKTYPE_PLAIN_VARIABLE, Datatype.SDF_DATATYPE_REAL8, 5,
          Buffer.r8 [Dbl.fin 0, Dbl.nzero, Dbl.fin (3 / 2), Dbl.pinf, Dbl.nan]⟩ =
      some (0, [Event.read_data 0 ['a'], Event.read_data 1 ['b']]) :=
  diff_block_self_no_mismatch Dbl.fin (Dbl.fin 0)
    ⟨['a'], BlockType.SDF_BLOCKTYPE_PLAIN_VARIABLE, Datatype.SDF_DATATYPE_REAL8, 5,
      Buffer.r8 [Dbl.fin 0, Dbl.nzero, Dbl.fin (3 / 2), Dbl.pinf, Dbl.nan]⟩
    ⟨['b'], BlockType.SDF_BLOCKTYPE_PLAIN_VARIABLE, Datatype.SDF_DATATYPE_REAL8, 5,
      Buffer.r8 [Dbl.fin 0, Dbl.nzero, Dbl.fin (3 / 2), Dbl.pinf, Dbl.nan]⟩
    (Or.inl rfl) rfl rfl rfl (by simp [Dbl.ge, Dbl.le, Dbl.val])

/-! ## Lemmas on the range of the indices of pretty_print -/

/-- The stride factors of a shape with one more dimension: those of the shape,
then the product of its extents. -/
theorem strides_append (init : List Int) (d : Int) :
    (List.range (init ++ [d]).length).map (stride (init ++ [d])) =
      (List.range init.length).map (stride init) ++ [init.prod] := by
  rw [List.length_append, List.length_singleton, List.range_succ, List.map_append]
  congr 1
  · apply List.map_congr_left
    intro i hi
    rw [List.mem_range] at hi
    simp only [stride]
    rw [List.take_append_of_le_length (by omega)]
  · simp [stride]

/-- The second loop of `pretty_print` over the stride factors of a shape with
extents `>= 1` and at most `INT_MAX` elements, from a remainder below the
number of elements: every division is defined and the quotient of a dimension
is below its extent. -/
theorem idx0_loop_bounds :
    ∀ (ds : List Int) (rem : Int), (∀ d ∈ ds, 1 ≤ d) → ds.prod ≤ INT_MAX → 0 ≤ rem →
      rem < ds.prod →
      ∃ l, idx0_loop ((List.range ds.length).map (stride ds)).reverse rem = some l ∧
        List.Forall₂ (fun q d => 0 ≤ q ∧ q < d) l ds.reverse := by
  intro ds
  induction ds using List.reverseRecOn with
  | nil =>
    intro rem _ _ _ _
    exact ⟨[], rfl, List.Forall₂.nil⟩
  | append_singleton init d ih =>
    intro rem hd hp h0 hlt
    have hinit : ∀ x ∈ init, 1 ≤ x := fun x hx => hd x (by simp [hx])
    have hd1 : 1 ≤ d := hd d (by simp)
    have hP : 1 ≤ init.prod := prod_pos_of_ge_one init hinit
    have hprod : (init ++ [d]).prod = init.prod * d := by simp
    rw [hprod] at hp hlt
    unfold INT_MAX at hp
    have hPle : init.prod ≤ 2147483647 := by nlinarith
    have hdiv : c_div rem init.prod = some (rem / init.prod) := by
      unfold c_div
      rw [if_neg (by omega), if_neg (by omega), Int.tdiv_eq_ediv h0 (by omega)]
    have hq0 : 0 ≤ rem / init.prod := Int.ediv_nonneg h0 (by omega)
    have hqd : rem / init.prod < d :=
      Int.ediv_lt_of_lt_mul (by omega) (by rw [mul_comm]; exact hlt)
    have hmul : rem / init.prod * init.prod ≤ rem := Int.ediv_mul_le rem (by omega)
    have hmul0 : 0 ≤ rem / init.prod * init.prod := Int.mul_nonneg hq0 (by omega)
    have hrem : rem ≤ 2147483647 := by omega
    have hw1 : wrap32 (rem / init.prod * init.prod) = rem / init.prod * init.prod :=
      wrap32_eq_self _ (by omega) (by omega)
    have hw2 : wrap32 (rem - rem / init.prod * init.prod) = rem - rem / init.prod * init.prod :=
      wrap32_eq_self _ (by omega) (by omega)
    have hmod : rem - rem / init.prod * init.prod = rem % init.prod := by
      rw [Int.emod_def, mul_comm]
    have hm0 : 0 ≤ rem % init.prod := Int.emod_nonneg _ (by omega)
    have hm1 : rem % init.prod < init.prod := Int.emod_lt_of_pos _ (by omega)
    obtain ⟨l, hl, hall⟩ := ih (rem % init.prod) hinit (by unfold INT_MAX; omega) hm0 hm1
    refine ⟨rem / init.prod :: l, ?_, ?_⟩
    · rw [strides_append, List.reverse_append, List.reverse_singleton, List.singleton_append,
        idx0_loop, hdiv]
      simp only []
      rw [hw1, hw2, hmod, hl]
    · rw [List.reverse_append, List.reverse_singleton, List.singleton_append]
      exact List.Forall₂.cons ⟨hq0, hqd⟩ hall

/-- The index decomposition of `pretty_print` on a shape without sub-range,
with extents `>= 1` and at most `INT_MAX` elements: the stride factors are
positive, so no division is by zero, and the index of every dimension is below
its extent. -/
theorem pretty_print_decompose_bounds (dims : List Int) (n : Int)
    (hd : ∀ d ∈ dims, 1 ≤ d) (hp : dims.prod ≤ INT_MAX) (h0 : 0 ≤ n) (hn : n < dims.prod) :
    ∃ fac idx0, pretty_print_fac none none dims dims.length = some fac ∧
      (∀ f ∈ fac, 1 ≤ f) ∧
      pretty_print_decompose dims n = some idx0 ∧
      List.Forall₂ (fun q d => 0 ≤ q ∧ q < d) idx0 dims := by
  have hfac : pretty_print_fac none none dims dims.length =
      some ((List.range dims.length).map (stride dims)) := by
    have := fac_loop_eq_strides dims hd hp dims [] (by simp)
    simpa [pretty_print_fac] using this
  obtain ⟨l, hl, hall⟩ := idx0_loop_bounds dims n hd hp h0 hn
  refine ⟨_, l.reverse, hfac, ?_, ?_, ?_⟩
  · intro f hf
    rw [List.mem_map] at hf
    obtain ⟨i, _, hi⟩ := hf
    rw [← hi]
    exact (stride_bounds dims hd i).1
  · simp only [pretty_print_decompose, hfac, pretty_print_idx0, hl, Option.map_some']
  · rw [← List.forall₂_reverse_iff, List.reverse_reverse]
    exact hall

/-! ## C23: the range of the indices of pretty_print -/

/-- C23 (as stated): for the shape `[65536, 65536, 3]`, whose extents are
`>= 1`, the `int` product of the first two extents is 0, so `fac[2]` is 0 and
the decomposition of the linear index 1 divides by zero. -/
theorem pretty_print_decompose_zero_stride :
    (∀ d ∈ ([65536, 65536, 3] : List Int), 1 ≤ d) ∧
      (1 : Int) < ([65536, 65536, 3] : List Int).prod ∧
      pretty_print_fac none none [65536, 65536, 3] 3 = some [1, 65536, 0] ∧
      c_div 1 0 = none ∧
      pretty_print_decompose [65536, 65536, 3] 1 = none := by
  decide

/-- C23 (amended): for every shape without sub-range whose extents are `>= 1`
and whose number of elements is at most `INT_MAX`, and every linear index `n`
with `0 <= n < product(dims)`, every stride factor `fac[i]` is at least 1, so
no division is by zero, and the index that `pretty_print` computes for every
dimension is in range: `0 <= idx0[i] < dims[i]`. -/
theorem pretty_print_decompose_in_range (dims : List Int) (n : Int)
    (hd : ∀ d ∈ dims, 1 ≤ d) (hp : dims.prod ≤ INT_MAX) (h0 : 0 ≤ n) (hn : n < dims.prod) :
    ∃ fac idx0, pretty_print_fac none none dims dims.length = some fac ∧
      (∀ f ∈ fac, f ≠ 0) ∧
      pretty_print_decompose dims n = some idx0 ∧
      idx0.length = dims.length ∧
      ∀ i (h1 : i < idx0.length) (h2 : i < dims.length),
        0 ≤ idx0.get ⟨i, h1⟩ ∧ idx0.get ⟨i, h1⟩ < dims.get ⟨i, h2⟩ := by
  obtain ⟨fac, idx0, hfac, hpos, hdec, hall⟩ := pretty_print_decompose_bounds dims n hd hp h0 hn
  refine ⟨fac, idx0, hfac, ?_, hdec, hall.length_eq, ?_⟩
  · intro f hf
    have := hpos f hf
    omega
  · intro i h1 h2
    exact (List.forall₂_iff_get.mp hall).2 i h1 h2

/-- C23, witness: in the shape `[3, 4, 5]` the linear index 37 has the indices
`[1, 0, 3]`, each below its extent, with the stride factors `[1, 3, 12]`. -/
theorem pretty_print_decompose_in_range_witness :
    pretty_print_fac none none [3, 4, 5] 3 = some [1, 3, 12] ∧
      pretty_print_idx0 [1, 3, 12] 37 = some [1, 0, 3] ∧
      ∃ fac idx0, pretty_print_fac none none [3, 4, 5] ([3, 4, 5] : List Int).length = some fac ∧
        (∀ f ∈ fac, f ≠ 0) ∧
        pretty_print_decompose [3, 4, 5] 37 = some idx0 ∧
        idx0.length = ([3, 4, 5] : List Int).length ∧
        ∀ i (h1 : i < idx0.length) (h2 : i < ([3, 4, 5] : List Int).length),
          0 ≤ idx0.get ⟨i, h1⟩ ∧ idx0.get ⟨i, h1⟩ < ([3, 4, 5] : List Int).get ⟨i, h2⟩ :=
  ⟨by decide, by decide, pretty_print_decompose_in_range [3, 4, 5] 37 (by decide) (by decide)
    (by decide) (by decide)⟩

/-! ## C24: the open-start range token -/

/-- C24, failing input: the argument `5-3,-7` gives the range list `[(5, 7)]`,
also when the two tokens come in two arguments, while `-7` alone gives
`[(0, 7)]`: the entry that the discarded range `5-3` had started is handed out
again with its `start` 5. -/
theorem parse_arg_open_start_after_discard :
    (parse_arg ArgState.init ['5', '-', '3', ',', '-', '7']).ranges = [⟨5, 7⟩] ∧
      (parse_arg ArgState.init ['-', '7']).ranges = [⟨0, 7⟩] ∧
      (parse_arg ArgState.init ['3', ',', '-', '7']).ranges = [⟨3, 3⟩, ⟨0, 7⟩] ∧
      (parse_args_options ArgState.init [Opt.v ['5', '-', '3'], Opt.v ['-', '7']]).map
        ArgState.ranges = some [⟨5, 7⟩] ∧
      parse_args_sanitize (parse_arg ArgState.init ['5', '-', '3', ',', '-', '7']).ranges =
        [⟨5, 7⟩] := by
  decide

/-! ## Lemmas on the array accesses of pretty_print_mesh -/

/-- The element loop of `pretty_print_mesh` without sub-range, entered as in
`mesh_loop_values` on a block with at least one grid per dimension: every
access is inside its array except the read of `grids[ndims]` that follows the
last element, so the run stays inside the arrays exactly when `grids` has more
than `ndims` entries. -/
theorem mesh_loop_accesses (cfg : PrintConfig) (idnum : Int) (b : ArrayBlock) (digits : List Int)
    (he : b.array_ends = none) (hg : b.local_dims.length ≤ b.grids.length)
    (hgs : ∀ i e, b.local_dims.get? i = some e → e ≤ ((b.grids.getD i (Buffer.i4 [])).size : Int)) :
    ∀ (left : Nat) (pre : List Int) (d : Int) (post : List Int) (idx : List Int) (k : Nat),
      b.local_dims = pre ++ d :: post → (k : Int) < d →
      idx.get? pre.length = some (k : Int) →
      (∀ j, pre.length < j → j < b.local_dims.length → idx.get? j = some 0) →
      (∀ e ∈ post, 1 ≤ e) →
      left = (d - k).toNat + (post.map Int.toNat).sum →
      (mesh_loop cfg idnum b digits left idx pre.length (some (pre.length, k)) 0).2 =
        decide (b.local_dims.length < b.grids.length) := by
  intro left
  induction left with
  | zero =>
    intro pre d post idx k _ hk _ _ _ hleft
    omega
  | succ left ih =>
    intro pre d post idx k hdims hk hidx hzero hpost hleft
    have hdget : b.local_dims.get? pre.length = some d := by
      rw [hdims, List.get?_eq_getElem?, List.getElem?_append_right (le_refl _)]
      simp
    have hsize : ¬ ((b.grids.getD pre.length (Buffer.i4 [])).size ≤ k) := by
      have := hgs pre.length d hdget
      omega
    have hadv : mesh_advance b pre.length ((k : Int) + 1) = some (decide ((k : Int) + 1 ≥ d)) := by
      rw [List.get?_eq_getElem?] at hdget
      simp [mesh_advance, he, hdget]
    rw [mesh_loop]
    simp only [hsize, if_false, hidx, hadv]
    by_cases hlast : (k : Int) + 1 ≥ d
    · simp only [hlast, decide_True]
      cases post with
      | nil =>
        have hl0 : left = 0 := by simp at hleft; omega
        have hlen : b.local_dims.length = pre.length + 1 := by rw [hdims]; simp
        rw [hl0, hlen]
        simp [mesh_loop]
      | cons d2 post2 =>
        have hd2 : 1 ≤ d2 := hpost d2 (List.mem_cons_self _ _)
        have hlen : b.local_dims.length = pre.length + 1 + (post2.length + 1) := by
          rw [hdims]; simp; omega
        have hptr : pre.length + 1 < b.grids.length := by omega
        have hpre2 : (pre ++ [d]).length = pre.length + 1 := by simp
        have hrec := ih (pre ++ [d]) d2 post2 (idx.set pre.length 0) 0
          (by rw [hdims]; simp) (by simpa using hd2)
          (by
            rw [hpre2]
            have := hzero (pre.length + 1) (by omega) (by omega)
            rw [List.get?_eq_getElem?] at this ⊢
            rw [List.getElem?_set_ne (by omega)]
            exact this)
          (by
            intro j hj1 hj2
            rw [hpre2] at hj1
            have := hzero j (by omega) hj2
            rw [List.get?_eq_getElem?] at this ⊢
            rw [List.getElem?_set_ne (by omega)]
            exact this)
          (fun e he2 => hpost e (List.mem_cons_of_mem _ he2))
          (by
            simp only [List.map_cons, List.sum_cons] at hleft
            simp only [Nat.cast_zero, sub_zero]
            omega)
        rw [hpre2] at hrec
        simp only [hptr, if_true, decide_True, Bool.true_and]
        exact hrec
    · simp only [hlast, decide_False]
      have hrec := ih pre d post (idx.set pre.length ((k : Int) + 1)) (k + 1) hdims
        (by push_cast; omega)
        (by
          have hlt : pre.length < idx.length := by
            rw [List.get?_eq_getElem?] at hidx
            exact (List.getElem?_eq_some_iff.mp hidx).1
          rw [List.get?_eq_getElem?, List.getElem?_set_self hlt]
          push_cast; rfl)
        (by
          intro j hj1 hj2
          have := hzero j hj1 hj2
          rw [List.get?_eq_getElem?] at this ⊢
          rw [List.getElem?_set_ne (by omega)]
          exact this)
        hpost (by omega)
      have hn : (if (0 : Int) + 1 = 1 then (0 : Int) else 0 + 1) = 0 := by simp
      rw [hn]
      exact hrec

/-- For every mesh block without sub-range with `ndims >= 1`, extents `>= 1`,
`nelements_local` the sum of the extents and grids that hold their extents, the
run of `pretty_print_mesh` stays inside the arrays exactly when `grids` has
more than `ndims` entries: with one grid per dimension it reads `grids[ndims]`
after the last element. -/
theorem pretty_print_mesh_accesses (cfg : PrintConfig) (b : ArrayBlock) (idnum : Int)
    (hs : b.array_starts = none) (he : b.array_ends = none)
    (hnd : b.ndims = b.local_dims.length) (h1 : 1 ≤ b.ndims)
    (hg : b.local_dims.length ≤ b.grids.length)
    (hgs : ∀ i e, b.local_dims.get? i = some e →
      e ≤ ((b.grids.getD i (Buffer.i4 [])).size : Int))
    (hd : ∀ e ∈ b.local_dims, 1 ≤ e) (hN : b.nelements_local = b.local_dims.sum) :
    (pretty_print_mesh cfg b idnum).2 = decide (b.ndims < b.grids.length) := by
  obtain ⟨digits, hdig⟩ := digits_loop_whole cfg.index_offset b.local_dims b.ndims 0
    (by omega)
  unfold pretty_print_mesh
  rw [hs, he, hdig]
  simp only []
  cases hdims : b.local_dims with
  | nil => rw [hnd, hdims] at h1; simp at h1
  | cons d post =>
    have hd1 : 1 ≤ d := hd d (by rw [hdims]; exact List.mem_cons_self _ _)
    have hpost : ∀ e ∈ post, 1 ≤ e :=
      fun e hmem => hd e (by rw [hdims]; exact List.mem_cons_of_mem _ hmem)
    have hsum := sum_toNat post hpost
    have hlen : b.ndims = post.length + 1 := by rw [hnd, hdims]; rfl
    have hglen : 0 < b.grids.length := by rw [hdims] at hg; simp at hg; omega
    have hrun := mesh_loop_accesses cfg idnum b digits he hg hgs b.nelements_local.toNat
      [] d post (List.replicate b.ndims 0) 0 hdims (by simpa using hd1)
      (by rw [hlen]; rfl)
      (by
        intro j _ hj
        rw [hdims] at hj
        rw [List.get?_eq_getElem?, List.getElem?_replicate]
        have : j < b.ndims := by rw [hlen]; simpa using hj
        simp [this])
      hpost
      (by
        rw [hN, hdims, List.sum_cons, ← hsum.1]
        have := hsum.2
        simp only [Nat.cast_zero, sub_zero]
        omega)
    simp only [List.length_nil] at hrun
    simp only [hglen, if_true, decide_True, Bool.true_and]
    rw [hrun, ← hnd]

/-! ## C25: the array accesses of pretty_print_mesh -/

/-- C25, failing input: a mesh block with one dimension of extent 2, one grid
of 2 elements, no sub-range and `nelements_local = 2`.  The run writes both
values and then reads `grids[1]`, outside the array `grids`; stopped one
element earlier (`nelements_local = 1`) no access is outside, and with a second
entry in `grids` none is. -/
theorem pretty_print_mesh_reads_past_grids :
    pretty_print_mesh ⟨false, false, false, 1⟩
        ⟨BlockType.SDF_BLOCKTYPE_PLAIN_MESH, 1, [2], none, none, 2,
          [Buffer.r8 [Dbl.fin 0, Dbl.fin 1]]⟩ 1 =
        ([Tok.grid_value 0 0, Tok.newline, Tok.grid_value 0 1, Tok.newline], false) ∧
      (pretty_print_mesh ⟨false, false, false, 1⟩
        ⟨BlockType.SDF_BLOCKTYPE_PLAIN_MESH, 1, [2], none, none, 1,
          [Buffer.r8 [Dbl.fin 0, Dbl.fin 1]]⟩ 1).2 = true ∧
      (pretty_print_mesh ⟨false, false, false, 1⟩
        ⟨BlockType.SDF_BLOCKTYPE_PLAIN_MESH, 1, [2], none, none, 2,
          [Buffer.r8 [Dbl.fin 0, Dbl.fin 1], Buffer.r8 []]⟩ 1).2 = true := by
  decide

end sdfdiff
